import Mathlib

/-!
Verification development for the HomeAccountingDB repository.

The embedding below is a shallow model of the Rust sources:

* `src/core/time_series_data.rs` — the bounded LRU bucket cache
  (`TimeSeriesData<T>`), its doubly-linked LRU list threaded through a
  dense `Vec<Option<Mutex<DataHolder<T>>>>`, the dirty set, eviction and
  lazy loading.
* `src/entities/finance_operations.rs` — `FinanceChange(s)`,
  `FinanceRecord`, `FinanceOperation` and the operation interpreter.
* `src/entities/subcategories.rs`, `src/entities/accounts.rs` — reference
  data used by the interpreter.
* `src/db.rs` — `HomeAccountingDB`, `build_totals`,
  `build_ops_and_changes`.

Modelling conventions:

* The code is single-threaded (spec §5); `Mutex`, `Rc` and `AtomicUsize`
  are modelled by explicit state passing.  Each stateful Rust method
  becomes a Lean function returning the mutated state together with an
  `Except` result, mirroring in-place mutation plus `?` propagation.
* `usize`/`u64` counters are `Nat` with explicit wrap-around (mod 2^64)
  at the spots where the Rust code can overflow (`fetch_add`,
  `fetch_sub`, `date - 1`); `isize`/`i64` are `Int`.
* A Rust panic (slice index out of bounds, `unwrap` of `None`,
  re-entrant `Mutex::lock` on the same thread) is the error `.fatal`;
  an `std::io::Error` propagated with `?` is `.io`; a loop the Rust
  code can never leave is `.hang`.  After `.io` the Rust object stays
  usable, after `.fatal`/`.hang` the process is gone, which is how the
  reachability relations below treat them.
* `data_folder_path` is constant throughout and is dropped; the
  `DatedSource` operations close over it.
* The ghost field `log_saved` records the keys passed to
  `DatedSource::save`, in call order, so that write-back claims can be
  stated; no modelled code branches on it.
-/

/-- Error outcomes of the modelled Rust code. `io` is an
`std::io::Error` propagated with `?`; `fatal` is a panic (index out of
bounds, `unwrap` of `None`, re-entrant lock); `hang` is an infinite
loop. -/
inductive TsError where
  | io : TsError
  | fatal : TsError
  | hang : TsError
deriving DecidableEq, Repr

/-- `FileWithDate` from `core/time_series_data.rs`. -/
structure FileWithDate where
  name : String
  date : Nat
deriving DecidableEq, Repr

/-- The `DatedSource<T>` trait: `get_files`, `load` and `save`
(`parse_date` is only used during the directory scan, which the cache
model takes as an already-parsed list of dates).  `data_folder_path`
is dropped (constant). -/
structure DatedSource (T : Type) where
  get_files : Nat → Except TsError (List FileWithDate)
  load : List FileWithDate → Except TsError T
  save : T → Nat → Except TsError Unit

/-- `DataHolder<T>`: `data` is `Option<Rc<Mutex<T>>>` (the resident
payload), `prev`/`next` are the LRU links expressed as keys. -/
structure DataHolder (T : Type) where
  data : Option T
  key : Nat
  prev : Option Nat
  next : Option Nat
deriving DecidableEq, Repr

/-- One `usize` word: the Rust counters wrap at 2^64. -/
def USIZE_MOD : Nat := 18446744073709551616

/-- `AtomicUsize::fetch_add(1)` — wraps at 2^64. -/
def usizeAdd1 (a : Nat) : Nat := (a + 1) % USIZE_MOD

/-- `AtomicUsize::fetch_sub(1)` — wraps at 2^64. -/
def usizeSub1 (a : Nat) : Nat := if a = 0 then USIZE_MOD - 1 else a - 1

/-- Wrapping `u64` subtraction (release-mode Rust semantics of `a - b`). -/
def u64sub (a b : Nat) : Nat := (a + (USIZE_MOD - b % USIZE_MOD)) % USIZE_MOD

/-- `TimeSeriesData<T>` state.  `data` is the dense
`Vec<Option<Mutex<DataHolder<T>>>>` (its length is the `capacity`
passed to `new`), `modified` the dirty `HashSet<usize>` (membership
only), `log_saved` the ghost write-back log. -/
structure TimeSeriesData (T : Type) where
  max_active_items : Nat
  active_items : Nat
  data : List (Option (DataHolder T))
  modified : List Nat
  head : Option Nat
  tail : Option Nat
  index_calculator : Nat → Int
  max_index : Int
  log_saved : List Nat

/-- `DataHolder::empty`. -/
def DataHolder.empty {T : Type} (key : Nat) : DataHolder T :=
  { data := none, key := key, prev := none, next := none }

namespace TimeSeriesData

variable {T : Type}

/-- Write a slot that is known to be in bounds (callers check or panic
first). -/
def writeHolder (s : TimeSeriesData T) (k : Nat) (h : DataHolder T) :
    TimeSeriesData T :=
  { s with data := s.data.set k (some h) }

/-- The payload visible at key `k` (`None` for a placeholder, an empty
slot, or an out-of-range key). -/
def payloadAt (s : TimeSeriesData T) (k : Nat) : Option T :=
  match s.data[k]? with
  | some (some h) => h.data
  | _ => none

/-- `true` iff slot `k` is occupied (resident or placeholder): the key
is known to the cache. -/
def knownB (s : TimeSeriesData T) (k : Nat) : Bool :=
  match s.data[k]? with
  | some (some _) => true
  | _ => false

/-- `validate_index`: a negative image of the index function is an
invalid date (`InvalidInput`). -/
def validate_index (ic : Nat → Int) (date : Nat) : Except TsError Nat :=
  let index := ic date
  if index < 0 then .error .io else .ok index.toNat

/-- `attach`: link `key` at the LRU head and bump the active counter.
Panics (`.fatal`) if the current head slot is missing or empty. -/
def attach (s : TimeSeriesData T) (key : Nat) :
    TimeSeriesData T × Except TsError Unit :=
  match s.head with
  | some hh =>
    match s.data[hh]? with
    | some (some h) =>
      let s1 := writeHolder s hh { h with prev := some key }
      ({ s1 with head := some key, active_items := usizeAdd1 s1.active_items },
       .ok ())
    | _ => (s, .error .fatal)
  | none =>
    ({ s with tail := some key, head := some key,
              active_items := usizeAdd1 s.active_items }, .ok ())

/-- First half of `detach`: `if let Some(next) = data.next` — repair
the `prev` pointer of the follower, or set `tail` (the guard passed in
is always the `tail` lock).  Locking a neighbour that is `idx` itself
would re-lock a held mutex (`.fatal`). -/
def detachNextStep (s : TimeSeriesData T) (idx : Nat) (hpv hnx : Option Nat) :
    TimeSeriesData T × Except TsError Unit :=
  match hnx with
  | some nxt =>
    if nxt = idx then (s, .error .fatal)
    else
      match s.data[nxt]? with
      | some (some nh) => (writeHolder s nxt { nh with prev := hpv }, .ok ())
      | _ => (s, .error .fatal)
  | none => ({ s with tail := hpv }, .ok ())

/-- Second half of `detach`: `if let Some(prev) = data.prev` — repair
the `next` pointer of the predecessor, or set `head`. -/
def detachPrevStep (s : TimeSeriesData T) (idx : Nat) (hpv hnx : Option Nat) :
    TimeSeriesData T × Except TsError Unit :=
  match hpv with
  | some prv =>
    if prv = idx then (s, .error .fatal)
    else
      match s.data[prv]? with
      | some (some ph) => (writeHolder s prv { ph with next := hnx }, .ok ())
      | _ => (s, .error .fatal)
  | none => ({ s with head := hnx }, .ok ())

/-- `detach`: unlink `idx` by running both pointer repairs on the
links read from `idx`'s holder. -/
def detach (s : TimeSeriesData T) (idx : Nat) :
    TimeSeriesData T × Except TsError Unit :=
  match s.data[idx]? with
  | some (some h) =>
    match detachNextStep s idx h.prev h.next with
    | (s1, .ok _) => detachPrevStep s1 idx h.prev h.next
    | e => e
  | _ => (s, .error .fatal)

/-- `HashSet::insert`. -/
def insertKey (l : List Nat) (k : Nat) : List Nat :=
  if k ∈ l then l else k :: l

/-- The dirty-save half of `remove_by_lru`: when the tail key `h` is
in the dirty set, call `source.save` on its payload (a panic when the
payload is gone) and drop it from the dirty set; the save failure path
returns before anything else changes, and the ghost log records the
`save` call either way. -/
def removeDirtyStep (src : DatedSource T) (s : TimeSeriesData T) (h : Nat) :
    TimeSeriesData T × Except TsError Unit :=
  if h ∈ s.modified then
    match s.data[h]? with
    | some (some holder) =>
      match holder.data with
      | some payload =>
        let s0 := { s with log_saved := s.log_saved ++ [h] }
        match src.save payload h with
        | .ok _ => ({ s0 with modified := s0.modified.filter (· ≠ h) }, .ok ())
        | .error e => (s0, .error e)
      | none => (s, .error .fatal)
    | _ => (s, .error .fatal)
  else (s, .ok ())

/-- The second half of `remove_by_lru`: clear the payload, decrement
the active counter, detach. -/
def removeClearStep (s1 : TimeSeriesData T) (h : Nat) :
    TimeSeriesData T × Except TsError Unit :=
  match s1.data[h]? with
  | some (some holder2) =>
    let s2 := writeHolder s1 h { holder2 with data := none }
    let s3 := { s2 with active_items := usizeSub1 s2.active_items }
    detach s3 h
  | _ => (s1, .error .fatal)

/-- `remove_by_lru`: evict the tail entry, saving it first when
dirty. -/
def remove_by_lru (src : DatedSource T) (s : TimeSeriesData T) :
    TimeSeriesData T × Except TsError Unit :=
  match s.tail with
  | none => (s, .ok ())
  | some h =>
    match removeDirtyStep src s h with
    | (s1, .ok _) => removeClearStep s1 h
    | e => e

/-- The eviction loop `while active_items >= max_active_items`.  The
loop body either errors out, or makes no progress (empty tail — the
Rust loop then spins forever, `.hang` once the fuel is gone), or
decrements the counter; the fuel chosen by `cleanup` is enough for
every terminating Rust execution. -/
def cleanupFuel (src : DatedSource T) :
    Nat → TimeSeriesData T → TimeSeriesData T × Except TsError Unit
  | 0, s => (s, .error .hang)
  | fuel + 1, s =>
    if s.max_active_items ≤ s.active_items then
      match remove_by_lru src s with
      | (s1, .ok _) => cleanupFuel src fuel s1
      | e => e
    else (s, .ok ())

/-- `cleanup`. -/
def cleanup (src : DatedSource T) (s : TimeSeriesData T) :
    TimeSeriesData T × Except TsError Unit :=
  cleanupFuel src (s.active_items + s.data.length + 2) s

/-- `add`: evict while full, build the new holder (`add_to_lru`
inlined: the holder's `next` is the head read before `attach`), attach
at the head, store the holder in the slot (a panic if `key` is outside
the vector — note the Rust panic strikes after `attach` already ran),
mark dirty, and maintain `max_index`. -/
def add (src : DatedSource T) (s : TimeSeriesData T) (key : Nat) (v : T)
    (add_to_modified : Bool) : TimeSeriesData T × Except TsError Unit :=
  match cleanup src s with
  | (s1, .ok _) =>
    let h : DataHolder T := { data := some v, key := key, prev := none, next := s1.head }
    match attach s1 key with
    | (s2, .ok _) =>
      if key < s2.data.length then
        let s3 := { s2 with data := s2.data.set key (some h) }
        let s4 := if add_to_modified
          then { s3 with modified := insertKey s3.modified key } else s3
        let s5 := if s4.max_index < (key : Int)
          then { s4 with max_index := (key : Int) } else s4
        (s5, .ok ())
      else (s2, .error .fatal)
    | e => e
  | e => e

/-- `move_to_front`: detach, then re-link at the head.  The Rust code
unwraps the head observed after the detach, so touching the only
linked entry panics; re-locking the touched entry itself also panics. -/
def move_to_front (s : TimeSeriesData T) (idx : Nat) :
    TimeSeriesData T × Except TsError Unit :=
  match detach s idx with
  | (s1, .ok _) =>
    let head_idx := s1.head
    match s1.data[idx]? with
    | some (some v) =>
      let s2 := writeHolder s1 idx { v with next := head_idx, prev := none }
      let s3 := { s2 with head := some idx }
      match head_idx with
      | none => (s3, .error .fatal)
      | some hh =>
        if hh = idx then (s3, .error .fatal)
        else
          match s3.data[hh]? with
          | some (some nh) => (writeHolder s3 hh { nh with prev := some idx }, .ok ())
          | _ => (s3, .error .fatal)
    | _ => (s1, .error .fatal)
  | e => e

/-- `get_t`: touch slot `key` (known to be occupied by the caller).
Resident: promote via `move_to_front` and return the payload.
Placeholder: evict first, fetch the file list, load, store the loaded
payload through the held holder guard, attach at the head. -/
def get_t (src : DatedSource T) (s : TimeSeriesData T) (key : Nat) :
    TimeSeriesData T × Except TsError T :=
  match s.data[key]? with
  | some (some v) =>
    match v.data with
    | some payload =>
      match move_to_front s key with
      | (s1, .ok _) => (s1, .ok payload)
      | (s1, .error e) => (s1, .error e)
    | none =>
      match cleanup src s with
      | (s1, .ok _) =>
        match src.get_files key with
        | .ok files =>
          match src.load files with
          | .ok t =>
            let s2 := writeHolder s1 key { v with data := some t, prev := none, next := s1.head }
            match attach s2 key with
            | (s3, .ok _) => (s3, .ok t)
            | (s3, .error e) => (s3, .error e)
          | .error e => (s1, .error e)
        | .error e => (s1, .error e)
      | (s1, .error e) => (s1, .error e)
  | _ => (s, .error .fatal)

/-- The body of `get`'s scan when slot `i` is occupied: touch it and
wrap the payload in `Some`. -/
def getHit (src : DatedSource T) (s : TimeSeriesData T) (i : Nat) :
    TimeSeriesData T × Except TsError (Option T) :=
  match get_t src s i with
  | (s1, .ok v) => (s1, .ok (some v))
  | (s1, .error e) => (s1, .error e)

/-- The descending scan of `get`: `for i in (0..=idx1).rev()`.  Slot
access out of the vector bounds is the Rust index panic. -/
def getLoop (src : DatedSource T) (s : TimeSeriesData T) :
    Nat → TimeSeriesData T × Except TsError (Option T)
  | 0 =>
    match s.data[0]? with
    | none => (s, .error .fatal)
    | some (some _) => getHit src s 0
    | some none => (s, .ok none)
  | i + 1 =>
    match s.data[i + 1]? with
    | none => (s, .error .fatal)
    | some (some _) => getHit src s (i + 1)
    | some none => getLoop src s i

/-- `get(date)`: the bucket at the greatest occupied slot `≤`
`index_calculator date`. -/
def get (src : DatedSource T) (s : TimeSeriesData T) (date : Nat) :
    TimeSeriesData T × Except TsError (Option T) :=
  match validate_index s.index_calculator date with
  | .error e => (s, .error e)
  | .ok idx1 => getLoop src s idx1

/-- The ascending scan of `get_range`: `for i in idx1..=idx2`. -/
def rangeLoop (src : DatedSource T) :
    Nat → Nat → TimeSeriesData T → List (Nat × T) →
    TimeSeriesData T × Except TsError (List (Nat × T))
  | i, stop, s, acc =>
    if stop < i then (s, .ok acc)
    else
      match s.data[i]? with
      | none => (s, .error .fatal)
      | some none => rangeLoop src (i + 1) stop s acc
      | some (some _) =>
        match get_t src s i with
        | (s1, .ok t) => rangeLoop src (i + 1) stop s1 (acc ++ [(i, t)])
        | (s1, .error e) => (s1, .error e)
  termination_by i stop _ _ => stop + 1 - i

/-- `get_range(from, to)`. -/
def get_range (src : DatedSource T) (s : TimeSeriesData T) (fromD toD : Nat) :
    TimeSeriesData T × Except TsError (List (Nat × T)) :=
  if s.max_index = -1 then (s, .ok [])
  else
    let idx1i := s.index_calculator fromD
    let idx1 : Nat := if idx1i < 0 then 0 else idx1i.toNat
    match validate_index s.index_calculator toD with
    | .error e => (s, .error e)
    | .ok idx2v =>
      let idx2 := if s.max_index < (idx2v : Int) then s.max_index.toNat else idx2v
      rangeLoop src idx1 idx2 s []

/-- `get_active_items`. -/
def get_active_items (s : TimeSeriesData T) : Nat := s.active_items

/-- `new`: an empty cache with `capacity` empty slots. -/
def new (ic : Nat → Int) (max_active capacity : Nat) : TimeSeriesData T :=
  { max_active_items := max_active, active_items := 0,
    data := List.replicate capacity none, modified := [],
    head := none, tail := none, index_calculator := ic,
    max_index := -1, log_saved := [] }

/-- The per-file loop of `init`: validate the parsed date, store a
placeholder, maintain `max_index`.  A key outside the vector is the
Rust index panic. -/
def initLoop (ic : Nat → Int) :
    List Nat → TimeSeriesData T → Except TsError (TimeSeriesData T)
  | [], s => .ok s
  | d :: rest, s =>
    match validate_index ic d with
    | .error e => .error e
    | .ok key =>
      if key < s.data.length then
        let s1 := { s with data := s.data.set key (some (DataHolder.empty key)) }
        let s2 := if s1.max_index < (key : Int)
          then { s1 with max_index := (key : Int) } else s1
        initLoop ic rest s2
      else .error .fatal

end TimeSeriesData

/-- `init`: placeholders for every scanned date, nothing resident.
`dates` is the list of dates parsed from the directory scan. -/
def TimeSeriesData.init {T : Type} (ic : Nat → Int) (max_active capacity : Nat)
    (dates : List Nat) : Except TsError (TimeSeriesData T) :=
  TimeSeriesData.initLoop ic dates (TimeSeriesData.new ic max_active capacity)

/-!  Entities: `subcategories.rs`, `accounts.rs`, `finance_operations.rs`. -/

/-- `SubcategoryCode` (the `code` field; `None` models a JSON null). -/
inductive SubcategoryCode where
  | Comb | Comc | Fuel | Prcn | Incc | Expc | Exch | Trfr | None
deriving DecidableEq, Repr

/-- `SubcategoryOperationCode` (`operationCodeId`). -/
inductive SubcategoryOperationCode where
  | Incm | Expn | Spcl
deriving DecidableEq, Repr

/-- `Subcategory`. -/
structure Subcategory where
  id : Nat
  name : String
  code : SubcategoryCode
  operation_code : SubcategoryOperationCode
  category : Nat
deriving DecidableEq, Repr

/-- `Subcategories`: the `HashMap<u64, Subcategory>` as an association
list (lookup by id). -/
structure Subcategories where
  map : List (Nat × Subcategory)
deriving DecidableEq, Repr

/-- `Subcategories::get`: `InvalidData("invalid subcategory id")` on a
miss. -/
def Subcategories.get (s : Subcategories) (id : Nat) : Except TsError Subcategory :=
  match s.map.lookup id with
  | some v => .ok v
  | none => .error .io

/-- `Account`: after `Accounts::load`, `cash_account` is `None` when the
account is itself a cash account and `Some id` of the canonical cash
account of its currency otherwise. -/
structure Account where
  id : Nat
  name : String
  currency : String
  active_to : Option Nat
  cash_account : Option Nat
deriving DecidableEq, Repr

/-- `Accounts`. -/
structure Accounts where
  map : List (Nat × Account)
deriving DecidableEq, Repr

/-- `Accounts::get_cash_account`: `InvalidData("invalid account id")`
on a miss. -/
def Accounts.get_cash_account (a : Accounts) (account : Nat) :
    Except TsError (Option Nat) :=
  match a.map.lookup account with
  | some acc => .ok acc.cash_account
  | none => .error .io

/-- `FinanceChange`: per-account `(start_balance, income, expenditure)`
in `i64` (modelled as `Int`; both sides of every compared expression
are computed by the same modelled functions, so two's-complement
wrap-around cannot distinguish them and is not modelled here). -/
structure FinanceChange where
  start_balance : Int
  income : Int
  expenditure : Int
deriving DecidableEq, Repr

/-- `FinanceChange::new`. -/
def FinanceChange.new (start_balance : Int) : FinanceChange :=
  { start_balance := start_balance, income := 0, expenditure := 0 }

/-- `FinanceChange::get_end_balance`. -/
def FinanceChange.get_end_balance (c : FinanceChange) : Int :=
  c.start_balance + c.income - c.expenditure

/-- `FinanceChange::handle_income` (`income += summa`; always `Ok`). -/
def FinanceChange.handle_income (c : FinanceChange) (summa : Int) : FinanceChange :=
  { c with income := c.income + summa }

/-- `FinanceChange::handle_expenditure` (`expenditure += summa`). -/
def FinanceChange.handle_expenditure (c : FinanceChange) (summa : Int) : FinanceChange :=
  { c with expenditure := c.expenditure + summa }

/-- `FinanceChanges`: the `HashMap<u64, FinanceChange>` as an
association list.  A `HashMap` has no observable order, so theorems
compare changes through `lookup`. -/
structure FinanceChanges where
  changes : List (Nat × FinanceChange)
deriving DecidableEq, Repr

/-- `FinanceChanges::new(totals)`. -/
def FinanceChanges.new (totals : List (Nat × Int)) : FinanceChanges :=
  ⟨totals.map (fun p => (p.1, FinanceChange.new p.2))⟩

/-- `FinanceChanges::empty`. -/
def FinanceChanges.empty : FinanceChanges := ⟨[]⟩

/-- `FinanceChanges::build_totals`: the per-account end balances. -/
def FinanceChanges.build_totals (c : FinanceChanges) : List (Nat × Int) :=
  c.changes.map (fun p => (p.1, p.2.get_end_balance))

/-- `changes.entry(account).or_insert(FinanceChange::new(0))` followed
by a mutation `f` of that entry. -/
def updateEntry : List (Nat × FinanceChange) → Nat → (FinanceChange → FinanceChange) →
    List (Nat × FinanceChange)
  | [], a, f => [(a, f (FinanceChange.new 0))]
  | (b, ch) :: rest, a, f =>
    if b = a then (b, f ch) :: rest else (b, ch) :: updateEntry rest a f

/-- `get_account_changes(account).handle_income(summa)`. -/
def FinanceChanges.handle_income (c : FinanceChanges) (account : Nat) (summa : Int) :
    FinanceChanges :=
  ⟨updateEntry c.changes account (fun ch => ch.handle_income summa)⟩

/-- `get_account_changes(account).handle_expenditure(summa)`. -/
def FinanceChanges.handle_expenditure (c : FinanceChanges) (account : Nat) (summa : Int) :
    FinanceChanges :=
  ⟨updateEntry c.changes account (fun ch => ch.handle_expenditure summa)⟩

/-- `FinOpParameter`. -/
inductive FinOpParameter where
  | Amou (v : Nat)
  | Dist (v : Nat)
  | Netw (s : String)
  | Ppto (v : Nat)
  | Seca (v : Nat)
  | Typ (s : String)
deriving DecidableEq, Repr

/-- `FinanceOperation`.  `date` is `usize`, `account`/`subcategory` are
`u64` ids, `amount` is `Option<u64>`, `summa` is `i64`. -/
structure FinanceOperation where
  date : Nat
  account : Nat
  subcategory : Nat
  amount : Option Nat
  summa : Int
  parameters : List FinOpParameter
deriving DecidableEq, Repr

/-- The value of `amount as i64` (the Rust `as` cast reinterprets the
`u64` bit pattern). -/
def i64_of_u64 (a : Nat) : Int :=
  if a < 9223372036854775808 then (a : Int) else (a : Int) - (USIZE_MOD : Int)

/-- `handle_trfr_with_summa`: expenditure on `op.account` of the given
`summa`, and income of `op.summa` on the destination account when the
parameter list is exactly one `SECA` parameter
(`parameters.len() == 1 && matches Seca`). -/
def FinanceOperation.handle_trfr_with_summa (op : FinanceOperation)
    (changes : FinanceChanges) (summa : Int) : FinanceChanges :=
  let ch1 := changes.handle_expenditure op.account summa
  match op.parameters with
  | [FinOpParameter.Seca a] => ch1.handle_income a op.summa
  | _ => ch1

/-- `handle_trfr`. -/
def FinanceOperation.handle_trfr (op : FinanceOperation)
    (changes : FinanceChanges) : FinanceChanges :=
  op.handle_trfr_with_summa changes op.summa

/-- `handle_exch`: a no-op when `amount` is absent, otherwise a
transfer whose expenditure is `(amount as i64) / 10` (Rust `i64`
division truncates toward zero: `Int.tdiv`). -/
def FinanceOperation.handle_exch (op : FinanceOperation)
    (changes : FinanceChanges) : FinanceChanges :=
  match op.amount with
  | some a => op.handle_trfr_with_summa changes (Int.tdiv (i64_of_u64 a) 10)
  | none => changes

/-- `handle_incc`: income on the account; expenditure on the cash
account of its currency, when there is one. -/
def FinanceOperation.handle_incc (op : FinanceOperation)
    (changes : FinanceChanges) (accounts : Accounts) : Except TsError FinanceChanges :=
  let ch1 := changes.handle_income op.account op.summa
  match accounts.get_cash_account op.account with
  | .error e => .error e
  | .ok (some a) => .ok (ch1.handle_expenditure a op.summa)
  | .ok none => .ok ch1

/-- `handle_expc`: expenditure on the account; income on the cash
account of its currency, when there is one. -/
def FinanceOperation.handle_expc (op : FinanceOperation)
    (changes : FinanceChanges) (accounts : Accounts) : Except TsError FinanceChanges :=
  let ch1 := changes.handle_expenditure op.account op.summa
  match accounts.get_cash_account op.account with
  | .error e => .error e
  | .ok (some a) => .ok (ch1.handle_income a op.summa)
  | .ok none => .ok ch1

/-- `FinanceOperation::apply`: branch on the subcategory's operation
code, then (for `SPCL`) on its code; unknown `SPCL` codes are
`InvalidData("invalid subcategory code")`. -/
def FinanceOperation.apply (op : FinanceOperation) (changes : FinanceChanges)
    (accounts : Accounts) (subcategories : Subcategories) :
    Except TsError FinanceChanges :=
  match subcategories.get op.subcategory with
  | .error e => .error e
  | .ok subcategory =>
    match subcategory.operation_code with
    | .Incm => .ok (changes.handle_income op.account op.summa)
    | .Expn => .ok (changes.handle_expenditure op.account op.summa)
    | .Spcl =>
      match subcategory.code with
      | .Incc => op.handle_incc changes accounts
      | .Expc => op.handle_expc changes accounts
      | .Exch => .ok (op.handle_exch changes)
      | .Trfr => .ok (op.handle_trfr changes)
      | _ => .error .io

/-- `FinanceOperation::within`. -/
def FinanceOperation.within (op : FinanceOperation) (fromD toD : Nat) : Bool :=
  fromD ≤ op.date && op.date ≤ toD

/-- `FinanceRecord`: the bucket. -/
structure FinanceRecord where
  operations : List FinanceOperation
  totals : List (Nat × Int)
deriving DecidableEq, Repr

/-- `FinanceRecord::create_changes`. -/
def FinanceRecord.create_changes (r : FinanceRecord) : FinanceChanges :=
  FinanceChanges.new r.totals

/-- The loop of `build_changes`/`update_changes`: apply each operation
in order, stopping at the first error; when a window is given
(`update_changes`), operations outside it are skipped. -/
def applyLoop (accounts : Accounts) (subcategories : Subcategories) :
    List FinanceOperation → FinanceChanges → Except TsError FinanceChanges
  | [], ch => .ok ch
  | op :: rest, ch =>
    match op.apply ch accounts subcategories with
    | .ok ch1 => applyLoop accounts subcategories rest ch1
    | .error e => .error e

/-- `FinanceRecord::build_changes`. -/
def FinanceRecord.build_changes (r : FinanceRecord) (accounts : Accounts)
    (subcategories : Subcategories) : Except TsError FinanceChanges :=
  applyLoop accounts subcategories r.operations r.create_changes

/-- The loop of `update_changes` with the `within` filter inline. -/
def updateLoop (accounts : Accounts) (subcategories : Subcategories)
    (fromD toD : Nat) :
    List FinanceOperation → FinanceChanges → Except TsError FinanceChanges
  | [], ch => .ok ch
  | op :: rest, ch =>
    if op.within fromD toD then
      match op.apply ch accounts subcategories with
      | .ok ch1 => updateLoop accounts subcategories fromD toD rest ch1
      | .error e => .error e
    else updateLoop accounts subcategories fromD toD rest ch

/-- `FinanceRecord::update_changes`. -/
def FinanceRecord.update_changes (r : FinanceRecord) (ch : FinanceChanges)
    (fromD toD : Nat) (accounts : Accounts) (subcategories : Subcategories) :
    Except TsError FinanceChanges :=
  updateLoop accounts subcategories fromD toD r.operations ch

/-- `FinanceRecord::get_ops`: the operations dated exactly `date`
(`copy` is the identity in a pure model). -/
def FinanceRecord.get_ops (r : FinanceRecord) (date : Nat) : List FinanceOperation :=
  r.operations.filter (fun op => op.date == date)

/-!  The facade: `db.rs`. -/

/-- `Categories` (loaded but unused by the modelled operations). -/
structure Category where
  id : Nat
  name : String
deriving DecidableEq, Repr

/-- `HomeAccountingDB`. -/
structure HomeAccountingDB where
  data : TimeSeriesData FinanceRecord
  accounts : Accounts
  categories : List (Nat × Category)
  subcategories : Subcategories

/-- `index_calculator` from `db.rs`: `date / 100` on `u64`. -/
def db_index_calculator (date : Nat) : Nat := date / 100

/-- The same function in the shape the cache stores
(`fn(usize) -> isize`). -/
def db_index_calculator_ic (date : Nat) : Int := ((date / 100 : Nat) : Int)

/-- Overwrite the payload of a resident slot, leaving the links alone
(the `Rc<Mutex<T>>` handle write). -/
def TimeSeriesData.setPayload {T : Type} (s : TimeSeriesData T) (k : Nat) (v : T) :
    TimeSeriesData T :=
  match s.data[k]? with
  | some (some h) => s.writeHolder k { h with data := some v }
  | _ => s

/-- The loop body of `HomeAccountingDB::build_totals` over the vector
returned by `get_range`.  Each iteration mutates the yielded bucket
through its `Rc<Mutex<FinanceRecord>>` handle; such a write reaches the
cache slot exactly while the entry stays resident, which the model
captures by writing the slot when it still holds a payload (during
this loop no cache operation runs, so residency cannot change
mid-loop). -/
def buildTotalsLoop (accounts : Accounts) (subcategories : Subcategories) :
    List (Nat × FinanceRecord) → Option FinanceChanges →
    TimeSeriesData FinanceRecord →
    TimeSeriesData FinanceRecord × Except TsError Unit
  | [], _, s => (s, .ok ())
  | (k, v) :: rest, changes, s =>
    let v1 := match changes with
      | some c => { v with totals := c.build_totals }
      | none => v
    let s1 := if (s.payloadAt k).isSome then s.setPayload k v1 else s
    match v1.build_changes accounts subcategories with
    | .ok ch => buildTotalsLoop accounts subcategories rest (some ch) s1
    | .error e => (s1, .error e)

/-- `HomeAccountingDB::build_totals(from)`: range over
`[index_calculator(from), 99999999]` (the cache applies its own index
function to both bounds again), then propagate closing balances
forward. -/
def HomeAccountingDB.build_totals (src : DatedSource FinanceRecord)
    (db : HomeAccountingDB) (fromD : Nat) :
    HomeAccountingDB × Except TsError Unit :=
  match db.data.get_range src (db_index_calculator fromD) 99999999 with
  | (s1, .ok res) =>
    let p := buildTotalsLoop db.accounts db.subcategories res none s1
    ({ db with data := p.1 }, p.2)
  | (s1, .error e) => ({ db with data := s1 }, .error e)

/-- `HomeAccountingDB::build_ops_and_changes(date)`: locate the bucket
through `self.data.get(index_calculator(date))` (note the cache applies
`index_calculator` to its argument again), apply the operations dated
`[0, date - 1]` (wrapping `u64` subtraction) to changes opened from the
bucket's totals, reopen changes from the intermediate end balances,
apply the operations dated exactly `date`, and return those operations
with the fresh changes. -/
def HomeAccountingDB.build_ops_and_changes (src : DatedSource FinanceRecord)
    (db : HomeAccountingDB) (date : Nat) :
    HomeAccountingDB × Except TsError (List FinanceOperation × FinanceChanges) :=
  match db.data.get src (db_index_calculator date) with
  | (s1, .ok (some record)) =>
    let changes := record.create_changes
    match record.update_changes changes 0 (u64sub date 1) db.accounts db.subcategories with
    | .ok changes1 =>
      let totals := changes1.build_totals
      let changes2 := FinanceChanges.new totals
      match record.update_changes changes2 date date db.accounts db.subcategories with
      | .ok changes3 =>
        ({ db with data := s1 }, .ok (record.get_ops date, changes3))
      | .error e => ({ db with data := s1 }, .error e)
    | .error e => ({ db with data := s1 }, .error e)
  | (s1, .ok none) => ({ db with data := s1 }, .ok ([], FinanceChanges.empty))
  | (s1, .error e) => ({ db with data := s1 }, .error e)

/-!  Operation sequences over the cache, reachability, and theLRU-list
traversals used to state the invariants of spec §8. -/

/-- One public cache operation (`add`, `get`, `get_range`). -/
inductive CacheOp (T : Type) where
  | addOp (key : Nat) (v : T) (dirty : Bool)
  | getOp (date : Nat)
  | rangeOp (fromD toD : Nat)

/-- `true` when the Rust execution did not come back (panic or
infinite loop); an `io` error propagates but leaves the object
usable. -/
def deadOf {α : Type} : Except TsError α → Bool
  | .error .fatal => true
  | .error .hang => true
  | _ => false

namespace TimeSeriesData

variable {T : Type}

/-- Run one public operation; the flag says whether execution died. -/
def applyOp (src : DatedSource T) (s : TimeSeriesData T) :
    CacheOp T → TimeSeriesData T × Bool
  | .addOp k v d => let p := add src s k v d; (p.1, deadOf p.2)
  | .getOp d => let p := get src s d; (p.1, deadOf p.2)
  | .rangeOp a b => let p := get_range src s a b; (p.1, deadOf p.2)

end TimeSeriesData

/-- States reachable from `s0` by sequences of `add`/`get`/`range`
whose executions return (possibly with an `io` error). -/
inductive Reach {T : Type} (src : DatedSource T) (s0 : TimeSeriesData T) :
    TimeSeriesData T → Prop where
  | refl : Reach src s0 s0
  | step (s : TimeSeriesData T) (op : CacheOp T) :
      Reach src s0 s → (s.applyOp src op).2 = false →
      Reach src s0 (s.applyOp src op).1

/-- An operation that does not insert at a key that currently holds a
resident payload. -/
def notResidentReAdd {T : Type} (s : TimeSeriesData T) : CacheOp T → Prop
  | .addOp k _ _ => s.payloadAt k = none
  | _ => True

/-- States reachable as in `Reach`, but along sequences in which `add`
never targets a currently-resident key. -/
inductive ReachNR {T : Type} (src : DatedSource T) (s0 : TimeSeriesData T) :
    TimeSeriesData T → Prop where
  | refl : ReachNR src s0 s0
  | step (s : TimeSeriesData T) (op : CacheOp T) :
      ReachNR src s0 s → notResidentReAdd s op → (s.applyOp src op).2 = false →
      ReachNR src s0 (s.applyOp src op).1

namespace TimeSeriesData

variable {T : Type}

/-- Follow `next` pointers for at most `fuel` steps; `none` when the
walk runs into a missing slot, an empty slot, or a cycle longer than
the vector. -/
def chainNext (s : TimeSeriesData T) : Nat → Option Nat → Option (List Nat)
  | _, none => some []
  | 0, some _ => none
  | fuel + 1, some k =>
    match s.data[k]? with
    | some (some h) => (chainNext s fuel h.next).map (k :: ·)
    | _ => none

/-- Follow `prev` pointers, same conventions. -/
def chainPrev (s : TimeSeriesData T) : Nat → Option Nat → Option (List Nat)
  | _, none => some []
  | 0, some _ => none
  | fuel + 1, some k =>
    match s.data[k]? with
    | some (some h) => (chainPrev s fuel h.prev).map (k :: ·)
    | _ => none

/-- The LRU list read from `head` via `next`. -/
def traverseFromHead (s : TimeSeriesData T) : Option (List Nat) :=
  chainNext s (s.data.length + 1) s.head

/-- The LRU list read from `tail` via `prev`. -/
def traverseFromTail (s : TimeSeriesData T) : Option (List Nat) :=
  chainPrev s (s.data.length + 1) s.tail

/-- `true` iff key `k` is resident (slot occupied with a payload). -/
def residentB (s : TimeSeriesData T) (k : Nat) : Bool :=
  (s.payloadAt k).isSome

/-- No occupied slot at any key `≤ idx`. -/
def noKnownLe (s : TimeSeriesData T) (idx : Nat) : Prop :=
  ∀ j, j ≤ idx → s.knownB j = false

/-- `k` is the greatest occupied slot `≤ idx`. -/
def greatestKnownLe (s : TimeSeriesData T) (idx k : Nat) : Prop :=
  k ≤ idx ∧ s.knownB k = true ∧ ∀ j, k < j → j ≤ idx → s.knownB j = false

end TimeSeriesData

/-!  Claim C8 — SPCL operation semantics (`handle_trfr`,
`handle_exch`). -/

/-- Looking up an account after `updateEntry` sees the mutation at the
touched account and nothing else. -/
theorem lookup_updateEntry (l : List (Nat × FinanceChange)) (a b : Nat)
    (f : FinanceChange → FinanceChange) :
    (updateEntry l a f).lookup b =
      if b = a then some (f ((l.lookup a).getD (FinanceChange.new 0)))
      else l.lookup b := by
  induction l with
  | nil =>
    by_cases hba : b = a
    · subst hba; simp [updateEntry, List.lookup]
    · simp [updateEntry, List.lookup, beq_false_of_ne hba, hba]
  | cons p rest ih =>
    obtain ⟨k, ch⟩ := p
    by_cases hka : k = a
    · subst hka
      by_cases hbk : b = k
      · subst hbk; simp [updateEntry, List.lookup]
      · simp [updateEntry, List.lookup, beq_false_of_ne hbk, hbk]
    · by_cases hbk : b = k
      · subst hbk
        have hba : ¬ b = a := fun hh => hka (hh ▸ rfl)
        simp [updateEntry, hka, List.lookup, hba]
      · have hak : (a == k) = false := beq_false_of_ne (fun hh => hka hh.symm)
        simp [updateEntry, hka, List.lookup, beq_false_of_ne hbk, hak, ih]

/-- The destination of a transfer per the code's test: the parameter
list is exactly one `SECA` parameter. -/
def specSecaDst (params : List FinOpParameter) : Option Nat :=
  match params with
  | [FinOpParameter.Seca a] => some a
  | _ => none

/-- Spec-side description of a transfer-like effect on one account's
entry: `expenditure(op.account, summa)` is recorded, and
`income(dst, op.summa)` is recorded exactly when the parameter list is
one single `SECA(dst)`. -/
def specTrfrLookup (op : FinanceOperation) (ch : FinanceChanges) (summa : Int)
    (a : Nat) : Option FinanceChange :=
  let afterExp : Option FinanceChange :=
    if a = op.account
    then some (((ch.changes.lookup a).getD (FinanceChange.new 0)).handle_expenditure summa)
    else ch.changes.lookup a
  match specSecaDst op.parameters with
  | some dst =>
    if a = dst then some ((afterExp.getD (FinanceChange.new 0)).handle_income op.summa)
    else afterExp
  | none => afterExp

/-- Counting the `SECA` parameters (the reading of "contains exactly
one SECA" refuted below). -/
def secaCount (params : List FinOpParameter) : Nat :=
  params.countP (fun p => match p with | FinOpParameter.Seca _ => true | _ => false)

/-- Fixture: subcategory table with a `SPCL`/`TRFR` subcategory (id 3)
and a `SPCL`/`EXCH` one (id 4). -/
def c8subcats : Subcategories :=
  ⟨[(3, ⟨3, "transfer", SubcategoryCode.Trfr, SubcategoryOperationCode.Spcl, 12⟩),
    (4, ⟨4, "exchange", SubcategoryCode.Exch, SubcategoryOperationCode.Spcl, 12⟩)]⟩

/-- Fixture: no accounts are consulted on the TRFR path. -/
def c8accounts : Accounts := ⟨[]⟩

/-- Fixture: a TRFR operation whose parameter list contains exactly one
`SECA(100)` — next to an `AMOU` parameter. -/
def c8op : FinanceOperation :=
  { date := 20240101, account := 101, subcategory := 3, amount := none,
    summa := 500, parameters := [FinOpParameter.Seca 100, FinOpParameter.Amou 3] }

/-- C8 (counterexample): applying a `SPCL`/`TRFR` operation whose
parameter list contains exactly one `SECA(100)` (alongside an `AMOU`
parameter) records no income at account 100, because the code demands
`parameters.len() == 1`, not one `SECA` among the parameters. -/
theorem c8_trfr_seca_counterexample :
    secaCount c8op.parameters = 1 ∧
    c8op.apply FinanceChanges.empty c8accounts c8subcats =
      .ok (FinanceChanges.empty.handle_expenditure 101 500) ∧
    ((FinanceChanges.empty.handle_expenditure 101 500).changes.lookup 100 = none) := by
  exact ⟨rfl, rfl, rfl⟩

/-- C8 (amended): for a `SPCL` subcategory, `TRFR` records
`expenditure(op.account, op.summa)` and records `income(dst, op.summa)`
exactly when the parameter list is the single element `SECA(dst)`;
`EXCH` with `amount` present does the same with expenditure
`(amount as i64) / 10` (truncating toward zero), and with `amount`
absent leaves the changes untouched. -/
theorem c8_spcl_semantics (op : FinanceOperation) (ch : FinanceChanges) :
    (∀ a : Nat, (op.handle_trfr ch).changes.lookup a = specTrfrLookup op ch op.summa a)
    ∧ (∀ am : Nat, op.amount = some am →
        ∀ a : Nat, (op.handle_exch ch).changes.lookup a =
          specTrfrLookup op ch (Int.tdiv (i64_of_u64 am) 10) a)
    ∧ (op.amount = none → op.handle_exch ch = ch) := by
  have core : ∀ summa : Int, ∀ a : Nat,
      (op.handle_trfr_with_summa ch summa).changes.lookup a =
        specTrfrLookup op ch summa a := by
    intro summa a
    unfold FinanceOperation.handle_trfr_with_summa specTrfrLookup specSecaDst
    match hp : op.parameters with
    | [] =>
      simp only [FinanceChanges.handle_expenditure, lookup_updateEntry]
      by_cases haa : a = op.account
      · subst haa; simp
      · simp [haa]
    | [FinOpParameter.Seca dst] =>
      simp only [FinanceChanges.handle_income, FinanceChanges.handle_expenditure,
        lookup_updateEntry]
      by_cases had : a = dst
      · subst had
        by_cases haa : a = op.account
        · subst haa; simp
        · simp [haa]
      · by_cases haa : a = op.account
        · subst haa; simp [had]
        · simp [had, haa]
    | [FinOpParameter.Amou v] =>
      simp only [FinanceChanges.handle_expenditure, lookup_updateEntry]
      by_cases haa : a = op.account
      · subst haa; simp
      · simp [haa]
    | [FinOpParameter.Dist v] =>
      simp only [FinanceChanges.handle_expenditure, lookup_updateEntry]
      by_cases haa : a = op.account
      · subst haa; simp
      · simp [haa]
    | [FinOpParameter.Netw v] =>
      simp only [FinanceChanges.handle_expenditure, lookup_updateEntry]
      by_cases haa : a = op.account
      · subst haa; simp
      · simp [haa]
    | [FinOpParameter.Ppto v] =>
      simp only [FinanceChanges.handle_expenditure, lookup_updateEntry]
      by_cases haa : a = op.account
      · subst haa; simp
      · simp [haa]
    | [FinOpParameter.Typ v] =>
      simp only [FinanceChanges.handle_expenditure, lookup_updateEntry]
      by_cases haa : a = op.account
      · subst haa; simp
      · simp [haa]
    | p1 :: p2 :: rest =>
      have h2 : specSecaDst (p1 :: p2 :: rest) = none := by cases p1 <;> rfl
      simp only [FinanceChanges.handle_expenditure, lookup_updateEntry, h2]
      by_cases haa : a = op.account
      · subst haa; simp
      · simp [haa]
  refine ⟨fun a => core op.summa a, fun am ham a => ?_, fun ham => ?_⟩
  · unfold FinanceOperation.handle_exch
    rw [ham]
    exact core (Int.tdiv (i64_of_u64 am) 10) a
  · unfold FinanceOperation.handle_exch
    rw [ham]

/-- C8 witness: the amended semantics evaluated on the fixture
operation (single-`SECA` variant) and on an `EXCH` operation. -/
theorem c8_spcl_semantics_witness :
    (({ c8op with parameters := [FinOpParameter.Seca 100] } :
        FinanceOperation).handle_trfr FinanceChanges.empty).changes.lookup 100 =
      specTrfrLookup { c8op with parameters := [FinOpParameter.Seca 100] }
        FinanceChanges.empty 500 100 := by
  exact (c8_spcl_semantics { c8op with parameters := [FinOpParameter.Seca 100] }
    FinanceChanges.empty).1 100

/-!  Claim C10 — the unguarded `date - 1` in `build_ops_and_changes`. -/

/-- C10: the lower pass of `build_ops_and_changes` filters with the
window `[0, date - 1]` computed by unguarded `u64` subtraction.  For
`1 ≤ date < 2^64` the window is exactly `[0, date − 1]`; at `date = 0`
the subtraction wraps to `2^64 − 1`, so far from being empty the
window admits every operation, and the first pass degenerates to
applying the bucket's entire operation list. -/
theorem c10_date_window (date : Nat) :
    (1 ≤ date → date < USIZE_MOD →
      u64sub date 1 = date - 1 ∧
      ∀ op : FinanceOperation,
        (op.within 0 (u64sub date 1) = true ↔ op.date ≤ date - 1))
    ∧ (u64sub 0 1 = USIZE_MOD - 1 ∧
       ∀ op : FinanceOperation, op.date < USIZE_MOD →
         op.within 0 (u64sub 0 1) = true)
    ∧ (∀ (accounts : Accounts) (subcategories : Subcategories)
         (ops : List FinanceOperation) (ch : FinanceChanges),
        (∀ op ∈ ops, op.date < USIZE_MOD) →
        updateLoop accounts subcategories 0 (u64sub 0 1) ops ch =
          applyLoop accounts subcategories ops ch) := by
  have hsub : ∀ d : Nat, 1 ≤ d → d < USIZE_MOD → u64sub d 1 = d - 1 := by
    intro d h1 h2
    simp only [u64sub, USIZE_MOD] at h2 ⊢
    omega
  have hzero : u64sub 0 1 = USIZE_MOD - 1 := by
    simp only [u64sub, USIZE_MOD]
  refine ⟨fun h1 h2 => ⟨hsub date h1 h2, fun op => ?_⟩, ⟨hzero, fun op hop => ?_⟩, ?_⟩
  · simp [FinanceOperation.within, hsub date h1 h2]
  · rw [hzero]
    simp only [FinanceOperation.within, USIZE_MOD] at hop ⊢
    simp only [Bool.and_eq_true, decide_eq_true_eq]
    omega
  · intro accounts subcategories ops ch hall
    induction ops generalizing ch with
    | nil => rfl
    | cons op rest ih =>
      have hw : op.within 0 (u64sub 0 1) = true := by
        rw [hzero]
        simp only [FinanceOperation.within, USIZE_MOD] at hall ⊢
        simp only [Bool.and_eq_true, decide_eq_true_eq]
        have := hall op (by simp)
        omega
      simp only [updateLoop, applyLoop, hw, if_true]
      cases hap : op.apply ch accounts subcategories with
      | ok ch1 => exact ih ch1 (fun o ho => hall o (List.mem_cons_of_mem _ ho))
      | error e => rfl

/-- C10 witness: the window arithmetic at `date = 5` and `date = 0`,
on a concrete operation dated 4. -/
theorem c10_date_window_witness :
    u64sub 5 1 = 4 ∧
    ({ date := 4, account := 0, subcategory := 0, amount := none, summa := 0,
       parameters := [] } : FinanceOperation).within 0 (u64sub 5 1) = true ∧
    u64sub 0 1 = USIZE_MOD - 1 := by
  have h := c10_date_window 5
  refine ⟨(h.1 (by decide) (by decide)).1, ?_, h.2.1.1⟩
  exact ((h.1 (by decide) (by decide)).2 _).mpr (by decide)

/-!  Frame lemmas: which fields each LRU-surgery function can touch. -/

namespace TimeSeriesData

variable {T : Type}

/-- Reading a slot after `writeHolder` at the same key. -/
theorem getElem?_writeHolder_self (s : TimeSeriesData T) (k : Nat) (h : DataHolder T)
    (hk : k < s.data.length) : (s.writeHolder k h).data[k]? = some (some h) := by
  simp [writeHolder, List.getElem?_set_self, hk]

/-- Reading a slot after `writeHolder` at a different key. -/
theorem getElem?_writeHolder_ne (s : TimeSeriesData T) (k : Nat) (h : DataHolder T)
    (j : Nat) (hne : k ≠ j) : (s.writeHolder k h).data[j]? = s.data[j]? := by
  simp [writeHolder, List.getElem?_set_ne hne]

/-- An occupied slot is in bounds. -/
theorem lt_length_of_slot (s : TimeSeriesData T) (k : Nat) (o : Option (DataHolder T))
    (hk : s.data[k]? = some o) : k < s.data.length := by
  by_contra hlt
  rw [List.getElem?_eq_none (by omega)] at hk
  exact Option.noConfusion hk

/-- Everything except the LRU links (`prev`/`next`/`head`/`tail`) and
the active counter agrees between `s` and `s'`. -/
def EqCore (s s' : TimeSeriesData T) : Prop :=
  s'.log_saved = s.log_saved ∧ s'.modified = s.modified ∧
  s'.max_active_items = s.max_active_items ∧ s'.max_index = s.max_index ∧
  s'.data.length = s.data.length ∧ s'.index_calculator = s.index_calculator ∧
  (∀ j, s'.payloadAt j = s.payloadAt j) ∧ (∀ j, s'.knownB j = s.knownB j)

theorem EqCore.refl (s : TimeSeriesData T) : EqCore s s :=
  ⟨rfl, rfl, rfl, rfl, rfl, rfl, fun _ => rfl, fun _ => rfl⟩

theorem EqCore.trans {s s' s'' : TimeSeriesData T}
    (h1 : EqCore s s') (h2 : EqCore s' s'') : EqCore s s'' := by
  obtain ⟨a1, b1, c1, d1, e1, f1, g1, k1⟩ := h1
  obtain ⟨a2, b2, c2, d2, e2, f2, g2, k2⟩ := h2
  exact ⟨a2.trans a1, b2.trans b1, c2.trans c1, d2.trans d1, e2.trans e1,
    f2.trans f1, fun j => (g2 j).trans (g1 j), fun j => (k2 j).trans (k1 j)⟩

theorem eqCore_tailSet (s : TimeSeriesData T) (x : Option Nat) :
    EqCore s { s with tail := x } :=
  ⟨rfl, rfl, rfl, rfl, rfl, rfl, fun _ => rfl, fun _ => rfl⟩

theorem eqCore_headSet (s : TimeSeriesData T) (x : Option Nat) :
    EqCore s { s with head := x } :=
  ⟨rfl, rfl, rfl, rfl, rfl, rfl, fun _ => rfl, fun _ => rfl⟩

theorem eqCore_activeSet (s : TimeSeriesData T) (n : Nat) :
    EqCore s { s with active_items := n } :=
  ⟨rfl, rfl, rfl, rfl, rfl, rfl, fun _ => rfl, fun _ => rfl⟩

/-- Rewriting a slot with a holder that keeps the payload of the
holder it replaces changes no `EqCore` observable. -/
theorem eqCore_writeKeep (s : TimeSeriesData T) (k : Nat) (h0 h : DataHolder T)
    (hk : s.data[k]? = some (some h0)) (hd : h.data = h0.data) :
    EqCore s (s.writeHolder k h) := by
  have hlen : (s.writeHolder k h).data.length = s.data.length := by
    simp [writeHolder]
  refine ⟨rfl, rfl, rfl, rfl, hlen, rfl, fun j => ?_, fun j => ?_⟩
  · by_cases hjk : j = k
    · subst hjk
      simp only [payloadAt,
        getElem?_writeHolder_self s j h (lt_length_of_slot s j _ hk), hk]
      exact hd
    · simp only [payloadAt, getElem?_writeHolder_ne s k h j (fun hh => hjk hh.symm)]
  · by_cases hjk : j = k
    · subst hjk
      simp only [knownB,
        getElem?_writeHolder_self s j h (lt_length_of_slot s j _ hk), hk]
    · simp only [knownB, getElem?_writeHolder_ne s k h j (fun hh => hjk hh.symm)]

/-- `detachNextStep` only rewires links. -/
theorem detachNextStep_frame (s : TimeSeriesData T) (idx : Nat) (hpv hnx : Option Nat) :
    EqCore s (s.detachNextStep idx hpv hnx).1 ∧
    (s.detachNextStep idx hpv hnx).1.active_items = s.active_items := by
  unfold detachNextStep
  cases hnx with
  | none => exact And.intro (eqCore_tailSet s hpv) rfl
  | some nxt =>
    by_cases hni : nxt = idx
    · simp only [hni, if_true]
      exact And.intro (EqCore.refl s) (by first | rfl | trivial)
    · simp only [hni, if_false]
      split
      · next nh hns => exact And.intro (eqCore_writeKeep s nxt nh _ hns rfl) rfl
      · exact And.intro (EqCore.refl s) rfl

/-- `detachPrevStep` only rewires links. -/
theorem detachPrevStep_frame (s : TimeSeriesData T) (idx : Nat) (hpv hnx : Option Nat) :
    EqCore s (s.detachPrevStep idx hpv hnx).1 ∧
    (s.detachPrevStep idx hpv hnx).1.active_items = s.active_items := by
  unfold detachPrevStep
  cases hpv with
  | none => exact And.intro (eqCore_headSet s hnx) rfl
  | some prv =>
    by_cases hpi : prv = idx
    · simp only [hpi, if_true]
      exact And.intro (EqCore.refl s) (by first | rfl | trivial)
    · simp only [hpi, if_false]
      split
      · next ph hps => exact And.intro (eqCore_writeKeep s prv ph _ hps rfl) rfl
      · exact And.intro (EqCore.refl s) rfl

/-- `detach` only rewires links: its result is `EqCore`-equal with the
input, with the same active counter. -/
theorem detach_frame (s : TimeSeriesData T) (idx : Nat) :
    EqCore s (s.detach idx).1 ∧ (s.detach idx).1.active_items = s.active_items := by
  unfold detach
  split
  · next h hslot =>
    split
    · next u s1 hu h1 =>
      have hf1 := detachNextStep_frame s idx h.prev h.next
      rw [h1] at hf1
      have hf2 := detachPrevStep_frame s1 idx h.prev h.next
      exact And.intro (hf1.1.trans hf2.1) (hf2.2.trans hf1.2)
    · exact detachNextStep_frame s idx h.prev h.next
  · exact And.intro (EqCore.refl s) rfl

end TimeSeriesData

/-!  Claim C5 — write-back on eviction of a dirty entry. -/

namespace TimeSeriesData

variable {T : Type}

/-- `removeClearStep` on an occupied slot clears its payload and
leaves the dirty set and the save log alone (whether or not the final
`detach` panics). -/
theorem removeClearStep_spec (s1 : TimeSeriesData T) (h : Nat)
    (holder2 : DataHolder T) (hslot : s1.data[h]? = some (some holder2)) :
    (removeClearStep s1 h).1.payloadAt h = none ∧
    (removeClearStep s1 h).1.modified = s1.modified ∧
    (removeClearStep s1 h).1.log_saved = s1.log_saved := by
  unfold removeClearStep
  rw [hslot]
  simp only
  set s2 := s1.writeHolder h { holder2 with data := none } with hs2
  set s3 : TimeSeriesData T := { s2 with active_items := usizeSub1 s2.active_items } with hs3
  have hframe := detach_frame s3 h
  have hpay3 : s3.payloadAt h = none := by
    have hlt : h < s1.data.length := lt_length_of_slot s1 h _ hslot
    show (match s3.data[h]? with
      | some (some hh) => hh.data
      | _ => none) = none
    have : s3.data[h]? = some (some { holder2 with data := none }) := by
      show s2.data[h]? = some (some { holder2 with data := none })
      exact getElem?_writeHolder_self s1 h _ hlt
    rw [this]
  refine ⟨?_, ?_, ?_⟩
  · rw [hframe.1.2.2.2.2.2.2.1 h]
    exact hpay3
  · exact hframe.1.2.1
  · exact hframe.1.1

end TimeSeriesData

/-- C5: when eviction removes a dirty key `k` (the LRU tail, resident,
with payload `p`), `source.save` is called exactly once for `k` (the
ghost log grows by exactly `[k]`): on success the key leaves the dirty
set and its payload is dropped; on failure the error is returned, and
the state is unchanged except for the ghost log — in particular the
entry is still resident with payload `p` and still dirty. -/
theorem c5_dirty_writeback {T : Type} (src : DatedSource T) (s : TimeSeriesData T)
    (k : Nat) (holder : DataHolder T) (p : T)
    (htail : s.tail = some k) (hdirty : k ∈ s.modified)
    (hslot : s.data[k]? = some (some holder)) (hpay : holder.data = some p) :
    (∀ e, src.save p k = .error e →
      (TimeSeriesData.remove_by_lru src s).2 = .error e ∧
      (TimeSeriesData.remove_by_lru src s).1.payloadAt k = some p ∧
      k ∈ (TimeSeriesData.remove_by_lru src s).1.modified ∧
      (TimeSeriesData.remove_by_lru src s).1.log_saved = s.log_saved ++ [k])
    ∧ (src.save p k = .ok () →
      (TimeSeriesData.remove_by_lru src s).1.log_saved = s.log_saved ++ [k] ∧
      k ∉ (TimeSeriesData.remove_by_lru src s).1.modified ∧
      (TimeSeriesData.remove_by_lru src s).1.payloadAt k = none) := by
  have hdirtyOk : src.save p k = .ok () →
      TimeSeriesData.removeDirtyStep src s k =
        ({ s with log_saved := s.log_saved ++ [k], modified := s.modified.filter (· ≠ k) }, .ok ()) := by
    intro hr
    unfold TimeSeriesData.removeDirtyStep
    rw [if_pos hdirty, hslot]
    simp only
    rw [hpay]
    simp only
    rw [hr]
  have hdirtyErr : ∀ e, src.save p k = .error e →
      TimeSeriesData.removeDirtyStep src s k =
        ({ s with log_saved := s.log_saved ++ [k] }, .error e) := by
    intro e hr
    unfold TimeSeriesData.removeDirtyStep
    rw [if_pos hdirty, hslot]
    simp only
    rw [hpay]
    simp only
    rw [hr]
  constructor
  · intro e he
    unfold TimeSeriesData.remove_by_lru
    rw [htail]
    simp only
    rw [hdirtyErr e he]
    refine ⟨rfl, ?_, hdirty, rfl⟩
    have hslotE : ({ s with log_saved := s.log_saved ++ [k] } :
        TimeSeriesData T).data[k]? = some (some holder) := hslot
    simp only [TimeSeriesData.payloadAt, hslotE]
    exact hpay
  · intro hok
    unfold TimeSeriesData.remove_by_lru
    rw [htail]
    simp only
    rw [hdirtyOk hok]
    simp only
    have hslotA : ({ s with log_saved := s.log_saved ++ [k], modified := s.modified.filter (· ≠ k) } : TimeSeriesData T).data[k]? = some (some holder) := hslot
    have hclear := TimeSeriesData.removeClearStep_spec _ k holder hslotA
    refine ⟨hclear.2.2, ?_, hclear.1⟩
    rw [hclear.2.1]
    simp

/-- Fixture for the C5 witness: a one-entry cache whose single key 0 is
resident, dirty, and the LRU tail. -/
def c5holder : DataHolder Nat :=
  { data := some 5, key := 0, prev := none, next := none }

/-- Fixture source whose `save` succeeds. -/
def c5src : DatedSource Nat :=
  { get_files := fun _ => .ok [], load := fun _ => .ok 0, save := fun _ _ => .ok () }

/-- Fixture cache state for the C5 witness. -/
def c5state : TimeSeriesData Nat :=
  { max_active_items := 4, active_items := 1, data := [some c5holder],
    modified := [0], head := some 0, tail := some 0,
    index_calculator := fun d => ((d / 100 : Nat) : Int), max_index := 0,
    log_saved := [] }

/-- C5 witness: evicting the dirty key 0 saves it once, clears the
dirty bit and drops the payload. -/
theorem c5_dirty_writeback_witness :
    (TimeSeriesData.remove_by_lru c5src c5state).1.log_saved = c5state.log_saved ++ [0] ∧
    0 ∉ (TimeSeriesData.remove_by_lru c5src c5state).1.modified ∧
    (TimeSeriesData.remove_by_lru c5src c5state).1.payloadAt 0 = none :=
  (c5_dirty_writeback c5src c5state 0 c5holder 5 rfl (by decide) rfl rfl).2 rfl

/-!  Claim C7 — LRU head after a successful `get`. -/

namespace TimeSeriesData

variable {T : Type}

/-- A successful `attach` leaves `key` at the head. -/
theorem attach_ok_head (s : TimeSeriesData T) (key : Nat) (s' : TimeSeriesData T)
    (u : Unit) (hok : s.attach key = (s', .ok u)) : s'.head = some key := by
  unfold attach at hok
  split at hok
  · split at hok
    · injection hok with h1 h2
      rw [← h1]
    · injection hok with h1 h2
      exact Except.noConfusion h2
  · injection hok with h1 h2
    rw [← h1]

/-- A successful `move_to_front` leaves `idx` at the head. -/
theorem move_to_front_ok_head (s : TimeSeriesData T) (idx : Nat)
    (s' : TimeSeriesData T) (u : Unit) (hok : s.move_to_front idx = (s', .ok u)) :
    s'.head = some idx := by
  unfold move_to_front at hok
  cases hd : s.detach idx with
  | mk s1 r1 =>
    rw [hd] at hok
    cases r1 with
    | error e => exact Except.noConfusion (congrArg Prod.snd hok)
    | ok u1 =>
      simp only at hok
      split at hok
      · split at hok
        · exact Except.noConfusion (congrArg Prod.snd hok)
        · split at hok
          · exact Except.noConfusion (congrArg Prod.snd hok)
          · split at hok
            · injection hok with h1 h2
              rw [← h1]
              rfl
            · exact Except.noConfusion (congrArg Prod.snd hok)
      · exact Except.noConfusion (congrArg Prod.snd hok)

end TimeSeriesData

namespace TimeSeriesData

variable {T : Type}

/-- A successful `get_t` leaves the touched key at the LRU head. -/
theorem get_t_ok_head (src : DatedSource T) (s : TimeSeriesData T) (key : Nat)
    (s' : TimeSeriesData T) (v : T) (hok : get_t src s key = (s', .ok v)) :
    s'.head = some key := by
  unfold get_t at hok
  split at hok
  · split at hok
    · -- resident: move_to_front
      split at hok
      · next s1 u1 hmf =>
        injection hok with h1 h2
        rw [← h1]
        exact move_to_front_ok_head s key s1 u1 hmf
      · exact Except.noConfusion (congrArg Prod.snd hok)
    · -- placeholder: cleanup, get_files, load, attach
      split at hok
      · split at hok
        · simp only at hok
          split at hok
          · split at hok
            · next s3 u3 hat =>
              injection hok with h1 h2
              rw [← h1]
              exact attach_ok_head _ key s3 u3 hat
            · exact Except.noConfusion (congrArg Prod.snd hok)
          · exact Except.noConfusion (congrArg Prod.snd hok)
        · exact Except.noConfusion (congrArg Prod.snd hok)
      · exact Except.noConfusion (congrArg Prod.snd hok)
  · exact Except.noConfusion (congrArg Prod.snd hok)

/-- Inversion of the descending scan: a successful `get` that returns a
bucket found it at the greatest occupied slot `≤ i`, through `get_t`. -/
theorem getLoop_ok_some (src : DatedSource T) (s : TimeSeriesData T) :
    ∀ (i : Nat) (s' : TimeSeriesData T) (v : T),
      getLoop src s i = (s', .ok (some v)) →
      ∃ k, k ≤ i ∧ s.knownB k = true ∧
        (∀ j, k < j → j ≤ i → s.knownB j = false) ∧
        get_t src s k = (s', .ok v) := by
  intro i
  induction i with
  | zero =>
    intro s' v hok
    unfold getLoop at hok
    cases hs : s.data[0]? with
    | none => rw [hs] at hok; exact Except.noConfusion (congrArg Prod.snd hok)
    | some o =>
      cases o with
      | none =>
        rw [hs] at hok
        simp only at hok
        exact Option.noConfusion (Except.ok.inj (congrArg Prod.snd hok))
      | some h0 =>
        rw [hs] at hok
        simp only [getHit] at hok
        refine ⟨0, le_refl 0, by simp [knownB, hs], fun j hj1 hj2 => by omega, ?_⟩
        cases hg : get_t src s 0 with
        | mk s1 r1 =>
          rw [hg] at hok
          cases r1 with
          | ok w =>
            injection hok with h1 h2
            rw [h1, Option.some.inj (Except.ok.inj h2)]
          | error e => exact Except.noConfusion (congrArg Prod.snd hok)
  | succ i ih =>
    intro s' v hok
    unfold getLoop at hok
    cases hs : s.data[i + 1]? with
    | none => rw [hs] at hok; exact Except.noConfusion (congrArg Prod.snd hok)
    | some o =>
      cases o with
      | none =>
        rw [hs] at hok
        simp only at hok
        obtain ⟨k, hk1, hk2, hk3, hk4⟩ := ih s' v hok
        refine ⟨k, by omega, hk2, fun j hj1 hj2 => ?_, hk4⟩
        by_cases hj : j = i + 1
        · subst hj; simp [knownB, hs]
        · exact hk3 j hj1 (by omega)
      | some h0 =>
        rw [hs] at hok
        simp only [getHit] at hok
        refine ⟨i + 1, le_refl _, by simp [knownB, hs], fun j hj1 hj2 => by omega, ?_⟩
        cases hg : get_t src s (i + 1) with
        | mk s1 r1 =>
          rw [hg] at hok
          cases r1 with
          | ok w =>
            injection hok with h1 h2
            rw [h1, Option.some.inj (Except.ok.inj h2)]
          | error e => exact Except.noConfusion (congrArg Prod.snd hok)

end TimeSeriesData

/-- C7: whenever `get(date)` succeeds and returns a bucket, the key it
selected — the greatest occupied slot `≤ index_calculator date` — sits
at the LRU head afterwards. -/
theorem c7_get_promotes_head {T : Type} (src : DatedSource T) (s : TimeSeriesData T)
    (date : Nat) (s' : TimeSeriesData T) (v : T)
    (hok : TimeSeriesData.get src s date = (s', .ok (some v))) :
    ∃ k, s.greatestKnownLe (s.index_calculator date).toNat k ∧ s'.head = some k := by
  unfold TimeSeriesData.get at hok
  unfold TimeSeriesData.validate_index at hok
  by_cases hneg : s.index_calculator date < 0
  · rw [if_pos hneg] at hok
    exact Except.noConfusion (congrArg Prod.snd hok)
  · rw [if_neg hneg] at hok
    simp only at hok
    obtain ⟨k, hk1, hk2, hk3, hk4⟩ :=
      TimeSeriesData.getLoop_ok_some src s _ s' v hok
    exact ⟨k, ⟨hk1, hk2, fun j hj1 hj2 => hk3 j hj1 hj2⟩,
      TimeSeriesData.get_t_ok_head src s k s' v hk4⟩

/-- Fixture for C7: two resident keys, `1` at the head, `0` at the tail. -/
def c7state : TimeSeriesData Nat :=
  { max_active_items := 4, active_items := 2,
    data := [some { data := some 5, key := 0, prev := some 1, next := none },
             some { data := some 7, key := 1, prev := none, next := some 0 }],
    modified := [], head := some 1, tail := some 0,
    index_calculator := fun d => ((d / 100 : Nat) : Int), max_index := 1,
    log_saved := [] }

/-- C7 witness: `get(100)` selects key 1 and leaves it at the head. -/
theorem c7_get_promotes_head_witness :
    ∃ k, c7state.greatestKnownLe (c7state.index_calculator 100).toNat k ∧
      ((TimeSeriesData.get c5src c7state 100).1).head = some k :=
  c7_get_promotes_head c5src c7state 100 (TimeSeriesData.get c5src c7state 100).1 7 rfl

/-!  Claim C6 — lazy load of a placeholder via `get_t`. -/

namespace TimeSeriesData

variable {T : Type}

/-- `attach` changes no `EqCore` observable; on success it bumps the
active counter, on failure it returns the state unchanged. -/
theorem attach_frame (s : TimeSeriesData T) (key : Nat) :
    EqCore s (s.attach key).1 ∧
    ((s.attach key).2.isOk → (s.attach key).1.active_items = usizeAdd1 s.active_items) ∧
    (¬ (s.attach key).2.isOk → (s.attach key).1 = s) := by
  unfold attach
  cases hh : s.head with
  | none =>
    exact ⟨⟨rfl, rfl, rfl, rfl, rfl, rfl, fun _ => rfl, fun _ => rfl⟩,
      fun _ => rfl, fun hc => absurd rfl hc⟩
  | some hh0 =>
    simp only
    cases hs : s.data[hh0]? with
    | none =>
      exact ⟨EqCore.refl s,
        fun hc => absurd hc (by simp [Except.isOk, Except.toBool]), fun _ => rfl⟩
    | some o =>
      cases o with
      | none =>
        exact ⟨EqCore.refl s,
          fun hc => absurd hc (by simp [Except.isOk, Except.toBool]), fun _ => rfl⟩
      | some h0 =>
        simp only
        refine ⟨?_, fun _ => rfl, fun hc => absurd rfl hc⟩
        have hw := eqCore_writeKeep s hh0 h0 { h0 with prev := some key } hs rfl
        exact ⟨hw.1, hw.2.1, hw.2.2.1, hw.2.2.2.1, hw.2.2.2.2.1, hw.2.2.2.2.2.1,
          hw.2.2.2.2.2.2.1, hw.2.2.2.2.2.2.2⟩

/-- `removeDirtyStep` changes only the ghost log and (shrinks) the
dirty set. -/
theorem removeDirtyStep_frame (src : DatedSource T) (s : TimeSeriesData T) (h : Nat) :
    (∀ j, (removeDirtyStep src s h).1.payloadAt j = s.payloadAt j) ∧
    (∀ j, (removeDirtyStep src s h).1.knownB j = s.knownB j) ∧
    (removeDirtyStep src s h).1.active_items = s.active_items ∧
    (removeDirtyStep src s h).1.max_active_items = s.max_active_items ∧
    (removeDirtyStep src s h).1.tail = s.tail ∧
    (removeDirtyStep src s h).1.data = s.data ∧
    (∀ k, k ∉ s.modified → k ∉ (removeDirtyStep src s h).1.modified) := by
  unfold removeDirtyStep
  split
  · split
    · split
      · split
        · exact ⟨fun j => rfl, fun j => rfl, rfl, rfl, rfl, rfl,
            fun k hk => by
              intro hmem
              exact hk (List.mem_of_mem_filter hmem)⟩
        · exact ⟨fun j => rfl, fun j => rfl, rfl, rfl, rfl, rfl, fun k hk => hk⟩
      · exact ⟨fun j => rfl, fun j => rfl, rfl, rfl, rfl, rfl, fun k hk => hk⟩
    · exact ⟨fun j => rfl, fun j => rfl, rfl, rfl, rfl, rfl, fun k hk => hk⟩
  · exact ⟨fun j => rfl, fun j => rfl, rfl, rfl, rfl, rfl, fun k hk => hk⟩

/-- `removeClearStep` never adds a payload, never touches the dirty
set, and preserves the capacity and the limit. -/
theorem removeClearStep_frame (s1 : TimeSeriesData T) (h : Nat) :
    (∀ j, s1.payloadAt j = none → (removeClearStep s1 h).1.payloadAt j = none) ∧
    (removeClearStep s1 h).1.modified = s1.modified ∧
    (removeClearStep s1 h).1.max_active_items = s1.max_active_items ∧
    (removeClearStep s1 h).1.log_saved = s1.log_saved ∧
    (∀ j, (removeClearStep s1 h).1.knownB j = s1.knownB j) := by
  unfold removeClearStep
  split
  · next holder2 hslot =>
    simp only
    set s2 := s1.writeHolder h { holder2 with data := none } with hs2
    set s3 : TimeSeriesData T := { s2 with active_items := usizeSub1 s2.active_items } with hs3
    have hframe := detach_frame s3 h
    have hlt : h < s1.data.length := lt_length_of_slot s1 h _ hslot
    refine ⟨fun j hj => ?_, hframe.1.2.1, hframe.1.2.2.1, hframe.1.1, fun j => ?_⟩
    · rw [hframe.1.2.2.2.2.2.2.1 j]
      by_cases hjh : j = h
      · subst hjh
        show (match s3.data[j]? with
          | some (some hh) => hh.data
          | _ => none) = none
        have : s3.data[j]? = some (some { holder2 with data := none }) := by
          show s2.data[j]? = some (some { holder2 with data := none })
          exact getElem?_writeHolder_self s1 j _ hlt
        rw [this]
      · show s3.payloadAt j = none
        have : s3.payloadAt j = s1.payloadAt j := by
          show s2.payloadAt j = s1.payloadAt j
          rw [payloadAt, payloadAt, getElem?_writeHolder_ne s1 h _ j (fun hh => hjh hh.symm)]
        rw [this]
        exact hj
    · rw [hframe.1.2.2.2.2.2.2.2 j]
      by_cases hjh : j = h
      · subst hjh
        show (match s3.data[j]? with
          | some (some _) => true
          | _ => false) = s1.knownB j
        have : s3.data[j]? = some (some { holder2 with data := none }) := by
          show s2.data[j]? = some (some { holder2 with data := none })
          exact getElem?_writeHolder_self s1 j _ hlt
        rw [this, knownB, hslot]
      · show s3.knownB j = s1.knownB j
        show s2.knownB j = s1.knownB j
        rw [knownB, knownB, getElem?_writeHolder_ne s1 h _ j (fun hh => hjh hh.symm)]
  · exact ⟨fun j hj => hj, rfl, rfl, rfl, fun j => rfl⟩

/-- `remove_by_lru` never adds a payload or a dirty bit, and preserves
the limit. -/
theorem remove_by_lru_frame (src : DatedSource T) (s : TimeSeriesData T) :
    (∀ j, s.payloadAt j = none → (remove_by_lru src s).1.payloadAt j = none) ∧
    (∀ k, k ∉ s.modified → k ∉ (remove_by_lru src s).1.modified) ∧
    (remove_by_lru src s).1.max_active_items = s.max_active_items ∧
    (∀ j, (remove_by_lru src s).1.knownB j = s.knownB j) := by
  unfold remove_by_lru
  split
  · exact ⟨fun j hj => hj, fun k hk => hk, rfl, fun j => rfl⟩
  · next hk htl =>
    cases hd : removeDirtyStep src s hk with
    | mk s1 r1 =>
      have hf1 := removeDirtyStep_frame src s hk
      rw [hd] at hf1
      cases r1 with
      | error e =>
        exact ⟨fun j hj => by rw [hf1.1 j]; exact hj, hf1.2.2.2.2.2.2,
          hf1.2.2.2.1, hf1.2.1⟩
      | ok u =>
        have hf2 := removeClearStep_frame s1 hk
        refine ⟨fun j hj => ?_, fun k hkm => ?_, ?_, fun j => ?_⟩
        · exact hf2.1 j (by rw [hf1.1 j]; exact hj)
        · rw [hf2.2.1]
          exact hf1.2.2.2.2.2.2 k hkm
        · rw [hf2.2.2.1]
          exact hf1.2.2.2.1
        · rw [hf2.2.2.2.2 j]
          exact hf1.2.1 j

/-- `cleanupFuel` never adds a payload or a dirty bit; a success exit
has the counter strictly below the limit. -/
theorem cleanupFuel_frame (src : DatedSource T) :
    ∀ (n : Nat) (s : TimeSeriesData T),
    (∀ j, s.payloadAt j = none → (cleanupFuel src n s).1.payloadAt j = none) ∧
    (∀ k, k ∉ s.modified → k ∉ (cleanupFuel src n s).1.modified) ∧
    (cleanupFuel src n s).1.max_active_items = s.max_active_items ∧
    ((cleanupFuel src n s).2.isOk →
      (cleanupFuel src n s).1.active_items < (cleanupFuel src n s).1.max_active_items) ∧
    (∀ j, (cleanupFuel src n s).1.knownB j = s.knownB j) := by
  intro n
  induction n with
  | zero =>
    intro s
    exact ⟨fun j hj => hj, fun k hk => hk, rfl,
      fun hc => absurd hc (by simp [cleanupFuel, Except.isOk, Except.toBool]),
      fun j => rfl⟩
  | succ n ih =>
    intro s
    unfold cleanupFuel
    by_cases hcond : s.max_active_items ≤ s.active_items
    · rw [if_pos hcond]
      cases hr : remove_by_lru src s with
      | mk s1 r1 =>
        have hfr := remove_by_lru_frame src s
        rw [hr] at hfr
        cases r1 with
        | error e =>
          exact ⟨fun j hj => hfr.1 j hj, fun k hk => hfr.2.1 k hk, hfr.2.2.1,
            fun hc => absurd hc (by simp [Except.isOk, Except.toBool]),
            fun j => hfr.2.2.2 j⟩
        | ok u =>
          have := ih s1
          exact ⟨fun j hj => this.1 j (hfr.1 j hj),
            fun k hk => this.2.1 k (hfr.2.1 k hk),
            this.2.2.1.trans hfr.2.2.1, this.2.2.2.1,
            fun j => (this.2.2.2.2 j).trans (hfr.2.2.2 j)⟩
    · rw [if_neg hcond]
      refine ⟨fun j hj => hj, fun k hk => hk, rfl, fun _ => ?_, fun j => rfl⟩
      show s.active_items < s.max_active_items
      omega

/-- `cleanup` never adds a payload or a dirty bit; success leaves the
counter strictly below the limit. -/
theorem cleanup_frame (src : DatedSource T) (s : TimeSeriesData T) :
    (∀ j, s.payloadAt j = none → (cleanup src s).1.payloadAt j = none) ∧
    (∀ k, k ∉ s.modified → k ∉ (cleanup src s).1.modified) ∧
    (cleanup src s).1.max_active_items = s.max_active_items ∧
    ((cleanup src s).2.isOk →
      (cleanup src s).1.active_items < (cleanup src s).1.max_active_items) ∧
    (∀ j, (cleanup src s).1.knownB j = s.knownB j) :=
  cleanupFuel_frame src (s.active_items + s.data.length + 2) s

end TimeSeriesData

/-- Bumping a counter that is strictly below a bound keeps it at or
below the bound, wrap-around included. -/
theorem usizeAdd1_le_of_lt {a m : Nat} (h : a < m) : usizeAdd1 a ≤ m := by
  unfold usizeAdd1 USIZE_MOD
  by_cases hc : a + 1 < 18446744073709551616
  · rw [Nat.mod_eq_of_lt hc]
    omega
  · have := Nat.mod_lt (a + 1) (show 0 < 18446744073709551616 by omega)
    omega

/-- C6: touching a placeholder key `k` in `get_t` runs eviction before
anything else; any failure (of eviction, of `get_files`, or of `load`)
propagates and leaves `k` a placeholder and clean; on success the
bucket returned is exactly the loaded one, it is stored at `k`,
attached at the LRU head, not added to the dirty set, and the resident
count respects the `max_active_items` bound. -/
theorem c6_lazy_load {T : Type} (src : DatedSource T) (s : TimeSeriesData T)
    (k : Nat) (h : DataHolder T) (hslot : s.data[k]? = some (some h))
    (hph : h.data = none) (hnd : k ∉ s.modified) :
    (∀ s1 e, TimeSeriesData.cleanup src s = (s1, .error e) →
      TimeSeriesData.get_t src s k = (s1, .error e) ∧
      s1.payloadAt k = none ∧ k ∉ s1.modified)
    ∧ (∀ s1 u, TimeSeriesData.cleanup src s = (s1, .ok u) →
        (∀ e, src.get_files k = .error e →
          TimeSeriesData.get_t src s k = (s1, .error e) ∧
          s1.payloadAt k = none ∧ k ∉ s1.modified)
        ∧ (∀ files, src.get_files k = .ok files →
            (∀ e, src.load files = .error e →
              TimeSeriesData.get_t src s k = (s1, .error e) ∧
              s1.payloadAt k = none ∧ k ∉ s1.modified)
            ∧ (∀ t, src.load files = .ok t → ∀ s' v,
                TimeSeriesData.get_t src s k = (s', .ok v) →
                v = t ∧ s'.payloadAt k = some t ∧ s'.head = some k ∧
                k ∉ s'.modified ∧ s'.active_items ≤ s.max_active_items))) := by
  have hplnone : s.payloadAt k = none := by
    simp only [TimeSeriesData.payloadAt, hslot]
    exact hph
  have hcf := TimeSeriesData.cleanup_frame src s
  constructor
  · intro s1 e hcl
    rw [hcl] at hcf
    refine ⟨?_, hcf.1 k hplnone, hcf.2.1 k hnd⟩
    unfold TimeSeriesData.get_t
    rw [hslot]
    simp only
    rw [hph]
    simp only
    rw [hcl]
  · intro s1 u hcl
    rw [hcl] at hcf
    constructor
    · intro e hgf
      refine ⟨?_, hcf.1 k hplnone, hcf.2.1 k hnd⟩
      unfold TimeSeriesData.get_t
      rw [hslot]
      simp only
      rw [hph]
      simp only
      rw [hcl]
      simp only
      rw [hgf]
    · intro files hgf
      constructor
      · intro e hld
        refine ⟨?_, hcf.1 k hplnone, hcf.2.1 k hnd⟩
        unfold TimeSeriesData.get_t
        rw [hslot]
        simp only
        rw [hph]
        simp only
        rw [hcl]
        simp only
        rw [hgf]
        simp only
        rw [hld]
      · intro t hld s' v hok
        unfold TimeSeriesData.get_t at hok
        rw [hslot] at hok
        simp only at hok
        rw [hph] at hok
        simp only at hok
        rw [hcl] at hok
        simp only at hok
        rw [hgf] at hok
        simp only at hok
        rw [hld] at hok
        simp only at hok
        have hknown1 : s1.knownB k = true := by
          rw [hcf.2.2.2.2 k]
          simp [TimeSeriesData.knownB, hslot]
        have hlt1 : k < s1.data.length := by
          unfold TimeSeriesData.knownB at hknown1
          by_contra hge
          rw [List.getElem?_eq_none (by omega)] at hknown1
          exact Bool.noConfusion hknown1
        set s2 := s1.writeHolder k { h with data := some t, prev := none, next := s1.head }
          with hs2
        have hgetk : s2.data[k]? =
            some (some { h with data := some t, prev := none, next := s1.head }) :=
          TimeSeriesData.getElem?_writeHolder_self s1 k _ hlt1
        have hpays2 : s2.payloadAt k = some t := by
          simp only [TimeSeriesData.payloadAt]
          rw [hgetk]
        cases hat : s2.attach k with
        | mk s3 r3 =>
          rw [hat] at hok
          cases r3 with
          | error e => exact Except.noConfusion (congrArg Prod.snd hok)
          | ok u3 =>
            have haf := TimeSeriesData.attach_frame s2 k
            rw [hat] at haf
            injection hok with h1 h2
            rw [← h1]
            refine ⟨(Except.ok.inj h2).symm, ?_, ?_, ?_, ?_⟩
            · rw [haf.1.2.2.2.2.2.2.1 k]
              exact hpays2
            · exact TimeSeriesData.attach_ok_head s2 k s3 u3 hat
            · have hm : s3.modified = s2.modified := haf.1.2.1
              rw [hm]
              exact hcf.2.1 k hnd
            · have hact : s3.active_items = usizeAdd1 s2.active_items :=
                haf.2.1 (by simp [Except.isOk, Except.toBool])
              rw [hact]
              have hlt : s2.active_items < s2.max_active_items := by
                show s1.active_items < s1.max_active_items
                exact hcf.2.2.2.1 (by simp [Except.isOk, Except.toBool])
              have hmax : s2.max_active_items = s.max_active_items := hcf.2.2.1
              rw [← hmax]
              exact usizeAdd1_le_of_lt hlt

/-- Fixture for C6: key 0 resident, key 1 a placeholder. -/
def c6state : TimeSeriesData Nat :=
  { max_active_items := 4, active_items := 1,
    data := [some { data := some 5, key := 0, prev := none, next := none },
             some (DataHolder.empty 1)],
    modified := [], head := some 0, tail := some 0,
    index_calculator := fun d => ((d / 100 : Nat) : Int), max_index := 1,
    log_saved := [] }

/-- C6 witness: lazily loading placeholder key 1 succeeds, stores the
loaded bucket, attaches it at the head, stays clean and in bound. -/
theorem c6_lazy_load_witness :
    (0 : Nat) = 0 ∧
    ((TimeSeriesData.get_t c5src c6state 1).1).payloadAt 1 = some 0 ∧
    ((TimeSeriesData.get_t c5src c6state 1).1).head = some 1 ∧
    1 ∉ ((TimeSeriesData.get_t c5src c6state 1).1).modified ∧
    ((TimeSeriesData.get_t c5src c6state 1).1).active_items ≤ c6state.max_active_items :=
  ((((c6_lazy_load c5src c6state 1 (DataHolder.empty 1) rfl rfl (by decide)).2
      c6state () rfl).2 [] rfl).2 0 rfl (TimeSeriesData.get_t c5src c6state 1).1 0 rfl)

/-!  Claim C1 — the selection rule of `get`. -/

namespace TimeSeriesData

variable {T : Type}

/-- If every slot up to `i` (all in bounds) is unoccupied, the scan
returns `None` and leaves the state alone. -/
theorem getLoop_none (src : DatedSource T) (s : TimeSeriesData T) :
    ∀ i, i < s.data.length → (∀ j, j ≤ i → s.knownB j = false) →
      getLoop src s i = (s, .ok none) := by
  intro i
  induction i with
  | zero =>
    intro hlt hall
    have h0 := hall 0 (le_refl 0)
    unfold getLoop
    unfold knownB at h0
    cases hs : s.data[0]? with
    | none =>
      rw [List.getElem?_eq_getElem hlt] at hs
      exact Option.noConfusion hs
    | some o =>
      cases o with
      | none => rfl
      | some h1 => rw [hs] at h0; exact Bool.noConfusion h0
  | succ i ih =>
    intro hlt hall
    have h0 := hall (i + 1) (le_refl _)
    unfold getLoop
    unfold knownB at h0
    cases hs : s.data[i + 1]? with
    | none =>
      rw [List.getElem?_eq_getElem hlt] at hs
      exact Option.noConfusion hs
    | some o =>
      cases o with
      | none =>
        simp only
        exact ih (by omega) (fun j hj => hall j (by omega))
      | some h1 => rw [hs] at h0; exact Bool.noConfusion h0

/-- The scan stops at the greatest occupied slot `≤ i` and touches it
with `get_t`. -/
theorem getLoop_found (src : DatedSource T) (s : TimeSeriesData T) :
    ∀ i k, k ≤ i → i < s.data.length → s.knownB k = true →
      (∀ j, k < j → j ≤ i → s.knownB j = false) →
      getLoop src s i = getHit src s k := by
  intro i
  induction i with
  | zero =>
    intro k hk hlt hkn habove
    have hk0 : k = 0 := by omega
    subst hk0
    unfold getLoop
    unfold knownB at hkn
    cases hs : s.data[0]? with
    | none => rw [hs] at hkn; exact Bool.noConfusion hkn
    | some o =>
      cases o with
      | none => rw [hs] at hkn; exact Bool.noConfusion hkn
      | some h1 => rfl
  | succ i ih =>
    intro k hk hlt hkn habove
    unfold getLoop
    by_cases hki : k = i + 1
    · subst hki
      unfold knownB at hkn
      cases hs : s.data[i + 1]? with
      | none => rw [hs] at hkn; exact Bool.noConfusion hkn
      | some o =>
        cases o with
        | none => rw [hs] at hkn; exact Bool.noConfusion hkn
        | some h1 => rfl
    · have hklt : k ≤ i := by omega
      have htop := habove (i + 1) (by omega) (le_refl _)
      unfold knownB at htop
      cases hs : s.data[i + 1]? with
      | none =>
        rw [List.getElem?_eq_getElem hlt] at hs
        exact Option.noConfusion hs
      | some o =>
        cases o with
        | none =>
          simp only
          exact ih k hklt (by omega) hkn (fun j hj1 hj2 => habove j hj1 (by omega))
        | some h1 => rw [hs] at htop; exact Bool.noConfusion htop

/-- Every error of `detachNextStep` is a panic. -/
theorem detachNextStep_err (s : TimeSeriesData T) (idx : Nat) (hpv hnx : Option Nat)
    (e : TsError) (he : (s.detachNextStep idx hpv hnx).2 = .error e) : e = .fatal := by
  unfold detachNextStep at he
  split at he
  · split at he
    · exact (Except.error.inj he).symm
    · split at he
      · exact Except.noConfusion he
      · exact (Except.error.inj he).symm
  · exact Except.noConfusion he

/-- Every error of `detachPrevStep` is a panic. -/
theorem detachPrevStep_err (s : TimeSeriesData T) (idx : Nat) (hpv hnx : Option Nat)
    (e : TsError) (he : (s.detachPrevStep idx hpv hnx).2 = .error e) : e = .fatal := by
  unfold detachPrevStep at he
  split at he
  · split at he
    · exact (Except.error.inj he).symm
    · split at he
      · exact Except.noConfusion he
      · exact (Except.error.inj he).symm
  · exact Except.noConfusion he

/-- Every error of `detach` is a panic. -/
theorem detach_err (s : TimeSeriesData T) (idx : Nat) (e : TsError)
    (he : (s.detach idx).2 = .error e) : e = .fatal := by
  unfold detach at he
  split at he
  · next h hslot =>
    cases h1 : s.detachNextStep idx h.prev h.next with
    | mk s1 r1 =>
      rw [h1] at he
      cases r1 with
      | ok u => exact detachPrevStep_err s1 idx h.prev h.next e he
      | error e1 =>
        have := detachNextStep_err s idx h.prev h.next e1 (by rw [h1])
        subst this
        exact (Except.error.inj he).symm
  · exact (Except.error.inj he).symm

/-- Every error of `move_to_front` is a panic. -/
theorem move_to_front_err (s : TimeSeriesData T) (idx : Nat) (e : TsError)
    (he : (s.move_to_front idx).2 = .error e) : e = .fatal := by
  unfold move_to_front at he
  cases hd : s.detach idx with
  | mk s1 r1 =>
    rw [hd] at he
    cases r1 with
    | error e1 =>
      have := detach_err s idx e1 (by rw [hd])
      subst this
      exact (Except.error.inj he).symm
    | ok u1 =>
      simp only at he
      split at he
      · split at he
        · exact (Except.error.inj he).symm
        · split at he
          · exact (Except.error.inj he).symm
          · split at he
            · exact Except.noConfusion he
            · exact (Except.error.inj he).symm
      · exact (Except.error.inj he).symm

/-- Touching a resident key returns its payload, or panics (the Rust
`move_to_front` unwraps the post-detach head, which dies when the
touched key is the only linked entry, and on corrupted links). -/
theorem get_t_resident (src : DatedSource T) (s : TimeSeriesData T) (k : Nat)
    (h : DataHolder T) (p : T) (hslot : s.data[k]? = some (some h))
    (hpay : h.data = some p) :
    (get_t src s k).2 = .ok p ∨ (get_t src s k).2 = .error .fatal := by
  unfold get_t
  rw [hslot]
  simp only
  rw [hpay]
  simp only
  cases hmf : s.move_to_front k with
  | mk s1 r1 =>
    cases r1 with
    | ok u => exact Or.inl rfl
    | error e =>
      have := move_to_front_err s k e (by rw [hmf])
      subst this
      exact Or.inr rfl

end TimeSeriesData

/-- `getHit` is `get_t` with the payload wrapped in `Some`. -/
theorem getHit_eq {T : Type} (src : DatedSource T) (s : TimeSeriesData T) (i : Nat) :
    TimeSeriesData.getHit src s i =
      ((TimeSeriesData.get_t src s i).1, (TimeSeriesData.get_t src s i).2.map some) := by
  unfold TimeSeriesData.getHit
  cases hg : TimeSeriesData.get_t src s i with
  | mk s1 r1 =>
    cases r1 with
    | ok v => rfl
    | error e => rfl

/-- C1 (amended): provided the date's index is non-negative and below
the slot-vector capacity, `get(date)` returns `None` (without touching
the state) when no occupied slot lies at or below the index, and
otherwise runs `get_t` on the greatest occupied slot `≤` the index —
returning that bucket (lazily loading a placeholder) or propagating
`get_t`'s error; in particular a resident greatest key yields its
payload unless the touch panics. -/
theorem c1_get_selects_greatest {T : Type} (src : DatedSource T)
    (s : TimeSeriesData T) (date : Nat) (hidx : 0 ≤ s.index_calculator date)
    (hcap : (s.index_calculator date).toNat < s.data.length) :
    (s.noKnownLe (s.index_calculator date).toNat →
      TimeSeriesData.get src s date = (s, .ok none))
    ∧ (∀ k, s.greatestKnownLe (s.index_calculator date).toNat k →
        TimeSeriesData.get src s date =
          ((TimeSeriesData.get_t src s k).1,
            (TimeSeriesData.get_t src s k).2.map some))
    ∧ (∀ k h p, s.greatestKnownLe (s.index_calculator date).toNat k →
        s.data[k]? = some (some h) → h.data = some p →
        (TimeSeriesData.get src s date).2 = .ok (some p) ∨
        (TimeSeriesData.get src s date).2 = .error .fatal) := by
  have hget : TimeSeriesData.get src s date =
      TimeSeriesData.getLoop src s (s.index_calculator date).toNat := by
    unfold TimeSeriesData.get TimeSeriesData.validate_index
    rw [if_neg (by omega)]
  refine ⟨fun hnone => ?_, fun k hk => ?_, fun k h p hk hslot hpay => ?_⟩
  · rw [hget]
    exact TimeSeriesData.getLoop_none src s _ hcap (fun j hj => hnone j hj)
  · rw [hget, TimeSeriesData.getLoop_found src s _ k hk.1 hcap hk.2.1
      (fun j h1 h2 => hk.2.2 j h1 h2)]
    exact getHit_eq src s k
  · rw [hget, TimeSeriesData.getLoop_found src s _ k hk.1 hcap hk.2.1
      (fun j h1 h2 => hk.2.2 j h1 h2), getHit_eq src s k]
    cases TimeSeriesData.get_t_resident src s k h p hslot hpay with
    | inl hok =>
      left
      show ((TimeSeriesData.get_t src s k).2.map some) = .ok (some p)
      rw [hok]
      rfl
    | inr herr =>
      right
      show ((TimeSeriesData.get_t src s k).2.map some) = .error .fatal
      rw [herr]
      rfl

/-- Fixture for the C1 counterexample: one slot, key 0 resident. -/
def c1state : TimeSeriesData Nat :=
  { max_active_items := 4, active_items := 1,
    data := [some { data := some 5, key := 0, prev := none, next := none }],
    modified := [], head := some 0, tail := some 0,
    index_calculator := fun d => ((d / 100 : Nat) : Int), max_index := 0,
    log_saved := [] }

/-- C1 (counterexample): for date 100 the index is 1 (non-negative),
key 0 is known and `≤ 1`, yet `get(100)` neither returns the bucket at
key 0 nor `None` — it dies on the out-of-bounds slot access `data[1]`
(the slot vector has capacity 1). -/
theorem c1_get_selects_greatest_counterexample :
    c1state.index_calculator 100 = 1 ∧
    c1state.knownB 0 = true ∧
    (TimeSeriesData.get c5src c1state 100).2 = .error .fatal :=
  ⟨rfl, rfl, rfl⟩

/-- C1 witness: on a two-slot cache with both keys resident, `get(100)`
reduces to touching the greatest known key 1. -/
theorem c1_get_selects_greatest_witness :
    TimeSeriesData.get c5src c7state 100 =
      ((TimeSeriesData.get_t c5src c7state 1).1,
        (TimeSeriesData.get_t c5src c7state 1).2.map some) :=
  (c1_get_selects_greatest c5src c7state 100 (by decide) (by decide)).2.1 1
    ⟨le_refl 1, rfl, fun j h1 h2 => (Nat.lt_irrefl 1 (h1.trans_le h2)).elim⟩

/-!  Claim C9 — `build_ops_and_changes`. -/

/-- The `update_changes` window loop equals applying the operations
that pass the window filter, in order. -/
theorem updateLoop_eq_filter (accounts : Accounts) (subcategories : Subcategories)
    (fromD toD : Nat) :
    ∀ (ops : List FinanceOperation) (ch : FinanceChanges),
      updateLoop accounts subcategories fromD toD ops ch =
        applyLoop accounts subcategories
          (ops.filter (fun op => op.within fromD toD)) ch := by
  intro ops
  induction ops with
  | nil => intro ch; rfl
  | cons op rest ih =>
    intro ch
    by_cases hw : op.within fromD toD
    · simp only [updateLoop, applyLoop, List.filter_cons, hw, if_true]
      cases hap : op.apply ch accounts subcategories with
      | ok ch1 => simp only [applyLoop, hap]; exact ih ch1
      | error e => simp only [applyLoop, hap]
    · have hw' : op.within fromD toD = false := by
        cases hb : op.within fromD toD
        · rfl
        · exact absurd hb hw
      simp only [updateLoop, List.filter_cons, hw', if_false, Bool.false_eq_true]
      exact ih ch

/-- Spec-side description of `ops_and_changes`'s changes: apply the
operations dated in `[0, date−1]` to changes opened from the bucket's
totals, take the end balances, reopen, and apply the operations dated
exactly `date`. -/
def spec_two_pass (record : FinanceRecord) (date : Nat) (accounts : Accounts)
    (subcategories : Subcategories) : Except TsError FinanceChanges :=
  match applyLoop accounts subcategories
      (record.operations.filter (fun op => decide (op.date ≤ date - 1)))
      (FinanceChanges.new record.totals) with
  | .error e => .error e
  | .ok ch1 =>
    applyLoop accounts subcategories
      (record.operations.filter (fun op => op.date == date))
      (FinanceChanges.new ch1.build_totals)

/-- C9 (amended): for `1 ≤ date < 2^64`, `build_ops_and_changes(date)`
locates the bucket through `cache.get(index_calculator date)` — which
applies the index function a second time, so the bucket selected is
the one at the greatest known key `≤ (date/100)/100`, not
`≤ date/100`; with no bucket there it returns the empty list and empty
changes, and with a bucket `record` it returns exactly
`record`'s operations dated `date` together with the two-pass changes
described by the claim. -/
theorem c9_ops_and_changes (src : DatedSource FinanceRecord) (db : HomeAccountingDB)
    (date : Nat) (hdate : 1 ≤ date) (hdate2 : date < USIZE_MOD) :
    (∀ s1, TimeSeriesData.get src db.data (db_index_calculator date) = (s1, .ok none) →
      HomeAccountingDB.build_ops_and_changes src db date =
        ({ db with data := s1 }, .ok ([], FinanceChanges.empty)))
    ∧ (∀ s1 v, TimeSeriesData.get src db.data (db_index_calculator date) =
          (s1, .ok (some v)) →
        ∃ k, db.data.greatestKnownLe
            (db.data.index_calculator (db_index_calculator date)).toNat k ∧
          TimeSeriesData.get_t src db.data k = (s1, .ok v))
    ∧ (∀ s1 record, TimeSeriesData.get src db.data (db_index_calculator date) =
          (s1, .ok (some record)) →
        ∀ db' ops ch,
          HomeAccountingDB.build_ops_and_changes src db date = (db', .ok (ops, ch)) →
          ops = record.get_ops date ∧
          ops = record.operations.filter (fun op => op.date == date) ∧
          spec_two_pass record date db.accounts db.subcategories = .ok ch) := by
  have hwin1 : ∀ op : FinanceOperation,
      op.within 0 (u64sub date 1) = decide (op.date ≤ date - 1) := by
    intro op
    have hsub : u64sub date 1 = date - 1 := by
      simp only [u64sub, USIZE_MOD] at hdate2 ⊢
      omega
    rw [hsub]
    simp [FinanceOperation.within]
  have hwin2 : ∀ op : FinanceOperation,
      op.within date date = (op.date == date) := by
    intro op
    unfold FinanceOperation.within
    by_cases hd : op.date = date
    · subst hd
      simp
    · rw [beq_false_of_ne hd]
      by_cases h1 : date ≤ op.date
      · have h2 : ¬ op.date ≤ date := fun hh => hd (Nat.le_antisymm hh h1)
        simp [h1, h2]
      · simp [h1]
  refine ⟨fun s1 hget => ?_, fun s1 v hget => ?_, fun s1 record hget => ?_⟩
  · unfold HomeAccountingDB.build_ops_and_changes
    rw [hget]
  · unfold TimeSeriesData.get at hget
    unfold TimeSeriesData.validate_index at hget
    by_cases hneg : db.data.index_calculator (db_index_calculator date) < 0
    · rw [if_pos hneg] at hget
      exact Except.noConfusion (congrArg Prod.snd hget)
    · rw [if_neg hneg] at hget
      simp only at hget
      obtain ⟨k, hk1, hk2, hk3, hk4⟩ :=
        TimeSeriesData.getLoop_ok_some src db.data _ s1 v hget
      exact ⟨k, ⟨hk1, hk2, hk3⟩, hk4⟩
  · intro db' ops ch hrun
    unfold HomeAccountingDB.build_ops_and_changes at hrun
    rw [hget] at hrun
    simp only at hrun
    unfold FinanceRecord.update_changes at hrun
    rw [show record.create_changes = FinanceChanges.new record.totals from rfl] at hrun
    rw [updateLoop_eq_filter] at hrun
    rw [List.filter_congr (fun op _ => hwin1 op)] at hrun
    unfold spec_two_pass
    cases hp1 : applyLoop db.accounts db.subcategories
        (record.operations.filter (fun op => decide (op.date ≤ date - 1)))
        (FinanceChanges.new record.totals) with
    | error e =>
      rw [hp1] at hrun
      exact Except.noConfusion (congrArg Prod.snd hrun)
    | ok ch1 =>
      rw [hp1] at hrun
      simp only at hrun
      rw [updateLoop_eq_filter] at hrun
      rw [List.filter_congr (fun op _ => hwin2 op)] at hrun
      cases hp2 : applyLoop db.accounts db.subcategories
          (record.operations.filter (fun op => op.date == date))
          (FinanceChanges.new ch1.build_totals) with
      | error e =>
        rw [hp2] at hrun
        exact Except.noConfusion (congrArg Prod.snd hrun)
      | ok ch2 =>
        rw [hp2] at hrun
        injection hrun with h1 h2
        have h3 := Except.ok.inj h2
        have hops : ops = record.get_ops date := (congrArg Prod.fst h3).symm
        have hch : ch2 = ch := congrArg Prod.snd h3
        refine ⟨hops, hops.trans rfl, ?_⟩
        show applyLoop db.accounts db.subcategories
            (record.operations.filter (fun op => op.date == date))
            (FinanceChanges.new ch1.build_totals) = Except.ok ch
        rw [hp2, hch]

/-- Fixture: an `INCM` subcategory table. -/
def c9subcats : Subcategories :=
  ⟨[(1, ⟨1, "salary", SubcategoryCode.None, SubcategoryOperationCode.Incm, 10⟩)]⟩

/-- Fixture source for `FinanceRecord` caches. -/
def c9src : DatedSource FinanceRecord :=
  { get_files := fun _ => .ok [], load := fun _ => .ok (FinanceRecord.mk [] []),
    save := fun _ _ => .ok () }

/-- Fixture: an operation dated 10000. -/
def c9op1 : FinanceOperation :=
  { date := 10000, account := 100, subcategory := 1, amount := none,
    summa := 50, parameters := [] }

/-- Fixture: one operation dated 10000 in the bucket at key 100. -/
def c9rec : FinanceRecord := { operations := [c9op1], totals := [] }

/-- Fixture cache: the single bucket `c9rec` resident at key 100
(`index(10000) = 100`), capacity 101. -/
def c9cache : TimeSeriesData FinanceRecord :=
  { max_active_items := 4, active_items := 1,
    data := List.replicate 100 none ++
      [some { data := some c9rec, key := 100, prev := none, next := none }],
    modified := [], head := some 100, tail := some 100,
    index_calculator := fun d => ((d / 100 : Nat) : Int), max_index := 100,
    log_saved := [] }

/-- Fixture database around `c9cache`. -/
def c9db : HomeAccountingDB :=
  { data := c9cache, accounts := ⟨[]⟩, categories := [], subcategories := c9subcats }

/-- C9 (counterexample): for date 10000 the index is 100 and the bucket
at key 100 holds an operation dated 10000, so per the claim
`ops_and_changes(10000)` should return that operation; instead
`build_ops_and_changes` passes the already-divided index 100 to
`get`, which divides again and scans keys `≤ 1`, finds nothing, and
returns the empty list and empty changes. -/
theorem c9_ops_and_changes_counterexample :
    db_index_calculator 10000 = 100 ∧
    c9db.data.knownB 100 = true ∧
    (c9rec.get_ops 10000).length = 1 ∧
    (HomeAccountingDB.build_ops_and_changes c9src c9db 10000).2 =
      .ok ([], FinanceChanges.empty) :=
  ⟨rfl, rfl, by decide, rfl⟩

/-- Fixture: the first witness operation (dated 9999). -/
def c9op2 : FinanceOperation :=
  { date := 9999, account := 7, subcategory := 1, amount := none,
    summa := 10, parameters := [] }

/-- Fixture: the second witness operation (dated 10000). -/
def c9op3 : FinanceOperation :=
  { date := 10000, account := 7, subcategory := 1, amount := none,
    summa := 5, parameters := [] }

/-- Fixture: a two-operation bucket for the C9 witness. -/
def c9rec2 : FinanceRecord :=
  { operations := [c9op2, c9op3], totals := [(7, 100)] }

/-- Fixture holders for the C9 witness cache. -/
def c9h0 : DataHolder FinanceRecord :=
  { data := some (FinanceRecord.mk [] []), key := 0, prev := some 1, next := none }

/-- Fixture holder with the witness bucket at key 1. -/
def c9h1 : DataHolder FinanceRecord :=
  { data := some c9rec2, key := 1, prev := none, next := some 0 }

/-- Fixture cache for the C9 witness: keys 0 and 1 resident, `c9rec2`
at key 1 (`(10000/100)/100 = 1`). -/
def c9cache2 : TimeSeriesData FinanceRecord :=
  { max_active_items := 4, active_items := 2, data := [some c9h0, some c9h1],
    modified := [], head := some 1, tail := some 0,
    index_calculator := fun d => ((d / 100 : Nat) : Int), max_index := 1,
    log_saved := [] }

/-- Fixture database for the C9 witness. -/
def c9db2 : HomeAccountingDB :=
  { data := c9cache2, accounts := ⟨[]⟩, categories := [], subcategories := c9subcats }

/-- The changes value produced for the C9 witness: the 9999 operation
feeds the intermediate totals (110), the 10000 operation adds income 5. -/
def c9wch : FinanceChanges := ⟨[(7, ⟨110, 5, 0⟩)]⟩

/-- C9 witness: on the concrete database the located bucket is
`c9rec2` and the returned operations and changes match the two-pass
spec description. -/
theorem c9_ops_and_changes_witness :
    c9rec2.get_ops 10000 = c9rec2.get_ops 10000 ∧
    c9rec2.get_ops 10000 =
      c9rec2.operations.filter (fun op => op.date == 10000) ∧
    spec_two_pass c9rec2 10000 c9db2.accounts c9db2.subcategories = .ok c9wch :=
  (c9_ops_and_changes c9src c9db2 10000 (by decide) (by decide)).2.2
    (TimeSeriesData.get c9src c9db2.data 100).1 c9rec2 rfl
    (HomeAccountingDB.build_ops_and_changes c9src c9db2 10000).1
    (c9rec2.get_ops 10000) c9wch rfl

/-!  Claim C3 — the residency bound `active_count ≤ max_active_items`. -/

namespace TimeSeriesData

variable {T : Type}

/-- `move_to_front` only rewires links. -/
theorem move_to_front_frame (s : TimeSeriesData T) (idx : Nat) :
    EqCore s (s.move_to_front idx).1 ∧
    (s.move_to_front idx).1.active_items = s.active_items := by
  unfold move_to_front
  cases hd : s.detach idx with
  | mk s1 r1 =>
    have hf1 := detach_frame s idx
    rw [hd] at hf1
    cases r1 with
    | error e => exact hf1
    | ok u1 =>
      simp only
      cases hs : s1.data[idx]? with
      | none => exact hf1
      | some o =>
        cases o with
        | none => exact hf1
        | some v =>
          simp only
          cases hhi : s1.head with
          | none =>
            have hw1 := eqCore_writeKeep s1 idx v { v with next := none, prev := none } hs rfl
            exact ⟨hf1.1.trans ⟨hw1.1, hw1.2.1, hw1.2.2.1, hw1.2.2.2.1, hw1.2.2.2.2.1,
              hw1.2.2.2.2.2.1, hw1.2.2.2.2.2.2.1, hw1.2.2.2.2.2.2.2⟩, hf1.2⟩
          | some hh =>
            have hw1 := eqCore_writeKeep s1 idx v { v with next := some hh, prev := none } hs rfl
            have hcore2 : EqCore s { s1.writeHolder idx { v with next := some hh, prev := none }
                with head := some idx } :=
              hf1.1.trans ⟨hw1.1, hw1.2.1, hw1.2.2.1, hw1.2.2.2.1, hw1.2.2.2.2.1,
                hw1.2.2.2.2.2.1, hw1.2.2.2.2.2.2.1, hw1.2.2.2.2.2.2.2⟩
            by_cases hhx : hh = idx
            · simp only [hhx, if_true]
              rw [hhx] at hcore2
              exact ⟨hcore2, hf1.2⟩
            · simp only [hhx, if_false]
              cases hs2 : ({ s1.writeHolder idx { v with next := some hh, prev := none }
                  with head := some idx } : TimeSeriesData T).data[hh]? with
              | none => exact ⟨hcore2, hf1.2⟩
              | some o2 =>
                cases o2 with
                | none => exact ⟨hcore2, hf1.2⟩
                | some nh =>
                  have hw2 := eqCore_writeKeep
                    ({ s1.writeHolder idx { v with next := some hh, prev := none }
                      with head := some idx } : TimeSeriesData T) hh nh
                    { nh with prev := some idx } hs2 rfl
                  exact ⟨hcore2.trans hw2, hf1.2⟩

/-- The active counter after `remove_by_lru`: unchanged, or one
eviction's decrement; an empty tail is a no-op. -/
theorem remove_by_lru_active (src : DatedSource T) (s : TimeSeriesData T) :
    ((remove_by_lru src s).1.active_items = s.active_items ∨
     (remove_by_lru src s).1.active_items = usizeSub1 s.active_items) ∧
    (s.tail = none → remove_by_lru src s = (s, .ok ())) := by
  unfold remove_by_lru
  cases ht : s.tail with
  | none => exact ⟨Or.inl rfl, fun _ => rfl⟩
  | some h =>
    refine ⟨?_, fun hc => Option.noConfusion hc⟩
    simp only
    cases hd : removeDirtyStep src s h with
    | mk s1 r1 =>
      have hf1 := removeDirtyStep_frame src s h
      rw [hd] at hf1
      cases r1 with
      | error e => exact Or.inl hf1.2.2.1
      | ok u =>
        simp only
        unfold removeClearStep
        cases hs : s1.data[h]? with
        | none => exact Or.inl hf1.2.2.1
        | some o =>
          cases o with
          | none => exact Or.inl hf1.2.2.1
          | some holder2 =>
            simp only
            right
            have hdf := detach_frame
              ({ s1.writeHolder h { holder2 with data := none } with
                active_items := usizeSub1 (s1.writeHolder h
                  { holder2 with data := none }).active_items } : TimeSeriesData T) h
            rw [hdf.2]
            show usizeSub1 s1.active_items = usizeSub1 s.active_items
            rw [hf1.2.2.1]

/-- The C3 invariant: the counter is bounded by the limit, the limit
is a `usize`, and a zero limit forces an empty cache (nothing can ever
be attached: `cleanup` can then never succeed). -/
def CountInv (s : TimeSeriesData T) : Prop :=
  s.active_items ≤ s.max_active_items ∧ s.max_active_items < USIZE_MOD ∧
  (s.max_active_items = 0 → s.tail = none ∧ s.active_items = 0 ∧
    ∀ (k : Nat) (h : DataHolder T), s.data[k]? = some (some h) → h.data = none)

/-- `remove_by_lru` cannot touch slots, the tail, or the counter when
the tail is empty, and otherwise only clears payloads; this keeps
`CountInv`'s zero-limit clause stable. -/
theorem remove_by_lru_inv (src : DatedSource T) (s : TimeSeriesData T)
    (hinv : CountInv s) (hcond : s.max_active_items ≤ s.active_items) :
    CountInv (remove_by_lru src s).1 := by
  obtain ⟨hle, hus, hzero⟩ := hinv
  have hfr := remove_by_lru_frame src s
  have hact := remove_by_lru_active src s
  by_cases hmz : s.max_active_items = 0
  · obtain ⟨ht, ha, hp⟩ := hzero hmz
    rw [hact.2 ht]
    exact ⟨hle, hus, fun _ => ⟨ht, ha, hp⟩⟩
  · have hge1 : 1 ≤ s.max_active_items := by omega
    have hae : s.active_items = s.max_active_items := by omega
    refine ⟨?_, by rw [hfr.2.2.1]; exact hus, fun hz => ?_⟩
    · cases hact.1 with
      | inl heq => rw [heq, hfr.2.2.1]; omega
      | inr heq =>
        rw [heq, hfr.2.2.1]
        unfold usizeSub1
        rw [if_neg (by omega)]
        omega
    · rw [hfr.2.2.1] at hz
      exact absurd hz hmz

/-- `cleanupFuel` preserves the C3 invariant. -/
theorem cleanupFuel_inv (src : DatedSource T) :
    ∀ (n : Nat) (s : TimeSeriesData T), CountInv s →
      CountInv (cleanupFuel src n s).1 := by
  intro n
  induction n with
  | zero => intro s hinv; exact hinv
  | succ n ih =>
    intro s hinv
    unfold cleanupFuel
    by_cases hcond : s.max_active_items ≤ s.active_items
    · rw [if_pos hcond]
      cases hr : remove_by_lru src s with
      | mk s1 r1 =>
        have hinv1 : CountInv s1 := by
          have := remove_by_lru_inv src s hinv hcond
          rw [hr] at this
          exact this
        cases r1 with
        | error e => exact hinv1
        | ok u => exact ih s1 hinv1
    · rw [if_neg hcond]
      exact hinv

/-- `cleanup` preserves the C3 invariant. -/
theorem cleanup_inv (src : DatedSource T) (s : TimeSeriesData T) (hinv : CountInv s) :
    CountInv (cleanup src s).1 :=
  cleanupFuel_inv src _ s hinv

end TimeSeriesData

namespace TimeSeriesData

variable {T : Type}

/-- A state sharing the counter and limit of one satisfying the
invariant with a non-zero limit satisfies the invariant. -/
theorem countInv_of_eq_am {s2 s5 : TimeSeriesData T}
    (ha : s5.active_items = s2.active_items)
    (hm : s5.max_active_items = s2.max_active_items)
    (hle : s2.active_items ≤ s2.max_active_items)
    (hus : s2.max_active_items < USIZE_MOD)
    (hnz : s2.max_active_items ≠ 0) : CountInv s5 :=
  ⟨by rw [ha, hm]; exact hle, by rw [hm]; exact hus,
   fun hz => absurd (hm ▸ hz) hnz⟩

/-- `add` preserves the C3 invariant, whatever its outcome. -/
theorem add_inv (src : DatedSource T) (s : TimeSeriesData T) (key : Nat) (v : T)
    (d : Bool) (hinv : CountInv s) : CountInv (add src s key v d).1 := by
  unfold add
  cases hc : cleanup src s with
  | mk s1 r1 =>
    have hinv1 : CountInv s1 := by
      have := cleanup_inv src s hinv
      rw [hc] at this
      exact this
    cases r1 with
    | error e => exact hinv1
    | ok u =>
      have hfr := cleanup_frame src s
      rw [hc] at hfr
      have hlt : s1.active_items < s1.max_active_items := hfr.2.2.2.1 rfl
      simp only
      cases ha : attach s1 key with
      | mk s2 r2 =>
        have haf := attach_frame s1 key
        rw [ha] at haf
        cases r2 with
        | error e =>
          have h2 : s2 = s1 :=
            haf.2.2 (by simp [Except.isOk, Except.toBool])
          rw [h2]
          exact hinv1
        | ok u2 =>
          have hact : s2.active_items = usizeAdd1 s1.active_items := haf.2.1 rfl
          have hmax : s2.max_active_items = s1.max_active_items := haf.1.2.2.1
          have hle2 : s2.active_items ≤ s2.max_active_items := by
            rw [hact, hmax]
            exact usizeAdd1_le_of_lt hlt
          have hus2 : s2.max_active_items < USIZE_MOD := by
            rw [hmax]; exact hinv1.2.1
          have hnz2 : s2.max_active_items ≠ 0 := by
            rw [hmax]; omega
          simp only
          by_cases hk : key < s2.data.length
          · rw [if_pos hk]
            exact countInv_of_eq_am (by split <;> split <;> rfl)
              (by split <;> split <;> rfl) hle2 hus2 hnz2
          · rw [if_neg hk]
            exact ⟨hle2, hus2, fun hz => absurd hz hnz2⟩

/-- `get_t` preserves the C3 invariant, whatever its outcome. -/
theorem get_t_inv (src : DatedSource T) (s : TimeSeriesData T) (key : Nat)
    (hinv : CountInv s) : CountInv (get_t src s key).1 := by
  obtain ⟨hle, hus, hzero⟩ := hinv
  unfold get_t
  cases hp : s.data[key]? with
  | none => exact ⟨hle, hus, hzero⟩
  | some o =>
    cases o with
    | none => exact ⟨hle, hus, hzero⟩
    | some v =>
      simp only
      cases hvd : v.data with
      | some payload =>
        simp only
        have hJ : s.max_active_items ≠ 0 := by
          intro hz
          have := (hzero hz).2.2 key v hp
          rw [this] at hvd
          exact Option.noConfusion hvd
        cases hm : move_to_front s key with
        | mk s1 r1 =>
          have hf := move_to_front_frame s key
          rw [hm] at hf
          have hgoal : CountInv s1 :=
            countInv_of_eq_am hf.2 hf.1.2.2.1 hle hus hJ
          cases r1 with
          | ok u => exact hgoal
          | error e => exact hgoal
      | none =>
        simp only
        cases hc : cleanup src s with
        | mk s1 r1 =>
          have hinv1 : CountInv s1 := by
            have := cleanup_inv src s ⟨hle, hus, hzero⟩
            rw [hc] at this
            exact this
          cases r1 with
          | error e => exact hinv1
          | ok u =>
            have hfr := cleanup_frame src s
            rw [hc] at hfr
            have hlt : s1.active_items < s1.max_active_items := hfr.2.2.2.1 rfl
            simp only
            cases hgf : src.get_files key with
            | error e => exact hinv1
            | ok files =>
              simp only
              cases hld : src.load files with
              | error e => exact hinv1
              | ok t =>
                simp only
                cases ha : attach (writeHolder s1 key
                    { v with data := some t, prev := none, next := s1.head }) key with
                | mk s3 r3 =>
                  have haf := attach_frame (writeHolder s1 key
                    { v with data := some t, prev := none, next := s1.head }) key
                  rw [ha] at haf
                  have hmaxw : (writeHolder s1 key
                      { v with data := some t, prev := none, next := s1.head
                      }).max_active_items = s1.max_active_items := rfl
                  have hactw : (writeHolder s1 key
                      { v with data := some t, prev := none, next := s1.head
                      }).active_items = s1.active_items := rfl
                  cases r3 with
                  | error e =>
                    have h3 : s3 = writeHolder s1 key
                        { v with data := some t, prev := none, next := s1.head } :=
                      haf.2.2 (by simp [Except.isOk, Except.toBool])
                    rw [h3]
                    exact ⟨by rw [hactw, hmaxw]; omega, by rw [hmaxw]; exact hinv1.2.1,
                      fun hz => absurd (hmaxw ▸ hz) (by omega)⟩
                  | ok u3 =>
                    have hact3 : s3.active_items = usizeAdd1 s1.active_items := by
                      rw [haf.2.1 rfl, hactw]
                    have hmax3 : s3.max_active_items = s1.max_active_items := by
                      rw [haf.1.2.2.1, hmaxw]
                    exact ⟨by rw [hact3, hmax3]; exact usizeAdd1_le_of_lt hlt,
                      by rw [hmax3]; exact hinv1.2.1,
                      fun hz => absurd (hmax3 ▸ hz) (by omega)⟩

/-- The body of `get`'s scan preserves the C3 invariant. -/
theorem getHit_inv (src : DatedSource T) (s : TimeSeriesData T) (i : Nat)
    (hinv : CountInv s) : CountInv (getHit src s i).1 := by
  unfold getHit
  cases hg : get_t src s i with
  | mk s1 r1 =>
    have := get_t_inv src s i hinv
    rw [hg] at this
    cases r1 with
    | ok w => exact this
    | error e => exact this

/-- `get`'s descending scan preserves the C3 invariant. -/
theorem getLoop_inv (src : DatedSource T) (s : TimeSeriesData T)
    (hinv : CountInv s) : ∀ i, CountInv (getLoop src s i).1 := by
  intro i
  induction i with
  | zero =>
    unfold getLoop
    cases hp : s.data[0]? with
    | none => exact hinv
    | some o =>
      cases o with
      | none => exact hinv
      | some v => exact getHit_inv src s 0 hinv
  | succ i ih =>
    unfold getLoop
    cases hp : s.data[i + 1]? with
    | none => exact hinv
    | some o =>
      cases o with
      | none => exact ih
      | some v => exact getHit_inv src s (i + 1) hinv

/-- `get` preserves the C3 invariant, whatever its outcome. -/
theorem get_inv (src : DatedSource T) (s : TimeSeriesData T) (date : Nat)
    (hinv : CountInv s) : CountInv (get src s date).1 := by
  unfold get
  cases hv : validate_index s.index_calculator date with
  | error e => exact hinv
  | ok idx1 => exact getLoop_inv src s hinv idx1

/-- `get_range`'s ascending scan preserves the C3 invariant. -/
theorem rangeLoop_inv (src : DatedSource T) :
    ∀ (n i stop : Nat) (s : TimeSeriesData T) (acc : List (Nat × T)),
      stop + 1 - i ≤ n → CountInv s →
      CountInv (rangeLoop src i stop s acc).1 := by
  intro n
  induction n with
  | zero =>
    intro i stop s acc hle hinv
    unfold rangeLoop
    rw [if_pos (by omega)]
    exact hinv
  | succ n ih =>
    intro i stop s acc hle hinv
    unfold rangeLoop
    by_cases hlt : stop < i
    · rw [if_pos hlt]
      exact hinv
    · rw [if_neg hlt]
      cases hp : s.data[i]? with
      | none => exact hinv
      | some o =>
        cases o with
        | none => exact ih (i + 1) stop s acc (by omega) hinv
        | some v =>
          simp only
          cases hg : get_t src s i with
          | mk s1 r1 =>
            have hinv1 : CountInv s1 := by
              have := get_t_inv src s i hinv
              rw [hg] at this
              exact this
            cases r1 with
            | ok t => exact ih (i + 1) stop s1 (acc ++ [(i, t)]) (by omega) hinv1
            | error e => exact hinv1

/-- `get_range` preserves the C3 invariant, whatever its outcome. -/
theorem get_range_inv (src : DatedSource T) (s : TimeSeriesData T)
    (fromD toD : Nat) (hinv : CountInv s) :
    CountInv (get_range src s fromD toD).1 := by
  unfold get_range
  by_cases hmi : s.max_index = -1
  · rw [if_pos hmi]
    exact hinv
  · rw [if_neg hmi]
    simp only
    cases hv : validate_index s.index_calculator toD with
    | error e => exact hinv
    | ok idx2v =>
      exact rangeLoop_inv src _ _ _ s [] (le_refl _) hinv

/-- Every public operation preserves the C3 invariant. -/
theorem applyOp_inv (src : DatedSource T) (s : TimeSeriesData T) (op : CacheOp T)
    (hinv : CountInv s) : CountInv (s.applyOp src op).1 := by
  cases op with
  | addOp k v d => exact add_inv src s k v d hinv
  | getOp d => exact get_inv src s d hinv
  | rangeOp a b => exact get_range_inv src s a b hinv

end TimeSeriesData

/-- The C3 invariant holds in every reachable state. -/
theorem countInv_reach {T : Type} (src : DatedSource T)
    (s0 s : TimeSeriesData T) (h0 : TimeSeriesData.CountInv s0)
    (hr : Reach src s0 s) : TimeSeriesData.CountInv s := by
  induction hr with
  | refl => exact h0
  | step s' op hr' hdead ih => exact TimeSeriesData.applyOp_inv src s' op ih

namespace TimeSeriesData

/-- A freshly constructed cache satisfies the C3 invariant. -/
theorem new_countInv {T : Type} (ic : Nat → Int) (max_active capacity : Nat)
    (h : max_active < USIZE_MOD) :
    CountInv (new ic max_active capacity : TimeSeriesData T) := by
  refine ⟨Nat.zero_le _, h, fun hz => ⟨rfl, rfl, fun k hh hs => ?_⟩⟩
  have hs2 : ((List.replicate capacity (none : Option (DataHolder T)))[k]?
      = some (some hh)) := hs
  rw [List.getElem?_replicate] at hs2
  by_cases hk : k < capacity
  · rw [if_pos hk] at hs2
    injection hs2 with hs3
    exact Option.noConfusion hs3
  · rw [if_neg hk] at hs2
    exact Option.noConfusion hs2

end TimeSeriesData

namespace TimeSeriesData

/-- The per-file loop of `init` preserves the C3 invariant: it only
stores payload-free placeholders and never touches the counter, the
limit, or the LRU list. -/
theorem initLoop_countInv {T : Type} (ic : Nat → Int) :
    ∀ (ds : List Nat) (s s' : TimeSeriesData T),
      initLoop ic ds s = .ok s' → CountInv s → CountInv s' := by
  intro ds
  induction ds with
  | nil =>
    intro s s' h hinv
    injection h with h
    rw [← h]
    exact hinv
  | cons d rest ih =>
    intro s s' h hinv
    unfold initLoop at h
    cases hv : validate_index ic d with
    | error e =>
      rw [hv] at h
      exact Except.noConfusion h
    | ok key =>
      rw [hv] at h
      simp only at h
      by_cases hk : key < s.data.length
      · rw [if_pos hk] at h
        obtain ⟨hle, hus, hzero⟩ := hinv
        have hpay : s.max_active_items = 0 → ∀ (k2 : Nat) (hh : DataHolder T),
            (s.data.set key (some (DataHolder.empty key)))[k2]? = some (some hh) →
            hh.data = none := by
          intro hz k2 hh hs2
          by_cases hkk : key = k2
          · rw [← hkk, List.getElem?_set_self (by omega)] at hs2
            injection hs2 with hs3
            injection hs3 with hs4
            rw [← hs4]
            rfl
          · rw [List.getElem?_set_ne hkk] at hs2
            exact (hzero hz).2.2 k2 hh hs2
        split at h
        · exact ih _ s' h
            ⟨hle, hus, fun hz => ⟨(hzero hz).1, (hzero hz).2.1, hpay hz⟩⟩
        · exact ih _ s' h
            ⟨hle, hus, fun hz => ⟨(hzero hz).1, (hzero hz).2.1, hpay hz⟩⟩
      · rw [if_neg hk] at h
        exact Except.noConfusion h

/-- `init` builds a cache satisfying the C3 invariant. -/
theorem init_countInv {T : Type} (ic : Nat → Int) (max_active capacity : Nat)
    (dates : List Nat) (s0 : TimeSeriesData T)
    (hmax : max_active < USIZE_MOD)
    (hinit : init ic max_active capacity dates = .ok s0) : CountInv s0 :=
  initLoop_countInv ic dates _ s0 hinit (new_countInv ic max_active capacity hmax)

end TimeSeriesData

/-- C3: for every sequence of `add`, `get` and `range` operations
starting from an initialized cache (with a `usize` limit), the number
of resident entries reported by `active_count()` never exceeds
`max_active_items`. -/
theorem c3_residency_bound {T : Type} (src : DatedSource T) (ic : Nat → Int)
    (max_active capacity : Nat) (dates : List Nat) (s0 s : TimeSeriesData T)
    (hmax : max_active < USIZE_MOD)
    (hinit : TimeSeriesData.init ic max_active capacity dates = .ok s0)
    (hreach : Reach src s0 s) :
    s.get_active_items ≤ s.max_active_items :=
  (countInv_reach src s0 s
    (TimeSeriesData.init_countInv ic max_active capacity dates s0 hmax hinit)
    hreach).1

def c3ic : Nat → Int := fun d => (d : Int)

def c3src : DatedSource Nat :=
  { get_files := fun _ => .ok [], load := fun _ => .ok 0,
    save := fun _ _ => .ok () }

def c3s0 : TimeSeriesData Nat :=
  { max_active_items := 2, active_items := 0,
    data := [some (DataHolder.empty 0), none, none], modified := [],
    head := none, tail := none, index_calculator := c3ic,
    max_index := 0, log_saved := [] }

/-- C3 witness: a capacity-3 cache with limit 2, one scanned date, and
one `add`: the resident count stays within the limit. -/
theorem c3_residency_bound_witness :
    (TimeSeriesData.applyOp c3src c3s0 (CacheOp.addOp 0 5 false)).1.get_active_items ≤
    (TimeSeriesData.applyOp c3src c3s0 (CacheOp.addOp 0 5 false)).1.max_active_items :=
  c3_residency_bound c3src c3ic 2 3 [0] c3s0 _ (by decide) (by rfl)
    (Reach.step c3s0 (CacheOp.addOp 0 5 false) Reach.refl (by rfl))

/-!  Claim C2 — totals propagation by `build_totals(0)`. -/

namespace TimeSeriesData

variable {T : Type}

/-- Writing a payload through the held handle stores exactly it. -/
theorem payloadAt_setPayload_self (s : TimeSeriesData T) (k : Nat) (v t0 : T)
    (hp : s.payloadAt k = some t0) : (s.setPayload k v).payloadAt k = some v := by
  unfold payloadAt at hp
  unfold setPayload
  cases hs : s.data[k]? with
  | none => rw [hs] at hp; exact Option.noConfusion hp
  | some o =>
    cases o with
    | none => rw [hs] at hp; exact Option.noConfusion hp
    | some h =>
      simp only
      unfold payloadAt
      rw [getElem?_writeHolder_self s k _ (lt_length_of_slot s k _ hs)]

/-- Writing a payload leaves every other key's payload alone. -/
theorem payloadAt_setPayload_ne (s : TimeSeriesData T) (k : Nat) (v : T)
    (j : Nat) (hne : k ≠ j) : (s.setPayload k v).payloadAt j = s.payloadAt j := by
  unfold setPayload
  cases hs : s.data[k]? with
  | none => rfl
  | some o =>
    cases o with
    | none => rfl
    | some h =>
      simp only
      unfold payloadAt
      rw [getElem?_writeHolder_ne s k _ j hne]

end TimeSeriesData

/-- The totals loop never touches the payload of a key that is not in
the yielded vector. -/
theorem buildTotalsLoop_frame (accounts : Accounts) (subcategories : Subcategories) :
    ∀ (res : List (Nat × FinanceRecord)) (ch0 : Option FinanceChanges)
      (s : TimeSeriesData FinanceRecord) (j : Nat),
      j ∉ res.map Prod.fst →
      (buildTotalsLoop accounts subcategories res ch0 s).1.payloadAt j
        = s.payloadAt j := by
  intro res
  induction res with
  | nil => intro ch0 s j hj; rfl
  | cons p rest ih =>
    intro ch0 s j hj
    obtain ⟨k, v⟩ := p
    have hjk : k ≠ j := by
      intro he
      exact hj (by rw [← he]; exact List.mem_cons_self _ _)
    have hjrest : j ∉ rest.map Prod.fst := by
      intro hm
      exact hj (List.mem_cons_of_mem _ hm)
    unfold buildTotalsLoop
    simp only
    set v1 := match ch0 with
      | some c => { v with totals := c.build_totals }
      | none => v with hv1
    set s1 := if (s.payloadAt k).isSome then s.setPayload k v1 else s with hs1
    have hkeep : s1.payloadAt j = s.payloadAt j := by
      rw [hs1]
      by_cases hps : (s.payloadAt k).isSome
      · rw [if_pos hps]
        exact TimeSeriesData.payloadAt_setPayload_ne s k v1 j hjk
      · rw [if_neg hps]
    cases hb : v1.build_changes accounts subcategories with
    | ok ch => rw [ih (some ch) s1 j hjrest, hkeep]
    | error e => exact hkeep

namespace TimeSeriesData

variable {T : Type}

/-- The ascending scan yields the accumulator followed by pairs with
strictly increasing keys, all at least the current index. -/
theorem rangeLoop_keys (src : DatedSource T) :
    ∀ (n i stop : Nat) (s : TimeSeriesData T) (acc : List (Nat × T))
      (s' : TimeSeriesData T) (res : List (Nat × T)),
      stop + 1 - i ≤ n →
      rangeLoop src i stop s acc = (s', .ok res) →
      ∃ tl, res = acc ++ tl ∧ (∀ p ∈ tl, i ≤ p.1) ∧
        List.Pairwise (fun a b : Nat × T => a.1 < b.1) tl := by
  intro n
  induction n with
  | zero =>
    intro i stop s acc s' res hle hok
    unfold rangeLoop at hok
    rw [if_pos (by omega)] at hok
    injection hok with h1 h2
    injection h2 with h2
    exact ⟨[], by rw [← h2, List.append_nil], fun p hp => absurd hp (List.not_mem_nil p),
      List.Pairwise.nil⟩
  | succ n ih =>
    intro i stop s acc s' res hle hok
    unfold rangeLoop at hok
    by_cases hlt : stop < i
    · rw [if_pos hlt] at hok
      injection hok with h1 h2
      injection h2 with h2
      exact ⟨[], by rw [← h2, List.append_nil], fun p hp => absurd hp (List.not_mem_nil p),
        List.Pairwise.nil⟩
    · rw [if_neg hlt] at hok
      cases hp : s.data[i]? with
      | none =>
        rw [hp] at hok
        exact Except.noConfusion (congrArg Prod.snd hok)
      | some o =>
        cases o with
        | none =>
          rw [hp] at hok
          obtain ⟨tl, htl, hge, hpw⟩ := ih (i + 1) stop s acc s' res (by omega) hok
          exact ⟨tl, htl, fun p hp2 => by have := hge p hp2; omega, hpw⟩
        | some v =>
          rw [hp] at hok
          simp only at hok
          cases hg : get_t src s i with
          | mk s1 r1 =>
            rw [hg] at hok
            cases r1 with
            | error e => exact Except.noConfusion (congrArg Prod.snd hok)
            | ok t =>
              obtain ⟨tl, htl, hge, hpw⟩ :=
                ih (i + 1) stop s1 (acc ++ [(i, t)]) s' res (by omega) hok
              refine ⟨(i, t) :: tl, ?_, fun p hp2 => ?_, ?_⟩
              · rw [htl, List.append_assoc]
                rfl
              · cases hp2 with
                | head => exact le_refl i
                | tail _ hmem => have := hge _ hmem; omega
              · exact List.Pairwise.cons
                  (fun p hmem => by have := hge p hmem; omega) hpw

/-- A successful `get_range` yields strictly increasing keys. -/
theorem get_range_keys (src : DatedSource T) (s : TimeSeriesData T)
    (fromD toD : Nat) (s' : TimeSeriesData T) (res : List (Nat × T))
    (hok : get_range src s fromD toD = (s', .ok res)) :
    List.Pairwise (fun a b : Nat × T => a.1 < b.1) res := by
  unfold get_range at hok
  by_cases hmi : s.max_index = -1
  · rw [if_pos hmi] at hok
    injection hok with h1 h2
    injection h2 with h2
    rw [← h2]
    exact List.Pairwise.nil
  · rw [if_neg hmi] at hok
    simp only at hok
    cases hv : validate_index s.index_calculator toD with
    | error e =>
      rw [hv] at hok
      exact Except.noConfusion (congrArg Prod.snd hok)
    | ok idx2v =>
      rw [hv] at hok
      simp only at hok
      obtain ⟨tl, htl, hge, hpw⟩ := rangeLoop_keys src _ _ _ s [] s' res (le_refl _) hok
      rw [htl, List.nil_append]
      exact hpw

/-- Strictly increasing keys are distinct. -/
theorem keys_nodup_of_pairwise (res : List (Nat × T))
    (h : List.Pairwise (fun a b : Nat × T => a.1 < b.1) res) :
    (res.map Prod.fst).Nodup := by
  show List.Pairwise (fun a b => a ≠ b) (res.map Prod.fst)
  rw [List.pairwise_map]
  exact h.imp (fun hab => Nat.ne_of_lt hab)

end TimeSeriesData

/-- One peel of the totals loop: names for the assigned record and the
conditional write, the shape `buildTotalsLoop` takes on a cons cell. -/
theorem buildTotalsLoop_cons (accounts : Accounts) (subcategories : Subcategories)
    (k : Nat) (v : FinanceRecord) (rest : List (Nat × FinanceRecord))
    (ch0 : Option FinanceChanges) (s : TimeSeriesData FinanceRecord) :
    buildTotalsLoop accounts subcategories ((k, v) :: rest) ch0 s =
      (let v1 := match ch0 with
        | some c => { v with totals := c.build_totals }
        | none => v
      let s1 := if (s.payloadAt k).isSome then s.setPayload k v1 else s
      match v1.build_changes accounts subcategories with
      | .ok ch => buildTotalsLoop accounts subcategories rest (some ch) s1
      | .error e => (s1, .error e)) := by
  rfl

/-- The totals recurrence carried by a successful run of the totals
loop, read off the final cache state: under distinct keys and
residency of every yielded key, adjacent yielded positions hold
records whose totals are linked by `build_changes` followed by
`build_totals`, and the head record's totals are untouched when no
changes were carried in. -/
theorem buildTotalsLoop_pairs (accounts : Accounts) (subcategories : Subcategories) :
    ∀ (res : List (Nat × FinanceRecord)) (ch0 : Option FinanceChanges)
      (s s' : TimeSeriesData FinanceRecord) (u : Unit),
      buildTotalsLoop accounts subcategories res ch0 s = (s', .ok u) →
      (res.map Prod.fst).Nodup →
      (∀ j, j ∈ res.map Prod.fst → (s.payloadAt j).isSome = true) →
      ∀ i (hi : i + 1 < res.length),
      ∃ w w' ch,
        s'.payloadAt (res.get ⟨i, by omega⟩).1 = some w ∧
        s'.payloadAt (res.get ⟨i + 1, hi⟩).1 = some w' ∧
        w.operations = (res.get ⟨i, by omega⟩).2.operations ∧
        w'.operations = (res.get ⟨i + 1, hi⟩).2.operations ∧
        applyLoop accounts subcategories w.operations
          (FinanceChanges.new w.totals) = .ok ch ∧
        w'.totals = ch.build_totals ∧
        (i = 0 → ch0 = none → w.totals = (res.get ⟨i, by omega⟩).2.totals) := by
  intro res
  induction res with
  | nil =>
    intro ch0 s s' u hok hnd hres i hi
    exact absurd hi (by simp)
  | cons p rest ih =>
    intro ch0 s s' u hok hnd hres i hi
    obtain ⟨k, v⟩ := p
    rw [buildTotalsLoop_cons] at hok
    simp only at hok
    have hknd : k ∉ rest.map Prod.fst := by
      have := hnd
      rw [List.map_cons, List.nodup_cons] at this
      exact this.1
    have hndr : (rest.map Prod.fst).Nodup := by
      have := hnd
      rw [List.map_cons, List.nodup_cons] at this
      exact this.2
    have hpk : (s.payloadAt k).isSome = true :=
      hres k (by rw [List.map_cons]; exact List.mem_cons_self _ _)
    obtain ⟨t0, ht0⟩ := Option.isSome_iff_exists.mp hpk
    rw [if_pos hpk] at hok
    have hops : (match ch0 with
        | some c => { v with totals := c.build_totals }
        | none => v).operations = v.operations := by
      cases ch0 <;> rfl
    have htot : ch0 = none → (match ch0 with
        | some c => { v with totals := c.build_totals }
        | none => v).totals = v.totals := by
      intro h
      rw [h]
    generalize hv1 : (match ch0 with
        | some c => { v with totals := c.build_totals }
        | none => v) = v1 at hok hops htot
    cases hb : v1.build_changes accounts subcategories with
    | error e =>
      rw [hb] at hok
      simp only at hok
      exact absurd (congrArg Prod.snd hok) (by simp)
    | ok ch1 =>
      rw [hb] at hok
      simp only at hok
      have hres1 : ∀ j, j ∈ rest.map Prod.fst →
          ((s.setPayload k v1).payloadAt j).isSome = true := by
        intro j hj
        have hjk : k ≠ j := fun he => hknd (he ▸ hj)
        rw [TimeSeriesData.payloadAt_setPayload_ne s k v1 j hjk]
        exact hres j (by rw [List.map_cons]; exact List.mem_cons_of_mem _ hj)
      cases i with
      | zero =>
        cases rest with
        | nil => exact absurd hi (by simp)
        | cons p2 rest2 =>
          obtain ⟨k2, v2⟩ := p2
          have hok0 := hok
          rw [buildTotalsLoop_cons] at hok
          simp only at hok
          have hpk2 : ((s.setPayload k v1).payloadAt k2).isSome = true :=
            hres1 k2 (by rw [List.map_cons]; exact List.mem_cons_self _ _)
          obtain ⟨t2, ht2⟩ := Option.isSome_iff_exists.mp hpk2
          rw [if_pos hpk2] at hok
          cases hb2 : FinanceRecord.build_changes
              { v2 with totals := ch1.build_totals } accounts subcategories with
          | error e =>
            rw [hb2] at hok
            simp only at hok
            exact absurd (congrArg Prod.snd hok) (by simp)
          | ok ch2 =>
            rw [hb2] at hok
            simp only at hok
            have hk2nd : k2 ∉ rest2.map Prod.fst := by
              have := hndr
              rw [List.map_cons, List.nodup_cons] at this
              exact this.1
            have hk2k : k2 ≠ k := by
              intro he
              exact hknd (by rw [List.map_cons, he]; exact List.mem_cons_self _ _)
            refine ⟨v1, { v2 with totals := ch1.build_totals }, ch1,
              ?_, ?_, hops, rfl, hb, rfl, ?_⟩
            · show s'.payloadAt k = some v1
              have hfr := buildTotalsLoop_frame accounts subcategories
                rest2 (some ch2)
                ((s.setPayload k v1).setPayload k2 { v2 with totals := ch1.build_totals })
                k (fun hm => hknd (by rw [List.map_cons]; exact List.mem_cons_of_mem _ hm))
              rw [hok] at hfr
              have hfr2 : s'.payloadAt k = ((s.setPayload k v1).setPayload k2
                  { v2 with totals := ch1.build_totals }).payloadAt k := hfr
              rw [hfr2, TimeSeriesData.payloadAt_setPayload_ne _ k2 _ k hk2k]
              exact TimeSeriesData.payloadAt_setPayload_self s k v1 t0 ht0
            · show s'.payloadAt k2 = some { v2 with totals := ch1.build_totals }
              have hfr := buildTotalsLoop_frame accounts subcategories
                rest2 (some ch2)
                ((s.setPayload k v1).setPayload k2 { v2 with totals := ch1.build_totals })
                k2 hk2nd
              rw [hok] at hfr
              have hfr2 : s'.payloadAt k2 = ((s.setPayload k v1).setPayload k2
                  { v2 with totals := ch1.build_totals }).payloadAt k2 := hfr
              rw [hfr2]
              exact TimeSeriesData.payloadAt_setPayload_self _ k2 _ t2 ht2
            · intro h0 hch0
              exact htot hch0
      | succ j =>
        have hrest := ih (some ch1) _ s' u hok hndr hres1 j (by
          rw [List.length_cons] at hi
          omega)
        obtain ⟨w, w', ch, h1, h2, h3, h4, h5, h6, h7⟩ := hrest
        exact ⟨w, w', ch, h1, h2, h3, h4, h5, h6, fun h0 => absurd h0 (by omega)⟩

/-- C2 (amended): after `build_totals(0)` succeeds, provided every
bucket yielded by the range scan is still resident when the scan
completes, for every pair of adjacent yielded buckets the later
bucket's totals equal the per-account end balances obtained by applying
all of the earlier bucket's operations to a `FinanceChanges` opened
from the earlier bucket's totals, and the first bucket's totals are
unchanged.  (The residency proviso is necessary: when the scan's own
lazy loads evict a yielded bucket, the loop writes the propagated
totals through an orphaned handle and they are lost — see the
counterexample below.) -/
theorem c2_total_propagation (src : DatedSource FinanceRecord)
    (db db' : HomeAccountingDB) (s1 : TimeSeriesData FinanceRecord)
    (res : List (Nat × FinanceRecord)) (u : Unit)
    (hrange : db.data.get_range src (db_index_calculator 0) 99999999 = (s1, .ok res))
    (hok : db.build_totals src 0 = (db', .ok u))
    (hres : ∀ j, j ∈ res.map Prod.fst → (s1.payloadAt j).isSome = true) :
    ∀ i (hi : i + 1 < res.length),
    ∃ w w' ch,
      db'.data.payloadAt (res.get ⟨i, by omega⟩).1 = some w ∧
      db'.data.payloadAt (res.get ⟨i + 1, hi⟩).1 = some w' ∧
      w.operations = (res.get ⟨i, by omega⟩).2.operations ∧
      w'.operations = (res.get ⟨i + 1, hi⟩).2.operations ∧
      applyLoop db.accounts db.subcategories w.operations
        (FinanceChanges.new w.totals) = .ok ch ∧
      w'.totals = ch.build_totals ∧
      (i = 0 → w.totals = (res.get ⟨0, by omega⟩).2.totals) := by
  have hnd := TimeSeriesData.keys_nodup_of_pairwise res
    (TimeSeriesData.get_range_keys src db.data _ _ s1 res hrange)
  unfold HomeAccountingDB.build_totals at hok
  rw [hrange] at hok
  simp only at hok
  cases hlp : buildTotalsLoop db.accounts db.subcategories res none s1 with
  | mk a b =>
    rw [hlp] at hok
    injection hok with hdb hsnd
    have ha : a = db'.data := congrArg HomeAccountingDB.data hdb
    have hb : b = Except.ok u := hsnd
    have hloop : buildTotalsLoop db.accounts db.subcategories res none s1
        = (db'.data, .ok u) := by
      rw [hlp, ha, hb]
    intro i hi
    obtain ⟨w, w', ch, a1, a2, a3, a4, a5, a6, a7⟩ :=
      buildTotalsLoop_pairs db.accounts db.subcategories res none s1 db'.data u
        hloop hnd hres i hi
    exact ⟨w, w', ch, a1, a2, a3, a4, a5, a6,
      fun h0 => by subst h0; exact a7 rfl rfl⟩

namespace TimeSeriesData

variable {T : Type}

/-- A fuelled companion of `rangeLoop` that recurses structurally, so
concrete runs evaluate; with fuel `stop + 1 - i` it coincides with
`rangeLoop`. -/
def rangeLoopF (src : DatedSource T) :
    Nat → Nat → Nat → TimeSeriesData T → List (Nat × T) →
    TimeSeriesData T × Except TsError (List (Nat × T))
  | 0, _, _, s, acc => (s, .ok acc)
  | n + 1, i, stop, s, acc =>
    if stop < i then (s, .ok acc)
    else
      match s.data[i]? with
      | none => (s, .error .fatal)
      | some none => rangeLoopF src n (i + 1) stop s acc
      | some (some _) =>
        match get_t src s i with
        | (s1, .ok t) => rangeLoopF src n (i + 1) stop s1 (acc ++ [(i, t)])
        | (s1, .error e) => (s1, .error e)

theorem rangeLoop_eq_F (src : DatedSource T) :
    ∀ (n i stop : Nat) (s : TimeSeriesData T) (acc : List (Nat × T)),
      stop + 1 - i ≤ n →
      rangeLoop src i stop s acc = rangeLoopF src n i stop s acc := by
  intro n
  induction n with
  | zero =>
    intro i stop s acc hle
    unfold rangeLoop rangeLoopF
    rw [if_pos (by omega)]
  | succ n ih =>
    intro i stop s acc hle
    unfold rangeLoop rangeLoopF
    by_cases hlt : stop < i
    · rw [if_pos hlt, if_pos hlt]
    · rw [if_neg hlt, if_neg hlt]
      cases hp : s.data[i]? with
      | none => rfl
      | some o =>
        cases o with
        | none => exact ih (i + 1) stop s acc (by omega)
        | some v =>
          simp only
          cases hg : get_t src s i with
          | mk s1 r1 =>
            cases r1 with
            | ok t => exact ih (i + 1) stop s1 (acc ++ [(i, t)]) (by omega)
            | error e => rfl

/-- `get_range` through the fuelled scan (for concrete evaluation). -/
theorem get_range_F (src : DatedSource T) (s : TimeSeriesData T)
    (fromD toD : Nat) :
    get_range src s fromD toD =
      (if s.max_index = -1 then (s, .ok [])
       else
        match validate_index s.index_calculator toD with
        | .error e => (s, .error e)
        | .ok idx2v =>
          let idx1i := s.index_calculator fromD
          let idx1 : Nat := if idx1i < 0 then 0 else idx1i.toNat
          let idx2 := if s.max_index < (idx2v : Int) then s.max_index.toNat else idx2v
          rangeLoopF src (idx2 + 1 - idx1) idx1 idx2 s []) := by
  unfold get_range
  by_cases hmi : s.max_index = -1
  · rw [if_pos hmi, if_pos hmi]
  · rw [if_neg hmi, if_neg hmi]
    simp only
    cases hv : validate_index s.index_calculator toD with
    | error e => rfl
    | ok idx2v =>
      simp only
      exact rangeLoop_eq_F src _ _ _ s [] (le_refl _)

end TimeSeriesData

def c2rec0 : FinanceRecord := { operations := [], totals := [(1, 5)] }

def c2rec1 : FinanceRecord := { operations := [], totals := [] }

def c2load : List FileWithDate → Except TsError FinanceRecord
  | [f] => if f.date = 0 then .ok c2rec0 else .ok c2rec1
  | _ => .ok c2rec1

def c2src : DatedSource FinanceRecord :=
  { get_files := fun k => .ok [{ name := "", date := k }],
    load := c2load,
    save := fun _ _ => .ok () }

def c2cache : TimeSeriesData FinanceRecord :=
  { max_active_items := 10, active_items := 0,
    data := [some (DataHolder.empty 0), some (DataHolder.empty 1)],
    modified := [], head := none, tail := none,
    index_calculator := db_index_calculator_ic, max_index := 1, log_saved := [] }

def c2db : HomeAccountingDB :=
  { data := c2cache, accounts := ⟨[]⟩, categories := [], subcategories := ⟨[]⟩ }

def c2s1 : TimeSeriesData FinanceRecord :=
  (TimeSeriesData.rangeLoopF c2src 2 0 1 c2cache []).1

def c2db2 : HomeAccountingDB :=
  { data := (buildTotalsLoop c2db.accounts c2db.subcategories
      [(0, c2rec0), (1, c2rec1)] none c2s1).1,
    accounts := ⟨[]⟩, categories := [], subcategories := ⟨[]⟩ }

/-- C2 witness: two placeholder buckets, the first with totals
`[(1, 5)]` and no operations; after `build_totals(0)` the second
bucket's totals are the first's end balances and the first's totals
are unchanged. -/
theorem c2_total_propagation_witness :
    ∃ w w' ch,
      c2db2.data.payloadAt 0 = some w ∧
      c2db2.data.payloadAt 1 = some w' ∧
      w.operations = c2rec0.operations ∧
      w'.operations = c2rec1.operations ∧
      applyLoop c2db.accounts c2db.subcategories w.operations
        (FinanceChanges.new w.totals) = .ok ch ∧
      w'.totals = ch.build_totals ∧
      (0 = 0 → w.totals = c2rec0.totals) :=
  c2_total_propagation c2src c2db c2db2 c2s1
    [(0, c2rec0), (1, c2rec1)] ()
    (by rw [TimeSeriesData.get_range_F]; rfl)
    (by unfold HomeAccountingDB.build_totals
        rw [TimeSeriesData.get_range_F]
        rfl)
    (by decide) 0 (by decide)

def c2xrec0 : FinanceRecord := { operations := [], totals := [(1, 5)] }

def c2xrec1 : FinanceRecord := { operations := [], totals := [(2, 3)] }

def c2xrec2 : FinanceRecord := { operations := [], totals := [] }

def c2xload : List FileWithDate → Except TsError FinanceRecord
  | [f] =>
    if f.date = 0 then .ok c2xrec0
    else if f.date = 1 then .ok c2xrec1
    else .ok c2xrec2
  | _ => .ok c2xrec2

def c2xsrc : DatedSource FinanceRecord :=
  { get_files := fun k => .ok [{ name := "", date := k }],
    load := c2xload,
    save := fun _ _ => .ok () }

def c2xcache : TimeSeriesData FinanceRecord :=
  { max_active_items := 1, active_items := 0,
    data := [some (DataHolder.empty 0), some (DataHolder.empty 1),
             some (DataHolder.empty 2)],
    modified := [], head := none, tail := none,
    index_calculator := db_index_calculator_ic, max_index := 2, log_saved := [] }

def c2xdb : HomeAccountingDB :=
  { data := c2xcache, accounts := ⟨[]⟩, categories := [], subcategories := ⟨[]⟩ }

def c2xs1 : TimeSeriesData FinanceRecord :=
  (TimeSeriesData.rangeLoopF c2xsrc 3 0 2 c2xcache []).1

def c2xdb2 : HomeAccountingDB :=
  { data := (buildTotalsLoop c2xdb.accounts c2xdb.subcategories
      [(0, c2xrec0), (1, c2xrec1), (2, c2xrec2)] none c2xs1).1,
    accounts := ⟨[]⟩, categories := [], subcategories := ⟨[]⟩ }

/-- C2 counterexample to the unconditional claim: with
`max_active_items = 1` and three known buckets, the range scan yields
all three, but its own lazy loads evict buckets 0 and 1 before the
propagation loop runs; `build_totals(0)` still succeeds, yet the
propagated totals for bucket 1 are written through an orphaned handle
and lost.  Afterwards bucket 1 is a placeholder and re-loads with its
source totals `[(2, 3)]`, while the end balances of bucket 0 (totals
`[(1, 5)]`, no operations) are `[(1, 5)]` — the claimed pairwise
propagation fails at the pair `(b_0, b_1)`. -/
theorem c2_total_propagation_counterexample :
    c2xdb.data.get_range c2xsrc (db_index_calculator 0) 99999999
      = (c2xs1, .ok [(0, c2xrec0), (1, c2xrec1), (2, c2xrec2)]) ∧
    HomeAccountingDB.build_totals c2xsrc c2xdb 0 = (c2xdb2, .ok ()) ∧
    c2xdb2.data.payloadAt 1 = none ∧
    (TimeSeriesData.get_t c2xsrc c2xdb2.data 0).2 = .ok c2xrec0 ∧
    (TimeSeriesData.get_t c2xsrc c2xdb2.data 1).2 = .ok c2xrec1 ∧
    applyLoop c2xdb.accounts c2xdb.subcategories c2xrec0.operations
      (FinanceChanges.new c2xrec0.totals) = .ok (FinanceChanges.new [(1, 5)]) ∧
    (FinanceChanges.new [(1, 5)]).build_totals = [(1, 5)] ∧
    c2xrec1.totals ≠ [(1, 5)] :=
  ⟨by rw [TimeSeriesData.get_range_F]; rfl,
   by unfold HomeAccountingDB.build_totals
      rw [TimeSeriesData.get_range_F]
      rfl,
   by rfl, by rfl, by rfl, by rfl, by decide, by decide⟩

/-!  Claim C4 — uniqueness of residents on the doubly-linked LRU list. -/

/-- `Option.or` is associative. -/
theorem option_or_assoc {α : Type} (a b c : Option α) :
    Option.or (Option.or a b) c = Option.or a (Option.or b c) := by
  cases a <;> rfl

/-- `Option.or` with a `some` right absorbs nothing more. -/
theorem option_or_some_left {α : Type} (a : α) (c : Option α) :
    Option.or (some a) c = some a := rfl

/-- `Option.or x none = x`. -/
theorem option_or_none {α : Type} (a : Option α) : Option.or a none = a := by
  cases a <;> rfl

/-- `head?` of an append. -/
theorem head?_append_or {α : Type} (A B : List α) :
    (A ++ B).head? = Option.or A.head? B.head? := by
  cases A <;> rfl

/-- `getLast?` of a cons, through `Option.or`. -/
theorem getLast?_cons_or {α : Type} :
    ∀ (l : List α) (a : α), (a :: l).getLast? = Option.or l.getLast? (some a) := by
  intro l
  induction l with
  | nil => intro a; rfl
  | cons b l ih =>
    intro a
    rw [List.getLast?_cons_cons, ih b]
    cases hl : l.getLast? <;> rfl

/-- `getLast?` of an append. -/
theorem getLast?_append_or {α : Type} :
    ∀ (A B : List α), (A ++ B).getLast? = Option.or B.getLast? A.getLast? := by
  intro A
  induction A with
  | nil => intro B; rw [List.nil_append]; exact (option_or_none _).symm
  | cons a A ih =>
    intro B
    rw [List.cons_append, getLast?_cons_or, ih B, getLast?_cons_or,
      option_or_assoc]

namespace TimeSeriesData

variable {T : Type}

/-- A well-linked segment of the LRU list: every element is an
occupied slot; the first element's `prev` is `pv`; inner links agree
with adjacency; the last element's `next` is `nx`. -/
def segOK (s : TimeSeriesData T) : Option Nat → List Nat → Option Nat → Prop
  | _, [], _ => True
  | pv, k :: rest, nx =>
    ∃ h : DataHolder T, s.data[k]? = some (some h) ∧
      h.prev = pv ∧ h.next = Option.or rest.head? nx ∧ segOK s (some k) rest nx

/-- The LRU representation invariant: a duplicate-free list `L`
matches `head`, `tail` and all slot links; its members are exactly the
resident keys. -/
def LruInv (s : TimeSeriesData T) : Prop :=
  ∃ L : List Nat, s.head = L.head? ∧ s.tail = L.getLast? ∧
    segOK s none L none ∧ L.Nodup ∧
    (∀ k, k ∈ L → s.residentB k = true) ∧
    (∀ k, s.residentB k = true → k ∈ L)

/-- A segment only depends on the slots of its members. -/
theorem segOK_frame {s s' : TimeSeriesData T} :
    ∀ (L : List Nat) (pv nx : Option Nat),
      (∀ j, j ∈ L → s'.data[j]? = s.data[j]?) →
      segOK s pv L nx → segOK s' pv L nx := by
  intro L
  induction L with
  | nil => intro pv nx hfr hseg; trivial
  | cons k rest ih =>
    intro pv nx hfr hseg
    obtain ⟨h, h1, h3, h4, h5⟩ := hseg
    exact ⟨h, by rw [hfr k (List.mem_cons_self _ _)]; exact h1, h3, h4,
      ih (some k) nx (fun j hj => hfr j (List.mem_cons_of_mem _ hj)) h5⟩

/-- Every member of a segment is an occupied slot. -/
theorem segOK_mem_slot {s : TimeSeriesData T} :
    ∀ (L : List Nat) (pv nx : Option Nat), segOK s pv L nx →
      ∀ k, k ∈ L → ∃ h : DataHolder T, s.data[k]? = some (some h) := by
  intro L
  induction L with
  | nil => intro pv nx hseg k hk; exact absurd hk (List.not_mem_nil k)
  | cons a rest ih =>
    intro pv nx hseg k hk
    obtain ⟨h, h1, h3, h4, h5⟩ := hseg
    cases hk with
    | head => exact ⟨h, h1⟩
    | tail _ hmem => exact ih (some a) nx h5 k hmem

/-- Splitting a segment at an append. -/
theorem segOK_append {s : TimeSeriesData T} :
    ∀ (A B : List Nat) (pv nx : Option Nat),
      segOK s pv (A ++ B) nx ↔
      segOK s pv A (Option.or B.head? nx) ∧
      segOK s (Option.or A.getLast? pv) B nx := by
  intro A
  induction A with
  | nil =>
    intro B pv nx
    constructor
    · intro h
      exact ⟨trivial, h⟩
    · intro h
      exact h.2
  | cons a A ih =>
    intro B pv nx
    constructor
    · intro hseg
      obtain ⟨h, h1, h3, h4, h5⟩ := hseg
      have hrest := (ih B (some a) nx).mp h5
      refine ⟨⟨h, h1, h3, ?_, hrest.1⟩, ?_⟩
      · rw [h4]
        simp only [List.append_eq]
        rw [head?_append_or, option_or_assoc]
      · rw [getLast?_cons_or, option_or_assoc, option_or_some_left]
        exact hrest.2
    · intro hseg
      obtain ⟨⟨h, h1, h3, h4, h5⟩, hB⟩ := hseg
      refine ⟨h, h1, h3, ?_, (ih B (some a) nx).mpr ⟨h5, ?_⟩⟩
      · rw [h4]
        simp only [List.append_eq]
        rw [head?_append_or, option_or_assoc]
      · rw [getLast?_cons_or, option_or_assoc, option_or_some_left] at hB
        exact hB

end TimeSeriesData

/-- `getLast?` yields a member. -/
theorem getLast?_mem_of_eq {α : Type} :
    ∀ (l : List α) (a : α), l.getLast? = some a → a ∈ l := by
  intro l
  induction l with
  | nil => intro a h; exact Option.noConfusion h
  | cons b l ih =>
    intro a h
    rw [getLast?_cons_or] at h
    cases hl : l.getLast? with
    | none =>
      rw [hl] at h
      injection h with h
      exact h ▸ List.mem_cons_self _ _
    | some c =>
      rw [hl] at h
      injection h with h
      exact h ▸ List.mem_cons_of_mem _ (ih c hl)

/-- A duplicate-free list of naturals below `n` has at most `n`
elements. -/
theorem nodup_length_le (L : List Nat) (n : Nat) (hnd : L.Nodup)
    (hlt : ∀ k, k ∈ L → k < n) : L.length ≤ n := by
  have h1 : L.toFinset ⊆ Finset.range n := by
    intro k hk
    rw [Finset.mem_range]
    exact hlt k (List.mem_toFinset.mp hk)
  have h2 := Finset.card_le_card h1
  rw [Finset.card_range, List.toFinset_card_of_nodup hnd] at h2
  exact h2

/-- `head?` of an append with a nonempty left part. -/
theorem head?_append_left {α : Type} (A B : List α) (hA : A ≠ []) :
    (A ++ B).head? = A.head? := by
  cases A with
  | nil => exact absurd rfl hA
  | cons a A => rfl

/-- A nonempty list has a last element. -/
theorem getLast?_cons_isSome {α : Type} (x : α) (xs : List α) :
    ∃ y, (x :: xs).getLast? = some y := by
  rw [getLast?_cons_or]
  cases hl : xs.getLast? with
  | none => exact ⟨x, rfl⟩
  | some c => exact ⟨c, rfl⟩

/-- `getLast?` of an append with a nonempty right part. -/
theorem getLast?_append_right {α : Type} (A : List α) (x : α) (xs : List α) :
    (A ++ x :: xs).getLast? = (x :: xs).getLast? := by
  rw [getLast?_append_or]
  obtain ⟨y, hy⟩ := getLast?_cons_isSome x xs
  rw [hy]
  rfl

namespace TimeSeriesData

variable {T : Type}

/-- Walking `next` pointers along a well-linked final segment
enumerates exactly the segment. -/
theorem chainNext_of_segOK {s : TimeSeriesData T} :
    ∀ (L : List Nat) (pv : Option Nat) (fuel : Nat),
      segOK s pv L none → L.length ≤ fuel →
      chainNext s fuel L.head? = some L := by
  intro L
  induction L with
  | nil => intro pv fuel hseg hle; cases fuel <;> rfl
  | cons k rest ih =>
    intro pv fuel hseg hle
    obtain ⟨h, h1, h3, h4, h5⟩ := hseg
    cases fuel with
    | zero => exact absurd hle (by simp)
    | succ f =>
      show chainNext s (f + 1) (some k) = some (k :: rest)
      unfold chainNext
      rw [h1]
      simp only
      rw [h4, option_or_none, ih (some k) f h5 (by
        rw [List.length_cons] at hle
        omega)]
      rfl

/-- An empty cursor ends the `prev` walk at once. -/
theorem chainPrev_none (s : TimeSeriesData T) :
    ∀ fuel, chainPrev s fuel none = some [] := by
  intro f
  cases f <;> rfl

/-- Walking `prev` pointers from the end of a well-linked segment
enumerates its reverse, then continues from `pv`. -/
theorem chainPrev_of_segOK {s : TimeSeriesData T} :
    ∀ (L : List Nat) (pv : Option Nat) (fuel : Nat) (nx : Option Nat),
      segOK s pv L nx → L.length ≤ fuel →
      chainPrev s fuel (Option.or L.getLast? pv) =
        (chainPrev s (fuel - L.length) pv).map (L.reverse ++ ·) := by
  intro L
  induction L with
  | nil =>
    intro pv fuel nx hseg hle
    show chainPrev s fuel pv = (chainPrev s (fuel - 0) pv).map (List.reverse [] ++ ·)
    cases hc : chainPrev s fuel pv <;> simp [hc]
  | cons k rest ih =>
    intro pv fuel nx hseg hle
    obtain ⟨h, h1, h3, h4, h5⟩ := hseg
    rw [getLast?_cons_or, option_or_assoc, option_or_some_left]
    rw [ih (some k) fuel nx h5 (by rw [List.length_cons] at hle; omega)]
    obtain ⟨m, hm⟩ : ∃ m, fuel - rest.length = m + 1 :=
      ⟨fuel - rest.length - 1, by rw [List.length_cons] at hle; omega⟩
    rw [hm]
    have hstep : chainPrev s (m + 1) (some k)
        = (chainPrev s m h.prev).map (fun x => k :: x) := by
      show (match s.data[k]? with
        | some (some h0) => (chainPrev s m h0.prev).map (fun x => k :: x)
        | _ => none) = _
      rw [h1]
    rw [hstep, h3]
    have hm2 : fuel - (k :: rest).length = m := by
      rw [List.length_cons] at hle ⊢
      omega
    rw [hm2]
    cases hc : chainPrev s m pv <;>
      simp [hc, List.reverse_cons, List.append_assoc]

/-- The invariant delivers both traversals, duplicate-freeness and the
resident-membership equivalence. -/
theorem traverse_of_LruInv (s : TimeSeriesData T) (hinv : LruInv s) :
    ∃ L : List Nat, s.traverseFromHead = some L ∧
      s.traverseFromTail = some L.reverse ∧ L.Nodup ∧
      (∀ k, s.residentB k = true ↔ k ∈ L) := by
  obtain ⟨L, hhead, htail, hseg, hnd, hresAll, hresIn⟩ := hinv
  have hbound : ∀ k, k ∈ L → k < s.data.length := by
    intro k hk
    obtain ⟨h, h1⟩ := segOK_mem_slot L none none hseg k hk
    exact lt_length_of_slot s k _ h1
  have hlen : L.length ≤ s.data.length + 1 :=
    le_trans (nodup_length_le L s.data.length hnd hbound) (Nat.le_succ _)
  refine ⟨L, ?_, ?_, hnd, fun k => ⟨hresIn k, hresAll k⟩⟩
  · unfold traverseFromHead
    rw [hhead]
    exact chainNext_of_segOK L none (s.data.length + 1) hseg hlen
  · unfold traverseFromTail
    rw [htail, ← option_or_none L.getLast?,
      chainPrev_of_segOK L none (s.data.length + 1) none hseg hlen,
      chainPrev_none]
    simp

/-- Rewriting the `next` pointer of the last element of a segment
retargets the segment's end. -/
theorem segOK_retarget {s : TimeSeriesData T} :
    ∀ (A : List Nat) (pv nx nx' : Option Nat) (a : Nat) (ph : DataHolder T),
      segOK s pv A nx → A.Nodup → A.getLast? = some a →
      s.data[a]? = some (some ph) →
      segOK (s.writeHolder a { ph with next := nx' }) pv A nx' := by
  intro A
  induction A with
  | nil =>
    intro pv nx nx' a ph hseg hnd hlast hslot
    exact Option.noConfusion hlast
  | cons k rest ih =>
    intro pv nx nx' a ph hseg hnd hlast hslot
    obtain ⟨h, h1, h3, h4, h5⟩ := hseg
    cases rest with
    | nil =>
      have hak : a = k := by
        injection hlast with he
        exact he.symm
      subst hak
      have hph : ph = h := by
        rw [h1] at hslot
        injection hslot with he
        injection he with he2
        exact he2.symm
      subst hph
      refine ⟨{ ph with next := nx' },
        getElem?_writeHolder_self s a _ (lt_length_of_slot s a _ h1),
        h3, ?_, trivial⟩
      rfl
    | cons r rs =>
      rw [List.getLast?_cons_cons] at hlast
      have hmem : a ∈ r :: rs := getLast?_mem_of_eq _ a hlast
      have hka : k ≠ a := by
        intro he
        rw [List.nodup_cons] at hnd
        exact hnd.1 (he ▸ hmem)
      refine ⟨h, by rw [getElem?_writeHolder_ne s a _ k (fun he => hka he.symm)]; exact h1,
        h3, h4, ?_⟩
      exact ih (some k) nx nx' a ph h5 (List.nodup_cons.mp hnd).2 hlast hslot

/-- Rewriting the `prev` pointer of the first element of a segment
re-anchors the segment's start. -/
theorem segOK_reprev {s : TimeSeriesData T} (b : Nat) (B : List Nat)
    (pv pv' nx : Option Nat) (hb : DataHolder T)
    (hseg : segOK s pv (b :: B) nx) (hnd : (b :: B).Nodup)
    (hslot : s.data[b]? = some (some hb)) :
    segOK (s.writeHolder b { hb with prev := pv' }) pv' (b :: B) nx := by
  obtain ⟨h, h1, h3, h4, h5⟩ := hseg
  have hph : hb = h := by
    rw [h1] at hslot
    injection hslot with he
    injection he with he2
    exact he2.symm
  subst hph
  refine ⟨{ hb with prev := pv' },
    getElem?_writeHolder_self s b _ (lt_length_of_slot s b _ h1),
    rfl, h4, ?_⟩
  refine segOK_frame B (some b) nx (fun j hj => ?_) h5
  refine getElem?_writeHolder_ne s b _ j (fun he => ?_)
  rw [List.nodup_cons] at hnd
  exact hnd.1 (he ▸ hj)

end TimeSeriesData

namespace TimeSeriesData

variable {T : Type}

/-- The payload seen through a freshly written slot. -/
theorem payloadAt_writeHolder_self (s : TimeSeriesData T) (k : Nat)
    (h : DataHolder T) (hk : k < s.data.length) :
    (s.writeHolder k h).payloadAt k = h.data := by
  unfold payloadAt
  rw [getElem?_writeHolder_self s k h hk]

/-- The payload of another key after a slot write. -/
theorem payloadAt_writeHolder_ne (s : TimeSeriesData T) (k : Nat)
    (h : DataHolder T) (j : Nat) (hne : k ≠ j) :
    (s.writeHolder k h).payloadAt j = s.payloadAt j := by
  unfold payloadAt
  rw [getElem?_writeHolder_ne s k h j hne]

/-- A segment survives any state change that keeps the slot vector. -/
theorem segOK_of_data_eq {s s' : TimeSeriesData T} :
    ∀ (L : List Nat) (pv nx : Option Nat),
      segOK s pv L nx → s'.data = s.data → segOK s' pv L nx := by
  intro L pv nx hseg hd
  exact segOK_frame L pv nx (fun j _ => by rw [hd]) hseg

/-- Detaching a linked key under the representation invariant: the
unlink succeeds, the two pointer repairs excise exactly that key, and
the key's own slot is untouched. -/
theorem detach_segOK (s : TimeSeriesData T) (k : Nat) (A B : List Nat)
    (hhead : s.head = (A ++ k :: B).head?)
    (htail : s.tail = (A ++ k :: B).getLast?)
    (hseg : segOK s none (A ++ k :: B) none)
    (hnd : (A ++ k :: B).Nodup) :
    (detach s k).2 = .ok () ∧
    (detach s k).1.head = (A ++ B).head? ∧
    (detach s k).1.tail = (A ++ B).getLast? ∧
    segOK (detach s k).1 none (A ++ B) none ∧
    (detach s k).1.data[k]? = s.data[k]? := by
  have hndA : A.Nodup := ((List.nodup_append).mp hnd).1
  have hndKB : (k :: B).Nodup := ((List.nodup_append).mp hnd).2.1
  have hdisj : A.Disjoint (k :: B) := ((List.nodup_append).mp hnd).2.2
  have hkA : k ∉ A := fun hm => hdisj hm (List.mem_cons_self _ _)
  have hkB : k ∉ B := (List.nodup_cons.mp hndKB).1
  have hndB : B.Nodup := (List.nodup_cons.mp hndKB).2
  have hsp := (segOK_append A (k :: B) none none).mp hseg
  have hsegA : segOK s none A (some k) := hsp.1
  have hsegKB : segOK s A.getLast? (k :: B) none := by
    have h2 := hsp.2
    rw [option_or_none] at h2
    exact h2
  obtain ⟨h, hk1, hk3, hk4, hk5⟩ := hsegKB
  unfold detach
  rw [hk1]
  simp only
  cases B with
  | nil =>
    have hk4n : h.next = none := by rw [hk4]; rfl
    unfold detachNextStep
    rw [hk4n, hk3]
    simp only
    unfold detachPrevStep
    cases hAg : A.getLast? with
    | none =>
      have hAe : A = [] := List.getLast?_eq_none_iff.mp hAg
      subst hAe
      exact ⟨rfl, rfl, rfl, trivial, hk1⟩
    | some a =>
      simp only
      have hamem : a ∈ A := getLast?_mem_of_eq A a hAg
      have hak : a ≠ k := fun he => hkA (he ▸ hamem)
      have hAne : A ≠ [] := by
        intro he
        rw [he] at hAg
        exact Option.noConfusion hAg
      rw [if_neg hak]
      obtain ⟨pha, hpa1⟩ := segOK_mem_slot A none (some k) hsegA a hamem
      rw [show ({ s with tail := some a } : TimeSeriesData T).data[a]?
        = s.data[a]? from rfl, hpa1]
      simp only
      refine ⟨trivial, ?_, ?_, ?_, ?_⟩
      · rw [List.append_nil]
        show s.head = A.head?
        rw [hhead, head?_append_left A (k :: []) hAne]
      · rw [List.append_nil]
        show (some a : Option Nat) = A.getLast?
        exact hAg.symm
      · rw [List.append_nil]
        have hs4 : segOK ({ s with tail := some a } : TimeSeriesData T)
            none A (some k) :=
          segOK_of_data_eq A none (some k) hsegA rfl
        have hrt := segOK_retarget A none (some k) none a pha hs4 hndA hAg
          (by rw [show ({ s with tail := some a } : TimeSeriesData T).data[a]?
            = s.data[a]? from rfl]; exact hpa1)
        exact hrt
      · rw [getElem?_writeHolder_ne _ a _ k hak]
        exact hk1
  | cons b B' =>
    have hk4s : h.next = some b := by rw [hk4]; rfl
    have hbk : ¬ b = k := by
      intro he
      exact hkB (by rw [← he]; exact List.mem_cons_self _ _)
    obtain ⟨hb, hb1, hb3, hb4, hb5⟩ := hk5
    unfold detachNextStep
    rw [hk4s, hk3]
    simp only
    rw [if_neg hbk, hb1]
    simp only
    unfold detachPrevStep
    cases hAg : A.getLast? with
    | none =>
      have hAe : A = [] := List.getLast?_eq_none_iff.mp hAg
      subst hAe
      refine ⟨rfl, rfl, ?_, ?_, ?_⟩
      · show s.tail = (b :: B').getLast?
        rw [htail, List.nil_append, List.getLast?_cons_cons]
      · have hrp := segOK_reprev b B' (some k) (([] : List Nat).getLast?) none hb
          ⟨hb, hb1, hb3, hb4, hb5⟩ hndB hb1
        exact segOK_of_data_eq (b :: B') (([] : List Nat).getLast?) none hrp rfl
      · show (s.writeHolder b { hb with prev := ([] : List Nat).getLast? }).data[k]?
          = some (some h)
        rw [getElem?_writeHolder_ne s b _ k hbk]
        exact hk1
    | some a =>
      simp only
      have hamem : a ∈ A := getLast?_mem_of_eq A a hAg
      have hak : a ≠ k := fun he => hkA (he ▸ hamem)
      have hAne : A ≠ [] := by
        intro he
        rw [he] at hAg
        exact Option.noConfusion hAg
      have hba : b ≠ a := by
        intro he
        have hmem2 : a ∈ b :: B' := by
          rw [← he]
          exact List.mem_cons_self _ _
        exact hdisj hamem (List.mem_cons_of_mem k hmem2)
      rw [if_neg hak]
      rw [show (s.writeHolder b { hb with prev := some a }).data[a]?
          = s.data[a]? from getElem?_writeHolder_ne s b _ a hba]
      obtain ⟨pha, hpa1⟩ := segOK_mem_slot A none (some k) hsegA a hamem
      rw [hpa1]
      simp only
      refine ⟨trivial, ?_, ?_, ?_, ?_⟩
      · show s.head = (A ++ b :: B').head?
        rw [hhead, head?_append_left A _ hAne, head?_append_left A _ hAne]
      · show s.tail = (A ++ b :: B').getLast?
        rw [htail, getLast?_append_right A k (b :: B'), List.getLast?_cons_cons,
          getLast?_append_right A b B']
      · refine (segOK_append A (b :: B') none none).mpr ⟨?_, ?_⟩
        · have hbj : ∀ j, j ∈ A → b ≠ j := by
            intro j hj he
            rw [← he] at hj
            exact hdisj hj (List.mem_cons_of_mem k (List.mem_cons_self _ _))
          have hs4A : segOK (s.writeHolder b { hb with prev := some a })
              none A (some k) :=
            segOK_frame A none (some k)
              (fun j hj => getElem?_writeHolder_ne s b _ j (hbj j hj)) hsegA
          exact segOK_retarget A none (some k) (some b) a pha hs4A hndA hAg
            (by rw [getElem?_writeHolder_ne s b _ a hba]; exact hpa1)
        · rw [hAg]
          have haj : ∀ j, j ∈ b :: B' → a ≠ j := by
            intro j hj he
            subst he
            exact hdisj hamem (List.mem_cons_of_mem k hj)
          have hrp := segOK_reprev b B' (some k) (some a) none hb
            ⟨hb, hb1, hb3, hb4, hb5⟩ hndB hb1
          exact segOK_frame (b :: B') (some a) none (fun j hj =>
            getElem?_writeHolder_ne _ a _ j (haj j hj)) hrp
      · rw [getElem?_writeHolder_ne _ a _ k hak,
          getElem?_writeHolder_ne s b _ k hbk]
        exact hk1

end TimeSeriesData

namespace TimeSeriesData

variable {T : Type}

/-- The payload view only depends on the slot vector. -/
theorem payloadAt_of_data_eq {s s' : TimeSeriesData T} (j : Nat)
    (hd : s'.data = s.data) : s'.payloadAt j = s.payloadAt j := by
  unfold payloadAt
  rw [hd]

/-- Overwriting only the `data` field of a linked slot keeps every
segment intact. -/
theorem segOK_setData {s : TimeSeriesData T} (t : Nat) (hth : DataHolder T)
    (d : Option T) (hslot : s.data[t]? = some (some hth)) :
    ∀ (L : List Nat) (pv nx : Option Nat),
      segOK s pv L nx → segOK (s.writeHolder t { hth with data := d }) pv L nx := by
  intro L
  induction L with
  | nil => intro pv nx hseg; trivial
  | cons k rest ih =>
    intro pv nx hseg
    obtain ⟨h, h1, h3, h4, h5⟩ := hseg
    by_cases hkt : k = t
    · subst hkt
      have hh : h = hth := by
        rw [h1] at hslot
        injection hslot with he
        injection he with he2
      subst hh
      exact ⟨{ h with data := d },
        getElem?_writeHolder_self s k _ (lt_length_of_slot s k _ h1),
        h3, h4, ih (some k) nx h5⟩
    · exact ⟨h,
        by rw [getElem?_writeHolder_ne s t _ k (fun he => hkt he.symm)]; exact h1,
        h3, h4, ih (some k) nx h5⟩

/-- The dirty-save step never touches the slot vector, the head or the
tail. -/
theorem removeDirtyStep_core (src : DatedSource T) (s : TimeSeriesData T)
    (h : Nat) :
    (removeDirtyStep src s h).1.data = s.data ∧
    (removeDirtyStep src s h).1.head = s.head ∧
    (removeDirtyStep src s h).1.tail = s.tail := by
  unfold removeDirtyStep
  by_cases hm : h ∈ s.modified
  · rw [if_pos hm]
    cases hs : s.data[h]? with
    | none => exact ⟨rfl, rfl, rfl⟩
    | some o =>
      cases o with
      | none => exact ⟨rfl, rfl, rfl⟩
      | some holder =>
        simp only
        cases hp : holder.data with
        | none => exact ⟨rfl, rfl, rfl⟩
        | some payload =>
          simp only
          cases hsv : src.save payload h with
          | ok u => exact ⟨rfl, rfl, rfl⟩
          | error e => exact ⟨rfl, rfl, rfl⟩
  · rw [if_neg hm]
    exact ⟨rfl, rfl, rfl⟩

/-- Eviction preserves the LRU representation invariant: it unlinks
exactly the tail entry (when there is one), clearing its payload. -/
theorem remove_by_lru_LruInv (src : DatedSource T) (s : TimeSeriesData T)
    (hinv : LruInv s) : LruInv (remove_by_lru src s).1 := by
  obtain ⟨L, hhead, htail, hseg, hnd, hresAll, hresIn⟩ := hinv
  unfold remove_by_lru
  cases ht : s.tail with
  | none => exact ⟨L, hhead, htail, hseg, hnd, hresAll, hresIn⟩
  | some t =>
    simp only
    have htl : L.getLast? = some t := by rw [← htail, ht]
    have hLne : L ≠ [] := by
      intro he
      rw [he] at htl
      exact Option.noConfusion htl
    obtain ⟨A, hA⟩ : ∃ A, L = A ++ [t] := by
      refine ⟨L.dropLast, ?_⟩
      have hdg := List.dropLast_append_getLast hLne
      have hg : L.getLast hLne = t := by
        rw [List.getLast?_eq_getLast L hLne] at htl
        injection htl
      rw [← hg]
      exact hdg.symm
    subst hA
    have htA : t ∉ A := by
      rw [List.nodup_append] at hnd
      intro hmem
      exact hnd.2.2 hmem (List.mem_cons_self _ _)
    have hndA : A.Nodup := ((List.nodup_append).mp hnd).1
    obtain ⟨hth, hth1⟩ :=
      segOK_mem_slot (A ++ [t]) none none hseg t
        (List.mem_append_right A (List.mem_cons_self _ _))
    cases hd : removeDirtyStep src s t with
    | mk s1 r1 =>
      have hcore := removeDirtyStep_core src s t
      rw [hd] at hcore
      obtain ⟨hdata1, hhead1, htail1⟩ := hcore
      have hinv1 : LruInv s1 := by
        refine ⟨A ++ [t], by rw [hhead1, hhead], by rw [htail1, htail],
          segOK_of_data_eq _ none none hseg hdata1, hnd, ?_, ?_⟩
        · intro k hk
          unfold residentB
          rw [payloadAt_of_data_eq k hdata1]
          exact hresAll k hk
        · intro k hk
          unfold residentB at hk
          rw [payloadAt_of_data_eq k hdata1] at hk
          exact hresIn k hk
      cases r1 with
      | error e => exact hinv1
      | ok u =>
        unfold removeClearStep
        simp only
        have hslot1 : s1.data[t]? = some (some hth) := by
          rw [hdata1]
          exact hth1
        rw [hslot1]
        simp only
        have hs2seg : segOK (s1.writeHolder t { hth with data := none })
            none (A ++ t :: []) none :=
          segOK_setData t hth none hslot1 _ none none
            (segOK_of_data_eq _ none none hseg hdata1)
        have hseg3 : segOK ({ s1.writeHolder t { hth with data := none } with
            active_items := usizeSub1 (s1.writeHolder t
              { hth with data := none }).active_items } : TimeSeriesData T)
            none (A ++ t :: []) none :=
          segOK_of_data_eq _ none none hs2seg rfl
        have hds := detach_segOK ({ s1.writeHolder t { hth with data := none } with
            active_items := usizeSub1 (s1.writeHolder t
              { hth with data := none }).active_items } : TimeSeriesData T)
          t A [] (by
            show s1.head = (A ++ t :: []).head?
            rw [hhead1, hhead]) (by
            show s1.tail = (A ++ t :: []).getLast?
            rw [htail1, htail]) hseg3 hnd
        obtain ⟨hds1, hds2, hds3, hds4, hds5⟩ := hds
        cases hdet : detach ({ s1.writeHolder t { hth with data := none } with
            active_items := usizeSub1 (s1.writeHolder t
              { hth with data := none }).active_items } : TimeSeriesData T) t with
        | mk s5 r5 =>
          rw [hdet] at hds1 hds2 hds3 hds4 hds5
          have hfr := detach_frame ({ s1.writeHolder t { hth with data := none } with
            active_items := usizeSub1 (s1.writeHolder t
              { hth with data := none }).active_items } : TimeSeriesData T) t
          rw [hdet] at hfr
          have hpay : ∀ j, s5.payloadAt j =
              ({ s1.writeHolder t { hth with data := none } with
                active_items := usizeSub1 (s1.writeHolder t
                  { hth with data := none }).active_items } : TimeSeriesData T).payloadAt j :=
            hfr.1.2.2.2.2.2.2.1
          have hpay2 : ∀ j, j ≠ t → s5.payloadAt j = s.payloadAt j := by
            intro j hj
            rw [hpay j]
            show (s1.writeHolder t { hth with data := none }).payloadAt j = _
            rw [payloadAt_writeHolder_ne s1 t _ j (fun he => hj he.symm),
              payloadAt_of_data_eq j hdata1]
          have hpayt : s5.payloadAt t = none := by
            rw [hpay t]
            show (s1.writeHolder t { hth with data := none }).payloadAt t = none
            rw [payloadAt_writeHolder_self s1 t _ (by
              rw [hdata1]
              exact lt_length_of_slot s t _ hth1)]
          refine ⟨A, by rw [hds2, List.append_nil], by rw [hds3, List.append_nil],
            by rw [← List.append_nil A]; exact hds4, hndA, ?_, ?_⟩
          · intro k hk
            have hkt : k ≠ t := fun he => htA (he ▸ hk)
            unfold residentB
            rw [hpay2 k hkt]
            exact hresAll k (List.mem_append_left _ hk)
          · intro k hk
            unfold residentB at hk
            by_cases hkt : k = t
            · subst hkt
              rw [hpayt] at hk
              exact Bool.noConfusion hk
            · rw [hpay2 k hkt] at hk
              have := hresIn k hk
              rw [List.mem_append] at this
              cases this with
              | inl hm => exact hm
              | inr hm =>
                cases hm with
                | head => exact absurd rfl hkt
                | tail _ hm2 => exact absurd hm2 (List.not_mem_nil k)

/-- The eviction loop preserves the LRU representation invariant. -/
theorem cleanupFuel_LruInv (src : DatedSource T) :
    ∀ (n : Nat) (s : TimeSeriesData T), LruInv s →
      LruInv (cleanupFuel src n s).1 := by
  intro n
  induction n with
  | zero => intro s hinv; exact hinv
  | succ n ih =>
    intro s hinv
    unfold cleanupFuel
    by_cases hcond : s.max_active_items ≤ s.active_items
    · rw [if_pos hcond]
      cases hr : remove_by_lru src s with
      | mk s1 r1 =>
        have hinv1 : LruInv s1 := by
          have := remove_by_lru_LruInv src s hinv
          rw [hr] at this
          exact this
        cases r1 with
        | error e => exact hinv1
        | ok u => exact ih s1 hinv1
    · rw [if_neg hcond]
      exact hinv

/-- `cleanup` preserves the LRU representation invariant. -/
theorem cleanup_LruInv (src : DatedSource T) (s : TimeSeriesData T)
    (hinv : LruInv s) : LruInv (cleanup src s).1 :=
  cleanupFuel_LruInv src _ s hinv

end TimeSeriesData

/-- A nonempty list has a last element. -/
theorem getLast?_isSome_of_ne_nil {α : Type} (l : List α) (h : l ≠ []) :
    ∃ y, l.getLast? = some y := by
  cases l with
  | nil => exact absurd rfl h
  | cons x xs => exact getLast?_cons_isSome x xs

/-- `head?` yields a member. -/
theorem head?_mem_of_eq {α : Type} (l : List α) (a : α)
    (h : l.head? = some a) : a ∈ l := by
  cases l with
  | nil => exact Option.noConfusion h
  | cons x xs =>
    injection h with h
    exact h ▸ List.mem_cons_self _ _

namespace TimeSeriesData

variable {T : Type}

/-- The payloads visible after either pointer repair of `detach` are
unchanged. -/
theorem detach_payload (s : TimeSeriesData T) (idx : Nat) :
    ∀ j, (s.detach idx).1.payloadAt j = s.payloadAt j :=
  (detach_frame s idx).1.2.2.2.2.2.2.1

/-- Promoting a resident key under the representation invariant either
succeeds and preserves it (the key moves to the head), or panics (the
key was the only linked entry). -/
theorem move_to_front_LruInv (s : TimeSeriesData T) (k : Nat)
    (hinv : LruInv s) (hres : s.residentB k = true) :
    ((s.move_to_front k).2 = .ok () ∧ LruInv (s.move_to_front k).1) ∨
    (s.move_to_front k).2 = .error .fatal := by
  obtain ⟨L, hhead, htail, hseg, hnd, hresAll, hresIn⟩ := hinv
  have hkL : k ∈ L := hresIn k hres
  obtain ⟨A, B, hL⟩ := List.append_of_mem hkL
  subst hL
  have hndAB : (A ++ B).Nodup := by
    have hsub : (A ++ B).Sublist (A ++ k :: B) :=
      List.Sublist.append_left (List.sublist_cons_self k B) A
    exact List.Nodup.sublist hsub hnd
  have hkA : k ∉ A := fun hm =>
    ((List.nodup_append).mp hnd).2.2 hm (List.mem_cons_self _ _)
  have hkB : k ∉ B :=
    (List.nodup_cons.mp ((List.nodup_append).mp hnd).2.1).1
  have hkAB : k ∉ A ++ B := by
    rw [List.mem_append]
    intro hm
    cases hm with
    | inl hm => exact hkA hm
    | inr hm => exact hkB hm
  have hds := detach_segOK s k A B hhead htail hseg hnd
  obtain ⟨hds1, hds2, hds3, hds4, hds5⟩ := hds
  have hpayd := detach_payload s k
  unfold move_to_front
  cases hdet : s.detach k with
  | mk s1 r1 =>
    rw [hdet] at hds1 hds2 hds3 hds4 hds5 hpayd
    cases r1 with
    | error e => exact absurd hds1 (by simp)
    | ok u =>
      simp only
      obtain ⟨hv0, hvslot⟩ := segOK_mem_slot (A ++ k :: B) none none hseg k hkL
      have hslot1 : s1.data[k]? = some (some hv0) := by rw [hds5]; exact hvslot
      rw [hslot1]
      simp only
      cases hh1 : s1.head with
      | none => exact Or.inr rfl
      | some hh =>
        have hhmem : hh ∈ A ++ B := by
          refine head?_mem_of_eq _ hh ?_
          rw [← hds2, hh1]
        have hhk : ¬ hh = k := fun he => hkAB (he ▸ hhmem)
        simp only
        rw [if_neg hhk]
        obtain ⟨AB1, hAB1⟩ : ∃ AB1, A ++ B = hh :: AB1 := by
          cases hab : A ++ B with
          | nil =>
            rw [hab] at hhmem
            exact absurd hhmem (List.not_mem_nil hh)
          | cons x xs =>
            have : x = hh := by
              have h2 : (A ++ B).head? = some hh := by rw [← hds2, hh1]
              rw [hab] at h2
              injection h2 with h2
            exact ⟨xs, by rw [this]⟩
        obtain ⟨nh, hnh1⟩ := segOK_mem_slot (A ++ B) none none hds4 hh hhmem
        have hnh2 : ({ s1.writeHolder k
            { hv0 with next := some hh, prev := none } with head := some k }
            : TimeSeriesData T).data[hh]? = some (some nh) := by
          rw [show ({ s1.writeHolder k
            { hv0 with next := some hh, prev := none } with head := some k }
            : TimeSeriesData T).data[hh]?
            = (s1.writeHolder k { hv0 with next := some hh, prev := none }).data[hh]?
            from rfl,
            getElem?_writeHolder_ne s1 k _ hh (fun he => hhk he.symm)]
          exact hnh1
        rw [hnh2]
        simp only
        refine Or.inl ⟨?_, k :: (A ++ B), ?_, ?_, ?_, ?_, ?_, ?_⟩
        · trivial
        · trivial
        · show s1.tail = (k :: (A ++ B)).getLast?
          rw [getLast?_cons_or, hds3]
          obtain ⟨y, hy⟩ := getLast?_isSome_of_ne_nil (A ++ B)
            (by rw [hAB1]; exact List.cons_ne_nil hh AB1)
          rw [hy]
          rfl
        · -- segOK for k :: (A ++ B)
          refine ⟨{ hv0 with next := some hh, prev := none }, ?_, rfl, ?_, ?_⟩
          · rw [getElem?_writeHolder_ne _ hh _ k (fun he => hhk he)]
            show (s1.writeHolder k { hv0 with next := some hh, prev := none }).data[k]?
              = some (some { hv0 with next := some hh, prev := none })
            exact getElem?_writeHolder_self s1 k _ (lt_length_of_slot s1 k _ hslot1)
          · show (some hh : Option Nat) = Option.or (A ++ B).head? none
            rw [← hds2, hh1]
            rfl
          · rw [hAB1]
            have hseg2 : segOK (s1.writeHolder k
                { hv0 with next := some hh, prev := none }) none (hh :: AB1) none := by
              refine segOK_frame (hh :: AB1) none none (fun j hj => ?_) (hAB1 ▸ hds4)
              exact getElem?_writeHolder_ne s1 k _ j
                (fun he => hkAB (by rw [he, hAB1]; exact hj))
            have hseg3 : segOK ({ s1.writeHolder k
                { hv0 with next := some hh, prev := none } with head := some k }
                : TimeSeriesData T) none (hh :: AB1) none :=
              segOK_of_data_eq _ none none hseg2 rfl
            have hnd2 : (hh :: AB1).Nodup := hAB1 ▸ hndAB
            exact segOK_reprev hh AB1 none (some k) none nh hseg3 hnd2 hnh2
        · rw [List.nodup_cons]
          exact ⟨hkAB, hndAB⟩
        · intro j hj
          unfold residentB
          by_cases hjh : j = hh
          · subst hjh
            rw [payloadAt_writeHolder_self _ j _ (lt_length_of_slot _ j _ hnh2)]
            show nh.data.isSome = true
            have hp1 : s1.payloadAt j = nh.data := by
              unfold payloadAt
              rw [show s1.data[j]? = some (some nh) from hnh1]
            have hrj : s.residentB j = true :=
              hresAll j (by
                rw [List.mem_append] at hhmem ⊢
                cases hhmem with
                | inl hm => exact Or.inl hm
                | inr hm => exact Or.inr (List.mem_cons_of_mem k hm))
            unfold residentB at hrj
            rw [← hpayd j] at hrj
            have hrj2 : (s1.payloadAt j).isSome = true := hrj
            rw [hp1] at hrj2
            exact hrj2
          · rw [payloadAt_writeHolder_ne _ hh _ j (fun he => hjh he.symm)]
            by_cases hjk : j = k
            · subst hjk
              show ((s1.writeHolder j
                { hv0 with next := some hh, prev := none }).payloadAt j).isSome = true
              rw [payloadAt_writeHolder_self s1 j _ (lt_length_of_slot s1 j _ hslot1)]
              show hv0.data.isSome = true
              unfold residentB payloadAt at hres
              rw [hvslot] at hres
              exact hres
            · show ((s1.writeHolder k
                { hv0 with next := some hh, prev := none }).payloadAt j).isSome = true
              rw [payloadAt_writeHolder_ne s1 k _ j (fun he => hjk he.symm)]
              have hj2 : s1.payloadAt j = s.payloadAt j := hpayd j
              rw [hj2]
              refine hresAll j ?_
              cases hj with
              | head => exact absurd rfl hjk
              | tail _ hm =>
                have hm2 : j ∈ A ++ B := hm
                rw [List.mem_append] at hm2 ⊢
                cases hm2 with
                | inl h2 => exact Or.inl h2
                | inr h2 => exact Or.inr (List.mem_cons_of_mem k h2)
        · intro j hj
          unfold residentB at hj
          by_cases hjk : j = k
          · subst hjk
            exact List.mem_cons_self _ _
          · by_cases hjh : j = hh
            · subst hjh
              refine List.mem_cons_of_mem k ?_
              rw [hAB1]
              exact List.mem_cons_self _ _
            · rw [payloadAt_writeHolder_ne _ hh _ j (fun he => hjh he.symm)] at hj
              have hj3 : ((s1.writeHolder k
                  { hv0 with next := some hh, prev := none }).payloadAt j).isSome
                  = true := hj
              rw [payloadAt_writeHolder_ne s1 k _ j (fun he => hjk he.symm),
                hpayd j] at hj3
              have := hresIn j hj3
              refine List.mem_cons_of_mem k ?_
              rw [List.mem_append] at this ⊢
              cases this with
              | inl hm => exact Or.inl hm
              | inr hm =>
                cases hm with
                | head => exact absurd rfl hjk
                | tail _ hm2 => exact Or.inr hm2

end TimeSeriesData

namespace TimeSeriesData

variable {T : Type}

/-- The representation invariant only reads `head`, `tail` and the
slot vector. -/
theorem LruInv_of_core_eq {s s' : TimeSeriesData T} (hinv : LruInv s)
    (hd : s'.data = s.data) (hh : s'.head = s.head) (ht : s'.tail = s.tail) :
    LruInv s' := by
  obtain ⟨L, h1, h2, h3, h4, h5, h6⟩ := hinv
  refine ⟨L, by rw [hh, h1], by rw [ht, h2],
    segOK_of_data_eq _ none none h3 hd, h4, ?_, ?_⟩
  · intro k hk
    unfold residentB
    rw [payloadAt_of_data_eq k hd]
    exact h5 k hk
  · intro k hk
    unfold residentB at hk
    rw [payloadAt_of_data_eq k hd] at hk
    exact h6 k hk

/-- Linking a fresh resident key in front of a well-formed list
re-establishes the representation invariant. -/
theorem linkAtHead_LruInv (s1 sF : TimeSeriesData T) (key : Nat)
    (hk : DataHolder T) (L1 : List Nat)
    (hnd1 : L1.Nodup)
    (hresAll1 : ∀ j, j ∈ L1 → s1.residentB j = true)
    (hresIn1 : ∀ j, s1.residentB j = true → j ∈ L1)
    (hkey : key ∉ L1)
    (hkd : hk.data.isSome = true) (hkp : hk.prev = none)
    (hkn : hk.next = L1.head?)
    (hFhead : sF.head = some key)
    (hFtail : sF.tail = Option.or L1.getLast? (some key))
    (hFslotK : sF.data[key]? = some (some hk))
    (hFseg : segOK sF (some key) L1 none)
    (hFpay : ∀ j, j ≠ key → sF.payloadAt j = s1.payloadAt j) :
    LruInv sF := by
  refine ⟨key :: L1, by rw [hFhead]; rfl, by rw [hFtail, getLast?_cons_or],
    ⟨hk, hFslotK, hkp, by rw [hkn, option_or_none], hFseg⟩,
    List.nodup_cons.mpr ⟨hkey, hnd1⟩, ?_, ?_⟩
  · intro j hj
    cases hj with
    | head =>
      unfold residentB payloadAt
      rw [hFslotK]
      exact hkd
    | tail _ hm =>
      have hjk : j ≠ key := fun he => hkey (he ▸ hm)
      unfold residentB
      rw [hFpay j hjk]
      exact hresAll1 j hm
  · intro j hj
    by_cases hjk : j = key
    · subst hjk
      exact List.mem_cons_self _ _
    · unfold residentB at hj
      rw [hFpay j hjk] at hj
      exact List.mem_cons_of_mem key (hresIn1 j hj)

/-- Touching an occupied key through `get_t` either preserves the LRU
representation invariant, or dies (a Rust panic / hang). -/
theorem get_t_LruInv (src : DatedSource T) (s : TimeSeriesData T) (k : Nat)
    (hinv : LruInv s) :
    LruInv (get_t src s k).1 ∨ deadOf (get_t src s k).2 = true := by
  unfold get_t
  cases hp : s.data[k]? with
  | none => exact Or.inr rfl
  | some o =>
    cases o with
    | none => exact Or.inr rfl
    | some v =>
      simp only
      cases hvd : v.data with
      | some payload =>
        simp only
        have hres : s.residentB k = true := by
          unfold residentB payloadAt
          rw [hp]
          show v.data.isSome = true
          rw [hvd]
          rfl
        have hmtf := move_to_front_LruInv s k hinv hres
        cases hm : s.move_to_front k with
        | mk s1 r1 =>
          rw [hm] at hmtf
          cases r1 with
          | ok u =>
            cases hmtf with
            | inl hok => exact Or.inl hok.2
            | inr hbad => exact absurd hbad (by simp)
          | error e =>
            cases hmtf with
            | inl hok => exact absurd hok.1 (by simp)
            | inr hbad =>
              have : e = .fatal := by
                injection hbad
              subst this
              exact Or.inr rfl
      | none =>
        simp only
        cases hc : cleanup src s with
        | mk s1 r1 =>
          have hinv1 : LruInv s1 := by
            have := cleanup_LruInv src s hinv
            rw [hc] at this
            exact this
          cases r1 with
          | error e => exact Or.inl hinv1
          | ok u =>
            simp only
            cases hgf : src.get_files k with
            | error e => exact Or.inl hinv1
            | ok files =>
              simp only
              cases hld : src.load files with
              | error e => exact Or.inl hinv1
              | ok t =>
                simp only
                obtain ⟨L1, hhead1, htail1, hseg1, hnd1, hresAll1, hresIn1⟩ := hinv1
                have hkph : s1.payloadAt k = none := by
                  have hfr := cleanup_frame src s
                  rw [hc] at hfr
                  refine hfr.1 k ?_
                  unfold payloadAt
                  rw [hp]
                  exact hvd
                have hknl : k ∉ L1 := by
                  intro hm
                  have := hresAll1 k hm
                  unfold residentB at this
                  rw [hkph] at this
                  exact Bool.noConfusion this
                have hocc1 : ∃ v1 : DataHolder T, s1.data[k]? = some (some v1) := by
                  have hfr := cleanup_frame src s
                  rw [hc] at hfr
                  have hkn : s1.knownB k = s.knownB k := hfr.2.2.2.2 k
                  unfold knownB at hkn
                  rw [hp] at hkn
                  cases hx : s1.data[k]? with
                  | none => rw [hx] at hkn; exact Bool.noConfusion hkn
                  | some o2 =>
                    cases o2 with
                    | none => rw [hx] at hkn; exact Bool.noConfusion hkn
                    | some v1 => exact ⟨v1, rfl⟩
                obtain ⟨v1, hv1⟩ := hocc1
                have hbound : k < s1.data.length := lt_length_of_slot s1 k _ hv1
                unfold attach
                rw [show (s1.writeHolder k
                  { v with data := some t, prev := none, next := s1.head }).head
                  = s1.head from rfl]
                cases hh1 : s1.head with
                | none =>
                  simp only
                  have hL1e : L1 = [] := by
                    cases hx : L1 with
                    | nil => rfl
                    | cons y ys =>
                      rw [hx] at hhead1
                      rw [hh1] at hhead1
                      exact Option.noConfusion hhead1
                  subst hL1e
                  refine Or.inl (linkAtHead_LruInv s1 _ k
                    { v with data := some t, prev := none, next := none }
                    [] hnd1 hresAll1 hresIn1 hknl rfl rfl rfl rfl rfl ?_ trivial ?_)
                  · exact getElem?_writeHolder_self s1 k _ hbound
                  · intro j hj
                    exact payloadAt_writeHolder_ne s1 k _ j (fun he => hj he.symm)
                | some hh =>
                  simp only
                  have hhmem : hh ∈ L1 :=
                    head?_mem_of_eq L1 hh (by rw [← hhead1, hh1])
                  have hhk : hh ≠ k := fun he => hknl (he ▸ hhmem)
                  obtain ⟨AB1, hAB1⟩ : ∃ AB1, L1 = hh :: AB1 := by
                    cases hx : L1 with
                    | nil =>
                      rw [hx, List.head?_nil] at hhead1
                      rw [hh1] at hhead1
                      exact Option.noConfusion hhead1
                    | cons y ys =>
                      have h2 : L1.head? = some hh := by rw [← hhead1, hh1]
                      rw [hx] at h2
                      injection h2 with h2
                      exact ⟨ys, by rw [h2]⟩
                  obtain ⟨h0, hh01⟩ := segOK_mem_slot L1 none none hseg1 hh hhmem
                  have hh02 : (s1.writeHolder k
                      { v with data := some t, prev := none, next := some hh }).data[hh]?
                      = some (some h0) := by
                    rw [getElem?_writeHolder_ne s1 k _ hh (fun he => hhk he.symm)]
                    exact hh01
                  rw [hh02]
                  simp only
                  refine Or.inl (linkAtHead_LruInv s1 _ k
                    { v with data := some t, prev := none, next := some hh }
                    L1 hnd1 hresAll1 hresIn1 hknl rfl rfl
                    (by rw [← hhead1, hh1]) rfl ?_ ?_ ?_ ?_)
                  · show (s1.tail : Option Nat) = Option.or L1.getLast? (some k)
                    rw [htail1]
                    obtain ⟨y, hy⟩ := getLast?_isSome_of_ne_nil L1
                      (by rw [hAB1]; exact List.cons_ne_nil hh AB1)
                    rw [hy]
                    rfl
                  · show (((s1.writeHolder k
                      { v with data := some t, prev := none, next := some hh }).writeHolder
                        hh { h0 with prev := some k }).data[k]?)
                      = some (some { v with data := some t, prev := none, next := some hh })
                    rw [getElem?_writeHolder_ne _ hh _ k hhk]
                    exact getElem?_writeHolder_self s1 k _ hbound
                  · rw [hAB1]
                    have hseg2 : segOK (s1.writeHolder k
                        { v with data := some t, prev := none, next := some hh })
                        none (hh :: AB1) none := by
                      refine segOK_frame (hh :: AB1) none none (fun j hj => ?_)
                        (hAB1 ▸ hseg1)
                      exact getElem?_writeHolder_ne s1 k _ j
                        (fun he => hknl (by rw [he, hAB1]; exact hj))
                    have hnd2 : (hh :: AB1).Nodup := hAB1 ▸ hnd1
                    have hrp := segOK_reprev hh AB1 none (some k) none h0 hseg2 hnd2 hh02
                    exact segOK_of_data_eq _ (some k) none hrp rfl
                  · intro j hj
                    show ((((s1.writeHolder k
                      { v with data := some t, prev := none, next := some hh }).writeHolder
                        hh { h0 with prev := some k })).payloadAt j)
                      = s1.payloadAt j
                    by_cases hjh : j = hh
                    · subst hjh
                      rw [payloadAt_writeHolder_self _ j _ (lt_length_of_slot _ j _ hh02)]
                      show h0.data = s1.payloadAt j
                      unfold payloadAt
                      rw [hh01]
                    · rw [payloadAt_writeHolder_ne _ hh _ j (fun he => hjh he.symm)]
                      exact payloadAt_writeHolder_ne s1 k _ j (fun he => hj he.symm)

end TimeSeriesData

namespace TimeSeriesData

variable {T : Type}

/-- Inserting a key that is not currently resident either preserves the
LRU representation invariant, or dies (the slot-vector bounds panic). -/
theorem add_LruInv (src : DatedSource T) (s : TimeSeriesData T) (key : Nat)
    (v : T) (d : Bool) (hinv : LruInv s) (hnr : s.payloadAt key = none) :
    LruInv (add src s key v d).1 ∨ deadOf (add src s key v d).2 = true := by
  unfold add
  cases hc : cleanup src s with
  | mk s1 r1 =>
    have hinv1 : LruInv s1 := by
      have := cleanup_LruInv src s hinv
      rw [hc] at this
      exact this
    cases r1 with
    | error e => exact Or.inl hinv1
    | ok u =>
      have hkph : s1.payloadAt key = none := by
        have hfr := cleanup_frame src s
        rw [hc] at hfr
        exact hfr.1 key hnr
      obtain ⟨L1, hhead1, htail1, hseg1, hnd1, hresAll1, hresIn1⟩ := hinv1
      have hknl : key ∉ L1 := by
        intro hm
        have := hresAll1 key hm
        unfold residentB at this
        rw [hkph] at this
        exact Bool.noConfusion this
      simp only
      unfold attach
      cases hh1 : s1.head with
      | none =>
        simp only
        have hL1e : L1 = [] := by
          cases hx : L1 with
          | nil => rfl
          | cons y ys =>
            rw [hx] at hhead1
            rw [hh1] at hhead1
            exact Option.noConfusion hhead1
        subst hL1e
        split
        · rename_i hkb
          have hbase : LruInv ((({ s1 with tail := some key, head := some key, active_items := usizeAdd1 s1.active_items } : TimeSeriesData T)).writeHolder key { data := some v, key := key, prev := none, next := none }) := by
            refine linkAtHead_LruInv s1 _ key { data := some v, key := key, prev := none, next := none } [] hnd1 hresAll1 hresIn1 hknl rfl rfl rfl rfl rfl ?_ trivial ?_
            · exact getElem?_writeHolder_self _ key _ hkb
            · intro j hj
              exact payloadAt_writeHolder_ne _ key _ j (fun he => hj he.symm)
          refine Or.inl (LruInv_of_core_eq hbase ?_ ?_ ?_) <;>
            (split <;> split <;> rfl)
        · exact Or.inr rfl
      | some hh =>
        simp only
        have hhmem : hh ∈ L1 :=
          head?_mem_of_eq L1 hh (by rw [← hhead1, hh1])
        have hhk : hh ≠ key := fun he => hknl (he ▸ hhmem)
        obtain ⟨AB1, hAB1⟩ : ∃ AB1, L1 = hh :: AB1 := by
          cases hx : L1 with
          | nil =>
            rw [hx, List.head?_nil] at hhead1
            rw [hh1] at hhead1
            exact Option.noConfusion hhead1
          | cons y ys =>
            have h2 : L1.head? = some hh := by rw [← hhead1, hh1]
            rw [hx] at h2
            injection h2 with h2
            exact ⟨ys, by rw [h2]⟩
        obtain ⟨h0, hh01⟩ := segOK_mem_slot L1 none none hseg1 hh hhmem
        rw [hh01]
        simp only
        split
        · rename_i hkb
          have hbase : LruInv ((({ s1.writeHolder hh { h0 with prev := some key } with head := some key, active_items := usizeAdd1 (s1.writeHolder hh { h0 with prev := some key }).active_items } : TimeSeriesData T)).writeHolder key { data := some v, key := key, prev := none, next := some hh }) := by
            refine linkAtHead_LruInv s1 _ key { data := some v, key := key, prev := none, next := some hh } L1 hnd1 hresAll1 hresIn1 hknl rfl rfl (by rw [← hhead1, hh1]) rfl ?_ ?_ ?_ ?_
            · show (s1.tail : Option Nat) = Option.or L1.getLast? (some key)
              rw [htail1]
              obtain ⟨y, hy⟩ := getLast?_isSome_of_ne_nil L1
                (by rw [hAB1]; exact List.cons_ne_nil hh AB1)
              rw [hy]
              rfl
            · exact getElem?_writeHolder_self _ key _ hkb
            · rw [hAB1]
              have hrp := segOK_reprev hh AB1 none (some key) none h0
                (hAB1 ▸ hseg1) (hAB1 ▸ hnd1) hh01
              have hseg2 : segOK ((s1.writeHolder hh { h0 with prev := some key }).writeHolder key { data := some v, key := key, prev := none, next := some hh }) (some key) (hh :: AB1) none := by
                refine segOK_frame (hh :: AB1) (some key) none (fun j hj => ?_) hrp
                exact getElem?_writeHolder_ne _ key _ j
                  (fun he => hknl (by rw [he, hAB1]; exact hj))
              exact segOK_of_data_eq _ (some key) none hseg2 rfl
            · intro j hj
              show (((({ s1.writeHolder hh { h0 with prev := some key } with head := some key, active_items := usizeAdd1 (s1.writeHolder hh { h0 with prev := some key }).active_items } : TimeSeriesData T)).writeHolder key { data := some v, key := key, prev := none, next := some hh }).payloadAt j) = s1.payloadAt j
              rw [payloadAt_writeHolder_ne _ key _ j (fun he => hj he.symm)]
              show ((s1.writeHolder hh { h0 with prev := some key }).payloadAt j) = s1.payloadAt j
              by_cases hjh : j = hh
              · subst hjh
                rw [payloadAt_writeHolder_self s1 j _ (lt_length_of_slot s1 j _ hh01)]
                show h0.data = s1.payloadAt j
                unfold payloadAt
                rw [hh01]
              · exact payloadAt_writeHolder_ne s1 hh _ j (fun he => hjh he.symm)
          refine Or.inl (LruInv_of_core_eq hbase ?_ ?_ ?_) <;>
            (split <;> split <;> rfl)
        · exact Or.inr rfl

end TimeSeriesData

namespace TimeSeriesData

variable {T : Type}

/-- Death of an error result does not depend on the value type. -/
theorem deadOf_error_eq {α β : Type} {e : TsError}
    (h : deadOf (Except.error e : Except TsError α) = true) :
    deadOf (Except.error e : Except TsError β) = true := by
  cases e with
  | io => exact Bool.noConfusion h
  | fatal => rfl
  | hang => rfl

/-- The body of `get`'s scan preserves the invariant unless it dies. -/
theorem getHit_LruInv (src : DatedSource T) (s : TimeSeriesData T) (i : Nat)
    (hinv : LruInv s) :
    LruInv (getHit src s i).1 ∨ deadOf (getHit src s i).2 = true := by
  unfold getHit
  cases hg : get_t src s i with
  | mk s1 r1 =>
    have hgt := get_t_LruInv src s i hinv
    rw [hg] at hgt
    cases r1 with
    | ok w =>
      cases hgt with
      | inl h2 => exact Or.inl h2
      | inr h2 => exact Or.inr h2
    | error e =>
      cases hgt with
      | inl h2 => exact Or.inl h2
      | inr h2 =>
        refine Or.inr ?_
        simp only
        exact deadOf_error_eq h2

/-- `get`'s descending scan preserves the invariant unless it dies. -/
theorem getLoop_LruInv (src : DatedSource T) (s : TimeSeriesData T)
    (hinv : LruInv s) :
    ∀ i, LruInv (getLoop src s i).1 ∨ deadOf (getLoop src s i).2 = true := by
  intro i
  induction i with
  | zero =>
    unfold getLoop
    cases hp : s.data[0]? with
    | none => exact Or.inr rfl
    | some o =>
      cases o with
      | none => exact Or.inl hinv
      | some v => exact getHit_LruInv src s 0 hinv
  | succ i ih =>
    unfold getLoop
    cases hp : s.data[i + 1]? with
    | none => exact Or.inr rfl
    | some o =>
      cases o with
      | none => exact ih
      | some v => exact getHit_LruInv src s (i + 1) hinv

/-- `get` preserves the invariant unless it dies. -/
theorem get_LruInv (src : DatedSource T) (s : TimeSeriesData T) (date : Nat)
    (hinv : LruInv s) :
    LruInv (get src s date).1 ∨ deadOf (get src s date).2 = true := by
  unfold get
  cases hv : validate_index s.index_calculator date with
  | error e => exact Or.inl hinv
  | ok idx1 => exact getLoop_LruInv src s hinv idx1

/-- `get_range`'s ascending scan preserves the invariant unless it
dies. -/
theorem rangeLoop_LruInv (src : DatedSource T) :
    ∀ (n i stop : Nat) (s : TimeSeriesData T) (acc : List (Nat × T)),
      stop + 1 - i ≤ n → LruInv s →
      LruInv (rangeLoop src i stop s acc).1 ∨
      deadOf (rangeLoop src i stop s acc).2 = true := by
  intro n
  induction n with
  | zero =>
    intro i stop s acc hle hinv
    unfold rangeLoop
    rw [if_pos (by omega)]
    exact Or.inl hinv
  | succ n ih =>
    intro i stop s acc hle hinv
    unfold rangeLoop
    by_cases hlt : stop < i
    · rw [if_pos hlt]
      exact Or.inl hinv
    · rw [if_neg hlt]
      cases hp : s.data[i]? with
      | none => exact Or.inr rfl
      | some o =>
        cases o with
        | none => exact ih (i + 1) stop s acc (by omega) hinv
        | some v =>
          simp only
          cases hg : get_t src s i with
          | mk s1 r1 =>
            have hgt := get_t_LruInv src s i hinv
            rw [hg] at hgt
            cases r1 with
            | ok t =>
              cases hgt with
              | inl h2 => exact ih (i + 1) stop s1 (acc ++ [(i, t)]) (by omega) h2
              | inr h2 => exact absurd h2 (by simp [deadOf])
            | error e =>
              cases hgt with
              | inl h2 => exact Or.inl h2
              | inr h2 =>
                refine Or.inr ?_
                simp only
                exact deadOf_error_eq h2

/-- `get_range` preserves the invariant unless it dies. -/
theorem get_range_LruInv (src : DatedSource T) (s : TimeSeriesData T)
    (fromD toD : Nat) (hinv : LruInv s) :
    LruInv (get_range src s fromD toD).1 ∨
    deadOf (get_range src s fromD toD).2 = true := by
  unfold get_range
  by_cases hmi : s.max_index = -1
  · rw [if_pos hmi]
    exact Or.inl hinv
  · rw [if_neg hmi]
    simp only
    cases hv : validate_index s.index_calculator toD with
    | error e => exact Or.inl hinv
    | ok idx2v =>
      exact rangeLoop_LruInv src _ _ _ s [] (le_refl _) hinv

/-- Every public operation that does not re-insert a resident key
preserves the invariant, unless the execution dies. -/
theorem applyOp_LruInv (src : DatedSource T) (s : TimeSeriesData T)
    (op : CacheOp T) (hinv : LruInv s) (hnr : notResidentReAdd s op)
    (hok : (s.applyOp src op).2 = false) : LruInv (s.applyOp src op).1 := by
  cases op with
  | addOp k v d =>
    have := add_LruInv src s k v d hinv hnr
    cases this with
    | inl h2 => exact h2
    | inr h2 => exact absurd (show (s.applyOp src (.addOp k v d)).2 = true from h2) (by rw [hok]; simp)
  | getOp dte =>
    have := get_LruInv src s dte hinv
    cases this with
    | inl h2 => exact h2
    | inr h2 => exact absurd (show (s.applyOp src (.getOp dte)).2 = true from h2) (by rw [hok]; simp)
  | rangeOp a b =>
    have := get_range_LruInv src s a b hinv
    cases this with
    | inl h2 => exact h2
    | inr h2 => exact absurd (show (s.applyOp src (.rangeOp a b)).2 = true from h2) (by rw [hok]; simp)

end TimeSeriesData

/-- The LRU representation invariant holds in every state reachable
without re-inserting an already-resident key. -/
theorem lruInv_reachNR {T : Type} (src : DatedSource T)
    (s0 s : TimeSeriesData T) (h0 : TimeSeriesData.LruInv s0)
    (hr : ReachNR src s0 s) : TimeSeriesData.LruInv s := by
  induction hr with
  | refl => exact h0
  | step s' op hr' hnr hdead ih =>
    exact TimeSeriesData.applyOp_LruInv src s' op ih hnr hdead

namespace TimeSeriesData

/-- The per-file loop of `init` keeps the LRU list empty and every
slot payload-free. -/
theorem initLoop_blank {T : Type} (ic : Nat → Int) :
    ∀ (ds : List Nat) (s s' : TimeSeriesData T),
      initLoop ic ds s = .ok s' →
      s.head = none → s.tail = none → (∀ j, s.payloadAt j = none) →
      s'.head = none ∧ s'.tail = none ∧ ∀ j, s'.payloadAt j = none := by
  intro ds
  induction ds with
  | nil =>
    intro s s' h hh ht hp
    injection h with h
    rw [← h]
    exact ⟨hh, ht, hp⟩
  | cons d rest ih =>
    intro s s' h hh ht hp
    unfold initLoop at h
    cases hv : validate_index ic d with
    | error e =>
      rw [hv] at h
      exact Except.noConfusion h
    | ok key =>
      rw [hv] at h
      simp only at h
      by_cases hk : key < s.data.length
      · rw [if_pos hk] at h
        refine ih _ s' h (by split <;> exact hh) (by split <;> exact ht)
          (fun j => ?_)
        have hpj : (match (s.data.set key (some (DataHolder.empty key)))[j]? with
            | some (some h0) => h0.data
            | _ => none) = none := by
          by_cases hjk : j = key
          · subst hjk
            rw [List.getElem?_set_self (by omega)]
            rfl
          · rw [List.getElem?_set_ne (fun he => hjk he.symm)]
            exact hp j
        show _ = none
        split <;> exact hpj
      · rw [if_neg hk] at h
        exact Except.noConfusion h

/-- An initialized cache satisfies the LRU representation invariant
(with the empty list). -/
theorem init_LruInv {T : Type} (ic : Nat → Int) (max_active capacity : Nat)
    (dates : List Nat) (s0 : TimeSeriesData T)
    (hinit : init ic max_active capacity dates = .ok s0) : LruInv s0 := by
  have hb := initLoop_blank ic dates (new ic max_active capacity) s0 hinit
    rfl rfl (fun j => by
      show (match (List.replicate capacity (none : Option (DataHolder T)))[j]? with
        | some (some h0) => h0.data
        | _ => none) = none
      rw [List.getElem?_replicate]
      by_cases hj : j < capacity
      · rw [if_pos hj]
      · rw [if_neg hj])
  obtain ⟨hh, ht, hp⟩ := hb
  refine ⟨[], by rw [hh]; rfl, by rw [ht]; rfl, trivial, List.nodup_nil,
    fun k hk => absurd hk (List.not_mem_nil k), fun k hk => ?_⟩
  unfold residentB at hk
  rw [hp k] at hk
  exact Bool.noConfusion hk

end TimeSeriesData

/-- C4 (amended): in every state reachable from an initialized cache by
`add`/`get`/`range` sequences in which `add` never targets a
currently-resident key, the LRU list is readable from both ends, the
two traversals agree (one is the reverse of the other), and its
members are exactly the resident keys, each appearing once. -/
theorem c4_lru_unique {T : Type} (src : DatedSource T) (ic : Nat → Int)
    (max_active capacity : Nat) (dates : List Nat) (s0 s : TimeSeriesData T)
    (hinit : TimeSeriesData.init ic max_active capacity dates = .ok s0)
    (hreach : ReachNR src s0 s) :
    ∃ L : List Nat, s.traverseFromHead = some L ∧
      s.traverseFromTail = some L.reverse ∧ L.Nodup ∧
      (∀ k, s.residentB k = true ↔ k ∈ L) :=
  TimeSeriesData.traverse_of_LruInv s
    (lruInv_reachNR src s0 s
      (TimeSeriesData.init_LruInv ic max_active capacity dates s0 hinit) hreach)

def c4ic : Nat → Int := fun d => (d : Int)

def c4src : DatedSource Nat :=
  { get_files := fun _ => .ok [], load := fun _ => .ok 0,
    save := fun _ _ => .ok () }

def c4s0 : TimeSeriesData Nat :=
  TimeSeriesData.new c4ic 10 2

def c4s1 : TimeSeriesData Nat :=
  (TimeSeriesData.applyOp c4src c4s0 (CacheOp.addOp 0 5 false)).1

def c4s2 : TimeSeriesData Nat :=
  (TimeSeriesData.applyOp c4src c4s1 (CacheOp.addOp 1 7 false)).1

/-- C4 witness: two inserts at fresh keys; the LRU list reads
`[1, 0]` from the head, its reverse from the tail, and lists exactly
the residents once. -/
theorem c4_lru_unique_witness :
    ∃ L : List Nat, c4s2.traverseFromHead = some L ∧
      c4s2.traverseFromTail = some L.reverse ∧ L.Nodup ∧
      (∀ k, c4s2.residentB k = true ↔ k ∈ L) :=
  c4_lru_unique c4src c4ic 10 2 [] c4s0 c4s2 (by rfl)
    (ReachNR.step c4s1 (CacheOp.addOp 1 7 false)
      (ReachNR.step c4s0 (CacheOp.addOp 0 5 false) ReachNR.refl (by rfl) (by rfl))
      (by rfl) (by rfl))

def c4bad : TimeSeriesData Nat :=
  (TimeSeriesData.applyOp c4src c4s1 (CacheOp.addOp 0 7 false)).1

/-- C4 counterexample: re-inserting the resident key 0 from the state
with only key 0 resident is a completed (non-panicking) `add`, and it
reaches a state where key 0 is resident but the list from the head is
unreadable (the entry links to itself), while the active counter
double-counts: resident keys no longer appear exactly once on the
list, and the entry was not merely re-linked. -/
theorem c4_lru_unique_counterexample :
    TimeSeriesData.init c4ic 10 2 ([] : List Nat) = .ok c4s0 ∧
    Reach c4src c4s0 c4bad ∧
    c4bad.residentB 0 = true ∧
    c4bad.traverseFromHead = none ∧
    c4bad.get_active_items = 2 ∧
    (∀ L : List Nat, c4bad.traverseFromHead = some L → False) :=
  ⟨by rfl,
   Reach.step c4s1 (CacheOp.addOp 0 7 false)
     (Reach.step c4s0 (CacheOp.addOp 0 5 false) Reach.refl (by rfl)) (by rfl),
   by rfl, by rfl, by rfl,
   fun L hL => by
     rw [show c4bad.traverseFromHead = none from rfl] at hL
     exact Option.noConfusion hL⟩
